import Mathlib

set_option maxHeartbeats 1000000

/-!
# Verification of the law_firm_dsa core (backend/data_structures.py, backend/core_logic.py)

Shallow embedding of the repository's custom data structures (Stack, circular Queue,
binary-heap PriorityQueue, chained HashTable) and of the case-management logic built
on them (CaseManager, AvailableCasesPool), together with proofs of the specified
properties.

Modelling conventions:
* Python's fixed-size backing arrays hold `None` in dead slots.  For `Stack` and
  `PriorityQueue` only the live prefix (indices `< top+1` / `< heap_size`) is ever
  observable, so it is modelled as a Lean list (for `Stack` the head is the top).
  The circular `Queue` genuinely uses dead slots, so it is modelled with the full
  fixed-length array of `Option` values and explicit `front`/`rear`/`count` indices,
  `-1` sentinels included.
* Python dictionaries are modelled as association lists (first-match lookup) when
  they are iterated or summed over, and as unordered key maps otherwise.
* Nondeterministic inputs (`datetime.now()`, `uuid`) are explicit parameters.
* Python exceptions escaping a method are modelled with `Except`/`Option` results.
-/

namespace LawFirm

/-! ## Generic list helpers: indexed access and swapping, as used by the heap code -/

/-- Read a list at an index with a default, standing for Python array indexing that
is only ever performed in range by the translated code. -/
def hget [Inhabited α] (l : List α) (i : Nat) : α := l.getD i default

/-- Swap the entries at two indices (`self._swap` in the Python heap). -/
def lswap [Inhabited α] (l : List α) (i j : Nat) : List α :=
  (l.set i (hget l j)).set j (hget l i)

/-! ## Stack (`data_structures.py`, class `Stack`)

Fixed-capacity LIFO array with a `top` index.  The live prefix `items[0..top]`
is modelled as a list whose head is the top element. -/

structure Stack (α : Type) where
  capacity : Nat
  items : List α
deriving Repr, DecidableEq

namespace Stack

def DEFAULT_CAPACITY : Nat := 1000

def mkEmpty (α : Type) (capacity : Nat := DEFAULT_CAPACITY) : Stack α :=
  ⟨capacity, []⟩

/-- `push`: fails (returning `false`, stack unchanged) on overflow, i.e. when
`top >= capacity - 1`, which for the live-prefix model is `length ≥ capacity`. -/
def push (s : Stack α) (item : α) : Bool × Stack α :=
  if s.items.length ≥ s.capacity then (false, s)
  else (true, ⟨s.capacity, item :: s.items⟩)

/-- `pop`: returns `None` on underflow, else the top element. -/
def pop (s : Stack α) : Option α × Stack α :=
  match s.items with
  | [] => (none, s)
  | x :: rest => (some x, ⟨s.capacity, rest⟩)

def is_empty (s : Stack α) : Bool := s.items.isEmpty

def size (s : Stack α) : Nat := s.items.length

end Stack

/-! ## Queue (`data_structures.py`, class `Queue`)

FIFO queue over a fixed-size circular array with `front`/`rear` indices
(`-1` meaning empty) and an element `count`.  The backing array is modelled
in full, dead slots holding `none`. -/

structure Queue (α : Type) where
  capacity : Nat
  items : List (Option α)
  front : Int
  rear : Int
  count : Nat
deriving Repr, DecidableEq

namespace Queue

def DEFAULT_CAPACITY : Nat := 1000

def mkEmpty (α : Type) (capacity : Nat := DEFAULT_CAPACITY) : Queue α :=
  ⟨capacity, List.replicate capacity none, -1, -1, 0⟩

/-- `enqueue`: fails when `count >= capacity`; first element sets
`front = rear = 0`, otherwise `rear` advances circularly. -/
def enqueue (q : Queue α) (item : α) : Bool × Queue α :=
  if q.count ≥ q.capacity then (false, q)
  else
    let fr : Int × Int :=
      if q.front = -1 then (0, 0)
      else (q.front, (q.rear + 1) % (q.capacity : Int))
    (true, ⟨q.capacity, q.items.set fr.2.toNat (some item), fr.1, fr.2, q.count + 1⟩)

/-- `dequeue`: returns `None` when empty; clears the front slot, and resets
both indices to `-1` when the last element is removed. -/
def dequeue (q : Queue α) : Option α × Queue α :=
  if q.front = -1 then (none, q)
  else
    let item := hget q.items q.front.toNat
    let items' := q.items.set q.front.toNat none
    if q.count - 1 = 0 then (item, ⟨q.capacity, items', -1, -1, 0⟩)
    else
      (item, ⟨q.capacity, items', (q.front + 1) % (q.capacity : Int), q.rear, q.count - 1⟩)

def is_empty (q : Queue α) : Bool := q.front = -1

def size (q : Queue α) : Nat := q.count

/-- Circular traversal used by `get_all`: `k` elements starting at index `i`. -/
def getAllAux (items : List (Option α)) (cap : Nat) : Nat → Nat → List (Option α)
  | _, 0 => []
  | i, Nat.succ k => hget items i :: getAllAux items cap ((i + 1) % cap) k

/-- `get_all`: all elements from front to rear, without mutation. -/
def get_all (q : Queue α) : List (Option α) :=
  if q.front = -1 then [] else getAllAux q.items q.capacity q.front.toNat q.count

/-- Structural invariant tying `front`, `rear` and `count` together. -/
def Inv (q : Queue α) : Prop :=
  q.items.length = q.capacity ∧ q.count ≤ q.capacity ∧
    (if q.count = 0 then q.front = -1 ∧ q.rear = -1
     else ∃ f : Nat, q.front = (f : Int) ∧ f < q.capacity ∧
            q.rear = (((f + q.count - 1) % q.capacity : Nat) : Int))

end Queue

/-! ### FIFO refinement for the circular queue -/

/-- A queue operation: either `enqueue item` or `dequeue`. -/
inductive QOp (α : Type) where
  | enq : α → QOp α
  | deq : QOp α
deriving Repr, DecidableEq

/-- Observable result of one queue operation. -/
inductive QOut (α : Type) where
  | enqRes : Bool → QOut α
  | deqRes : Option α → QOut α
deriving Repr, DecidableEq

def queueStep (q : Queue α) : QOp α → Queue α × QOut α
  | .enq x => ((Queue.enqueue q x).2, .enqRes (Queue.enqueue q x).1)
  | .deq => ((Queue.dequeue q).2, .deqRes (Queue.dequeue q).1)

def runQueue (q : Queue α) : List (QOp α) → Queue α × List (QOut α)
  | [] => (q, [])
  | op :: ops =>
    let s := queueStep q op
    let r := runQueue s.1 ops
    (r.1, s.2 :: r.2)

/-- Modelled from the spec: the ideal capacity-bounded FIFO that the circular
queue is claimed to implement — `enqueue` appends at the back unless `cap`
elements are held, `dequeue` removes at the front. -/
def fifoStep (cap : Nat) (l : List α) : QOp α → List α × QOut α
  | .enq x => if l.length ≥ cap then (l, .enqRes false) else (l ++ [x], .enqRes true)
  | .deq =>
    match l with
    | [] => ([], .deqRes none)
    | x :: t => (t, .deqRes (some x))

def runFifo (cap : Nat) (l : List α) : List (QOp α) → List α × List (QOut α)
  | [] => (l, [])
  | op :: ops =>
    let s := fifoStep cap l op
    let r := runFifo cap s.1 ops
    (r.1, s.2 :: r.2)

/-! ## PriorityQueue (`data_structures.py`, class `PriorityQueue`)

Fixed-capacity binary min-heap over entries `(priority, counter, item)`; the
`counter` is a monotone insertion counter giving FIFO order among equal
priorities.  The heap array's live prefix (`indices < heap_size`) is modelled
as a list. -/

structure PQEntry (α : Type) where
  priority : Nat
  counter : Nat
  item : α
deriving Repr, DecidableEq

instance [Inhabited α] : Inhabited (PQEntry α) := ⟨⟨0, 0, default⟩⟩

structure PriorityQueue (α : Type) where
  capacity : Nat
  heap : List (PQEntry α)
  entry_counter : Nat
deriving Repr, DecidableEq

namespace PriorityQueue

def DEFAULT_CAPACITY : Nat := 1000

def mkEmpty (α : Type) (capacity : Nat := DEFAULT_CAPACITY) : PriorityQueue α :=
  ⟨capacity, [], 0⟩

/-- `self._compare`: strict lexicographic comparison, priority then counter. -/
def cmpEntry (e1 e2 : PQEntry α) : Bool :=
  if e1.priority ≠ e2.priority then e1.priority < e2.priority
  else e1.counter < e2.counter

/-- `self._heapify_up`: bubble the entry at `i` towards the root while it
compares below its parent `(i-1)/2`. -/
def heapifyUp [Inhabited α] (l : List (PQEntry α)) (i : Nat) : List (PQEntry α) :=
  if h : 0 < i then
    if cmpEntry (hget l i) (hget l ((i - 1) / 2))
    then heapifyUp (lswap l i ((i - 1) / 2)) ((i - 1) / 2)
    else l
  else l
termination_by i
decreasing_by omega

/-- Index of the smallest among `i` and its two children, exactly as the two
successive `if` tests in `self._heapify_down` compute it. -/
def pickSmallest [Inhabited α] (l : List (PQEntry α)) (i : Nat) : Nat :=
  let s1 := if 2 * i + 1 < l.length ∧ cmpEntry (hget l (2 * i + 1)) (hget l i) = true
            then 2 * i + 1 else i
  if 2 * i + 2 < l.length ∧ cmpEntry (hget l (2 * i + 2)) (hget l s1) = true
  then 2 * i + 2 else s1

/-- `self._heapify_down`: push the entry at `i` towards the leaves, swapping
with the smaller child while one compares below it. -/
def heapifyDown [Inhabited α] (l : List (PQEntry α)) (i : Nat) : List (PQEntry α) :=
  if h : pickSmallest l i ≠ i
  then heapifyDown (lswap l i (pickSmallest l i)) (pickSmallest l i)
  else l
termination_by l.length - i
decreasing_by
  simp only [lswap, List.length_set]
  have hc : pickSmallest l i = i ∨ (i < pickSmallest l i ∧ pickSmallest l i < l.length) := by
    unfold pickSmallest
    dsimp only
    split_ifs <;> omega
  rcases hc with hc | hc
  · exact absurd hc h
  · omega

/-- `enqueue`: fails when the heap is full; otherwise places the new entry at
the end and restores the heap property upward. -/
def enqueue [Inhabited α] (pq : PriorityQueue α) (item : α) (priority : Nat) :
    Bool × PriorityQueue α :=
  if pq.heap.length ≥ pq.capacity then (false, pq)
  else
    (true, ⟨pq.capacity,
      heapifyUp (pq.heap ++ [⟨priority, pq.entry_counter, item⟩]) pq.heap.length,
      pq.entry_counter + 1⟩)

/-- The heap left after extracting the root: the last live entry moves to the
root and is pushed back down. -/
def popRebuild [Inhabited α] (l : List (PQEntry α)) : List (PQEntry α) :=
  if l.length ≤ 1 then []
  else heapifyDown ((l.set 0 (hget l (l.length - 1))).take (l.length - 1)) 0

/-- `dequeue`: returns the root's item, or `None` when empty. -/
def dequeue [Inhabited α] (pq : PriorityQueue α) : Option α × PriorityQueue α :=
  if pq.heap.length = 0 then (none, pq)
  else (some (hget pq.heap 0).item, ⟨pq.capacity, popRebuild pq.heap, pq.entry_counter⟩)

def peek [Inhabited α] (pq : PriorityQueue α) : Option α :=
  if pq.heap.length = 0 then none else some (hget pq.heap 0).item

def is_empty (pq : PriorityQueue α) : Bool := pq.heap.length = 0

def size (pq : PriorityQueue α) : Nat := pq.heap.length

/-- The inner `for j in range(0, stop)` loop of `get_all`'s bubble sort. -/
def bubbleInner [Inhabited α] (l : List (PQEntry α)) (j stop : Nat) : List (PQEntry α) :=
  if j < stop then
    bubbleInner
      (if ¬ (cmpEntry (hget l j) (hget l (j + 1)) = true) then lswap l j (j + 1) else l)
      (j + 1) stop
  else l
termination_by stop - j
decreasing_by omega

/-- The outer `for i in range(n)` loop of `get_all`'s bubble sort. -/
def bubbleOuter [Inhabited α] (l : List (PQEntry α)) (i n : Nat) : List (PQEntry α) :=
  if i < n then bubbleOuter (bubbleInner l 0 (n - i - 1)) (i + 1) n else l
termination_by n - i
decreasing_by omega

/-- `get_all`: all items sorted by (priority, counter) via a manual bubble
sort over a copy of the live entries; the heap itself is not modified. -/
def get_all [Inhabited α] (pq : PriorityQueue α) : List α :=
  if pq.heap.length = 0 then []
  else (bubbleOuter pq.heap 0 pq.heap.length).map PQEntry.item

/-- The entry sequence obtained by repeatedly extracting the root (fuelled;
`popRebuild` shrinks the heap by one, so `l.length` units of fuel drain it). -/
def popAllFuel [Inhabited α] : Nat → List (PQEntry α) → List (PQEntry α)
  | 0, _ => []
  | _, [] => []
  | Nat.succ fuel, l => hget l 0 :: popAllFuel fuel (popRebuild l)

def popAll [Inhabited α] (l : List (PQEntry α)) : List (PQEntry α) :=
  popAllFuel l.length l

/-- The item sequence produced by repeatedly calling `dequeue` until empty. -/
def drain [Inhabited α] (pq : PriorityQueue α) : List α :=
  (popAll pq.heap).map PQEntry.item

/-- Strict entry order decided by `_compare`: priority, then insertion counter. -/
def keyLt (e f : PQEntry α) : Prop :=
  e.priority < f.priority ∨ (e.priority = f.priority ∧ e.counter < f.counter)

/-- Non-strict entry order. -/
def keyLe (e f : PQEntry α) : Prop :=
  e.priority < f.priority ∨ (e.priority = f.priority ∧ e.counter ≤ f.counter)

instance : DecidablePred (fun p : PQEntry α × PQEntry α => keyLt p.1 p.2) :=
  fun _ => by unfold keyLt; infer_instance

/-- Distinct insertion counters. -/
def CtrNodup (l : List (PQEntry α)) : Prop := (l.map PQEntry.counter).Nodup

/-- The binary min-heap property over the live entry list. -/
def HeapProp [Inhabited α] (l : List (PQEntry α)) : Prop :=
  ∀ i j, j < l.length → (j = 2 * i + 1 ∨ j = 2 * i + 2) → keyLe (hget l i) (hget l j)

/-- Well-formedness of a reachable priority queue: heap-ordered live entries,
distinct counters all below the running counter, within capacity. -/
def Wf [Inhabited α] (pq : PriorityQueue α) : Prop :=
  HeapProp pq.heap ∧ CtrNodup pq.heap ∧
    (∀ e ∈ pq.heap, e.counter < pq.entry_counter) ∧ pq.heap.length ≤ pq.capacity

/-- Heap property everywhere except possibly on the edge into `i`, plus the
grandparent condition over `i`'s children: the precondition of `heapifyUp`. -/
def UpInv [Inhabited α] (l : List (PQEntry α)) (i : Nat) : Prop :=
  (∀ a b, b < l.length → (b = 2 * a + 1 ∨ b = 2 * a + 2) → b ≠ i →
    keyLe (hget l a) (hget l b)) ∧
  (∀ b, b < l.length → (b = 2 * i + 1 ∨ b = 2 * i + 2) → 0 < i →
    keyLe (hget l ((i - 1) / 2)) (hget l b))

/-- Heap property everywhere except possibly on the edges out of `i`, plus the
parent-of-`i`-dominates-children-of-`i` condition: precondition of `heapifyDown`. -/
def DownInv [Inhabited α] (l : List (PQEntry α)) (i : Nat) : Prop :=
  (∀ a b, b < l.length → (b = 2 * a + 1 ∨ b = 2 * a + 2) → a ≠ i →
    keyLe (hget l a) (hget l b)) ∧
  (∀ b, b < l.length → (b = 2 * i + 1 ∨ b = 2 * i + 2) → 0 < i →
    keyLe (hget l ((i - 1) / 2)) (hget l b))

/-- All of the first `j+1` entries compare at or below the entry at `j`:
the inner bubble-sort loop's invariant. -/
def MaxAt [Inhabited α] (l : List (PQEntry α)) (j : Nat) : Prop :=
  ∀ m, m ≤ j → keyLe (hget l m) (hget l j)

/-- After `i` outer bubble-sort iterations the last `i` positions are sorted
and dominate everything before them. -/
def OuterInv [Inhabited α] (l : List (PQEntry α)) (n i : Nat) : Prop :=
  ∀ x y, x < y → y < n → n - i ≤ y → keyLe (hget l x) (hget l y)

end PriorityQueue

/-- The (priority, counter, item) entries produced by enqueueing `pairs`
(item, priority) in order, starting from insertion counter `c0`. -/
def entriesOf (pairs : List (α × Nat)) (c0 : Nat) : List (PQEntry α) :=
  match pairs with
  | [] => []
  | p :: rest => ⟨p.2, c0, p.1⟩ :: entriesOf rest (c0 + 1)

def enqueueAll [Inhabited α] (pq : PriorityQueue α) (pairs : List (α × Nat)) :
    PriorityQueue α :=
  pairs.foldl (fun pq p => (PriorityQueue.enqueue pq p.1 p.2).2) pq

/-! ## Dictionary helpers: Python `dict` as an association list
(first-match lookup, in-place update, append of fresh keys). -/

def dictGet (l : List (String × β)) (k : String) : Option β :=
  match l with
  | [] => none
  | (k', v) :: t => if k' = k then some v else dictGet t k

def dictSet (l : List (String × β)) (k : String) (v : β) : List (String × β) :=
  match l with
  | [] => [(k, v)]
  | (k', v') :: t => if k' = k then (k, v) :: t else (k', v') :: dictSet t k v

/-- The element list a Python caller iterates when reading a `Queue` via
`get_all()`: under the queue invariant every slot of the live window holds a
value, so discarding the `Option` layer is exact. -/
def queueItems (q : Queue α) : List α := (Queue.get_all q).filterMap id

/-! ## HashTable (`data_structures.py`, class `HashTable`)

Open hashing with singly linked chains; a chain is a list with the most
recently inserted node at the head. -/

structure HashTable (α : Type) where
  size : Nat
  table : List (List (String × α))
  count : Nat
deriving Repr, DecidableEq

namespace HashTable

def DEFAULT_SIZE : Nat := 101

def mkEmpty (α : Type) (size : Nat := DEFAULT_SIZE) : HashTable α :=
  ⟨size, List.replicate size [], 0⟩

/-- `_hash`: ASCII sum with 1-based position weighting (`position` is
incremented before each use), reduced modulo the table size. -/
def hashAux : List Char → Nat → Nat → Nat
  | [], _, acc => acc
  | c :: cs, position, acc => hashAux cs (position + 1) (acc + c.toNat * (position + 1))

def hashOf (key : String) (size : Nat) : Nat :=
  hashAux key.data 0 0 % size

/-- Chain traversal of `put`'s update phase: replace the value at the first
node carrying `key`, or report that no node does. -/
def updateChain (chain : List (String × α)) (key : String) (value : α) :
    Option (List (String × α)) :=
  match chain with
  | [] => none
  | (k, v) :: rest =>
    if k = key then some ((k, value) :: rest)
    else (updateChain rest key value).map (fun r => (k, v) :: r)

def put (ht : HashTable α) (key : String) (value : α) : HashTable α :=
  let index := hashOf key ht.size
  let bucket := ht.table.getD index []
  match updateChain bucket key value with
  | some c => ⟨ht.size, ht.table.set index c, ht.count⟩
  | none => ⟨ht.size, ht.table.set index ((key, value) :: bucket), ht.count + 1⟩

def getChain (chain : List (String × α)) (key : String) : Option α :=
  match chain with
  | [] => none
  | (k, v) :: rest => if k = key then some v else getChain rest key

def get (ht : HashTable α) (key : String) : Option α :=
  getChain (ht.table.getD (hashOf key ht.size) []) key

def chainHasKey (chain : List (String × α)) (key : String) : Bool :=
  match chain with
  | [] => false
  | (k, _) :: rest => if k = key then true else chainHasKey rest key

def contains (ht : HashTable α) (key : String) : Bool :=
  chainHasKey (ht.table.getD (hashOf key ht.size) []) key

/-- Chain traversal of `remove`: drop the first node carrying `key`,
relinking the chain, or report that no node does. -/
def removeChain (chain : List (String × α)) (key : String) :
    Option (List (String × α)) :=
  match chain with
  | [] => none
  | (k, v) :: rest =>
    if k = key then some rest
    else (removeChain rest key).map (fun r => (k, v) :: r)

def remove (ht : HashTable α) (key : String) : Bool × HashTable α :=
  let index := hashOf key ht.size
  match removeChain (ht.table.getD index []) key with
  | some c => (true, ⟨ht.size, ht.table.set index c, ht.count - 1⟩)
  | none => (false, ht)

def get_all_values (ht : HashTable α) : List α :=
  (ht.table.map (fun chain => chain.map Prod.snd)).flatten

/-- Well-formedness: correct bucket array length, every node in the bucket its
key hashes to, and no duplicate keys within a chain. -/
def wf (ht : HashTable α) : Prop :=
  ht.table.length = ht.size ∧ 0 < ht.size ∧
    ∀ i, i < ht.size →
      ((ht.table.getD i []).map Prod.fst).Nodup ∧
        ∀ kv ∈ ht.table.getD i [], hashOf kv.1 ht.size = i

/-- Number of chain nodes carrying `key` anywhere in the table. -/
def keyOccurrences (ht : HashTable α) (key : String) : Nat :=
  (ht.table.map (fun chain => chain.countP (fun kv => kv.1 = key))).sum

end HashTable

/-! ## CaseManager (`core_logic.py`)

Case records, the state-transition table, creation/update/undo.  `uuid` ids
and `datetime.now()` are explicit parameters; a `Timestamp` carries both the
epoch seconds used for date arithmetic and the ISO string that is stored. -/

structure Timestamp where
  sec : Int
  iso : String
deriving Repr, DecidableEq

structure UpdateEntry where
  timestamp : String
  updated_by : String
  old_status : String
  new_status : String
  notes : String
deriving Repr, DecidableEq

structure CaseEvent where
  event_id : String
  event_type : String
  date : String
  description : String
  created_by : String
  created_at : String
deriving Repr, DecidableEq

structure Case where
  case_id : String
  client_id : String
  lawyer_id : Option String
  case_type : String
  description : String
  hearing_date : String
  urgency_level : String
  days_until_hearing : Int
  priority_score : Int
  status : String
  created_at : String
  updated_at : String
  updates : List UpdateEntry
  events : List CaseEvent
deriving Repr, DecidableEq

/-- Pre-update state pushed on the per-case undo stack. -/
structure Snapshot where
  status : String
  updates : List UpdateEntry
  updated_at : String
deriving Repr, DecidableEq

/-- `VALID_STATE_TRANSITIONS` with Python's `.get(current_status, [])`. -/
def VALID_STATE_TRANSITIONS (status : String) : List String :=
  if status = "created" then ["in_review", "active", "closed"]
  else if status = "in_review" then ["active", "created", "closed"]
  else if status = "active" then ["closed"]
  else []

structure CaseManager where
  case_store : HashTable Case
  case_history_stack : List (String × Stack Snapshot)
deriving Repr, DecidableEq

namespace CaseManager

def mkEmpty : CaseManager := ⟨HashTable.mkEmpty Case, []⟩

/-- `create_case`.  `days_until` is Python's `(hearing - now).days`, i.e. the
floor of the time difference in days (modelled at second granularity). -/
def create_case (m : CaseManager) (caseId evtId : String) (now : Timestamp)
    (client_id case_type description hearing_date : String) (hearingSec : Int) :
    Case × CaseManager :=
  let days_until : Int := (hearingSec - now.sec).fdiv 86400
  let urgency_level :=
    if days_until ≤ 7 then "urgent"
    else if days_until ≤ 14 then "high"
    else "normal"
  let priority_score := max 0 days_until
  let c : Case :=
    ⟨caseId, client_id, none, case_type, description, hearing_date,
     urgency_level, days_until, priority_score, "created", now.iso, now.iso, [],
     [⟨evtId, "hearing", hearing_date, "Court hearing", "system", now.iso⟩]⟩
  (c, ⟨m.case_store.put caseId c,
       dictSet m.case_history_stack caseId (Stack.mkEmpty Snapshot)⟩)

/-- `update_case_status`.  Returns `none` for the uncaught `KeyError` Python
would raise if a case existed in the store without an undo stack (the code
indexes `case_history_stack[case_id]` unguarded); every case made by
`create_case` has one. -/
def update_case_status (m : CaseManager) (case_id new_status updated_by notes : String)
    (now : Timestamp) : Option ((Bool × String) × CaseManager) :=
  match m.case_store.get case_id with
  | none => some ((false, "Case not found"), m)
  | some case_ =>
    let current_status := case_.status
    if new_status ∈ VALID_STATE_TRANSITIONS current_status then
      match dictGet m.case_history_stack case_id with
      | none => none
      | some stack =>
        let previous_state : Snapshot := ⟨current_status, case_.updates, case_.updated_at⟩
        let stack' := (stack.push previous_state).2
        let update_entry : UpdateEntry :=
          ⟨now.iso, updated_by, current_status, new_status, notes⟩
        let case' : Case :=
          { case_ with
            status := new_status,
            updates := case_.updates ++ [update_entry],
            updated_at := now.iso }
        some ((true, "Update successful"),
          ⟨m.case_store.put case_id case', dictSet m.case_history_stack case_id stack'⟩)
    else
      some ((false, "Invalid transition from " ++ current_status ++ " to " ++ new_status), m)

/-- `undo_last_update`: pops the latest snapshot and restores it verbatim. -/
def undo_last_update (m : CaseManager) (case_id : String) :
    (Bool × String) × CaseManager :=
  match dictGet m.case_history_stack case_id with
  | none => ((false, "No history found"), m)
  | some stack =>
    match stack.items with
    | [] => ((false, "No previous state to restore"), m)
    | previous_state :: rest =>
      let m1 : CaseManager :=
        ⟨m.case_store, dictSet m.case_history_stack case_id ⟨stack.capacity, rest⟩⟩
      match m.case_store.get case_id with
      | some case_ =>
        ((true, "Successfully undone"),
         ⟨m1.case_store.put case_id
            { case_ with
              status := previous_state.status,
              updates := previous_state.updates,
              updated_at := previous_state.updated_at },
          m1.case_history_stack⟩)
      | none => ((false, "Case not found"), m1)

/-- `get_lawyer_case_count` executes `list(self.case_store.cases.values())`,
but `CaseStore.cases` is the custom `HashTable` of `data_structures.py`, whose
enumerator is named `get_all_values`; there is no `values` attribute, so the
attribute lookup raises `AttributeError` before anything is counted.  The
embedding returns that exception for every input. -/
def get_lawyer_case_count (m : CaseManager) (lawyer_id : String) :
    Except String Nat :=
  Except.error "AttributeError: 'HashTable' object has no attribute 'values'"

/-- Modelled from the spec (and from the repository's earlier revision
`core_logic_clean.py`, which calls `get_all_cases()`): the count of stored
cases whose `lawyer_id` matches and whose status is not `closed` —
what `get_lawyer_case_count` is specified to return. -/
def intended_lawyer_case_count (m : CaseManager) (lawyer_id : String) : Nat :=
  (m.case_store.get_all_values.filter
    (fun c => c.lawyer_id = some lawyer_id ∧ c.status ≠ "closed")).length

/-- A user record as the routing layer stores it. -/
structure UserData where
  user_id : String
  role : String
  speciality : List String
deriving Repr, DecidableEq

/-- `find_available_lawyer` scans the lawyers; on the first one whose
speciality list contains the target it calls `self.get_lawyer_case_count`,
which raises `AttributeError` (see above).  Only when no lawyer matches does
the loop fall through and return `None`. -/
def find_available_lawyer (m : CaseManager) (speciality : String)
    (users : List UserData) : Except String (Option String) :=
  if (users.filter (fun u => u.role = "lawyer")).any
      (fun u => speciality ∈ u.speciality)
  then Except.error "AttributeError: 'HashTable' object has no attribute 'values'"
  else Except.ok none

/-- `create_case_with_assignment`: creates the case (already stored), then
evaluates `self.get_lawyer_case_count(selected_lawyer_id)`, which raises
`AttributeError` (see above), so no outcome tuple is ever returned.  (Even
with that call repaired, the fallback branch would subscript the *string*
returned by `find_available_lawyer` with `['user_id']`, a `TypeError`.) -/
def create_case_with_assignment (m : CaseManager) (caseId evtId : String)
    (now : Timestamp) (client_id case_type description hearing_date : String)
    (hearingSec : Int) (selected_lawyer_id speciality : String)
    (users : List UserData) :
    Except String (String × Case × Option UserData) × CaseManager :=
  let r := m.create_case caseId evtId now client_id case_type description
    hearing_date hearingSec
  (Except.error "AttributeError: 'HashTable' object has no attribute 'values'", r.2)

end CaseManager

/-! ## AvailableCasesPool (`core_logic.py`)

Urgent heap + normal FIFO + per-case assignment records + per-lawyer counters
+ per-lawyer direct-request queues. -/

/-- The case fields the pool logic reads. -/
structure PoolCase where
  case_id : String
  assignment_type : Option String
  requested_lawyer_id : Option String
  urgency : Bool
deriving Repr, DecidableEq

instance : Inhabited PoolCase := ⟨⟨"", none, none, false⟩⟩

/-- An assignment record (`case_assignments[case_id]`); fields the various
branches never set are `none`. -/
structure PoolAssignment where
  status : String
  requested_lawyer : Option String
  lawyer_id : Option String
  in_pool : Bool
  claimed_at : Option String
  assignment_type : Option String
  rejected_by : Option String
deriving Repr, DecidableEq

structure AvailableCasesPool where
  urgent_pool : PriorityQueue PoolCase
  normal_pool : Queue PoolCase
  case_assignments : List (String × PoolAssignment)
  lawyer_case_counts : List (String × Nat)
  pending_requests : List (String × Queue PoolCase)
deriving Repr, DecidableEq

namespace AvailableCasesPool

def MAX_CASES_PER_LAWYER : Nat := 2

def mkEmpty : AvailableCasesPool :=
  ⟨PriorityQueue.mkEmpty PoolCase, Queue.mkEmpty PoolCase, [], [], []⟩

/-- The non-direct arm of `add_to_pool`: file into the urgent heap or the
normal FIFO by the case's urgency flag, and record an `available`
assignment. -/
def addToGeneralPool (p : AvailableCasesPool) (c : PoolCase) : AvailableCasesPool :=
  if c.urgency then
    { p with
      urgent_pool := (p.urgent_pool.enqueue c 1).2,
      case_assignments := dictSet p.case_assignments c.case_id
        ⟨"available", none, none, true, none, none, none⟩ }
  else
    { p with
      normal_pool := (p.normal_pool.enqueue c).2,
      case_assignments := dictSet p.case_assignments c.case_id
        ⟨"available", none, none, true, none, none, none⟩ }

/-- `add_to_pool`.  A request is direct when `assignment_type == 'direct'` and
`requested_lawyer_id` is set (Python truthiness on the id: `none` models a
missing or empty id, so the conjunction falls through to the general pool). -/
def add_to_pool (p : AvailableCasesPool) (c : PoolCase) : AvailableCasesPool :=
  if c.assignment_type = some "direct" then
    match c.requested_lawyer_id with
    | some lawyer_id =>
      let q := (dictGet p.pending_requests lawyer_id).getD (Queue.mkEmpty PoolCase)
      { p with
        pending_requests := dictSet p.pending_requests lawyer_id (q.enqueue c).2,
        case_assignments := dictSet p.case_assignments c.case_id
          ⟨"pending_direct", some lawyer_id, none, false, none, none, none⟩ }
    | none => addToGeneralPool p c
  else addToGeneralPool p c

def get_lawyer_case_count (p : AvailableCasesPool) (lawyer_id : String) : Nat :=
  (dictGet p.lawyer_case_counts lawyer_id).getD 0

def can_lawyer_claim (p : AvailableCasesPool) (lawyer_id : String) : Bool × String :=
  if (dictGet p.lawyer_case_counts lawyer_id).getD 0 ≥ MAX_CASES_PER_LAWYER then
    (false, "Maximum case load reached (" ++ toString MAX_CASES_PER_LAWYER ++ " cases)")
  else (true, "OK")

/-- Rebuild of the urgent pool without the claimed case (fresh heap, every
survivor re-enqueued with priority 1, as the source does). -/
def rebuildUrgent (cs : List PoolCase) : PriorityQueue PoolCase :=
  cs.foldl (fun q c => (q.enqueue c 1).2) (PriorityQueue.mkEmpty PoolCase)

/-- Rebuild of a FIFO queue from the surviving elements. -/
def rebuildQueue (cs : List PoolCase) : Queue PoolCase :=
  cs.foldl (fun q c => (q.enqueue c).2) (Queue.mkEmpty PoolCase)

/-- `claim_case`. -/
def claim_case (p : AvailableCasesPool) (case_id lawyer_id : String)
    (now : String) : (Bool × String) × AvailableCasesPool :=
  let cc := can_lawyer_claim p lawyer_id
  if ¬ cc.1 then ((false, cc.2), p)
  else
    match dictGet p.case_assignments case_id with
    | none => ((false, "Case not found"), p)
    | some assignment =>
      if ¬ (assignment.status = "available" ∨ assignment.status = "rejected_then_available")
      then ((false, "Case not available"), p)
      else
        let claimedAssignment : PoolAssignment :=
          ⟨"claimed", none, some lawyer_id, false, some now, none, none⟩
        let urgent_cases := p.urgent_pool.get_all
        if urgent_cases.any (fun c => c.case_id = case_id) then
          ((true, "Case claimed successfully"),
           { p with
             urgent_pool := rebuildUrgent (urgent_cases.filter (fun c => ¬ c.case_id = case_id)),
             case_assignments := dictSet p.case_assignments case_id claimedAssignment,
             lawyer_case_counts := dictSet p.lawyer_case_counts lawyer_id
               ((dictGet p.lawyer_case_counts lawyer_id).getD 0 + 1) })
        else
          let normal_cases := queueItems p.normal_pool
          if normal_cases.any (fun c => c.case_id = case_id) then
            ((true, "Case claimed successfully"),
             { p with
               normal_pool := rebuildQueue (normal_cases.filter (fun c => ¬ c.case_id = case_id)),
               case_assignments := dictSet p.case_assignments case_id claimedAssignment,
               lawyer_case_counts := dictSet p.lawyer_case_counts lawyer_id
                 ((dictGet p.lawyer_case_counts lawyer_id).getD 0 + 1) })
          else ((false, "Case not in pool"), p)

/-- `unclaim_case`. -/
def unclaim_case (p : AvailableCasesPool) (case_id : String) (case_data : PoolCase) :
    Bool × AvailableCasesPool :=
  match dictGet p.case_assignments case_id with
  | none => (false, p)
  | some assignment =>
    if ¬ assignment.status = "claimed" then (false, p)
    else
      let p1 :=
        match assignment.lawyer_id with
        | some lid =>
          match dictGet p.lawyer_case_counts lid with
          | some cnt =>
            { p with lawyer_case_counts := dictSet p.lawyer_case_counts lid (cnt - 1) }
          | none => p
        | none => p
      let p2 :=
        if case_data.urgency then
          { p1 with urgent_pool := (p1.urgent_pool.enqueue case_data 1).2 }
        else
          { p1 with normal_pool := (p1.normal_pool.enqueue case_data).2 }
      (true,
       { p2 with
         case_assignments := dictSet p2.case_assignments case_id
           ⟨"available", none, none, true, none, none, none⟩ })

/-- `accept_direct_request`. -/
def accept_direct_request (p : AvailableCasesPool) (case_id lawyer_id : String)
    (now : String) : (Bool × String) × AvailableCasesPool :=
  let cc := can_lawyer_claim p lawyer_id
  if ¬ cc.1 then ((false, cc.2), p)
  else
    match dictGet p.case_assignments case_id with
    | none => ((false, "Case not found"), p)
    | some assignment =>
      if ¬ assignment.status = "pending_direct" then ((false, "Not a pending request"), p)
      else if ¬ assignment.requested_lawyer = some lawyer_id then
        ((false, "Request not for this lawyer"), p)
      else
        let p1 :=
          match dictGet p.pending_requests lawyer_id with
          | some q =>
            { p with pending_requests :=
                (dictSet p.pending_requests lawyer_id
                  (rebuildQueue ((queueItems q).filter (fun c => ¬ c.case_id = case_id)))) }
          | none => p
        ((true, "Request accepted"),
         { p1 with
           case_assignments := dictSet p1.case_assignments case_id
             ⟨"claimed", none, some lawyer_id, false, some now, some "direct", none⟩,
           lawyer_case_counts := dictSet p1.lawyer_case_counts lawyer_id
             ((dictGet p1.lawyer_case_counts lawyer_id).getD 0 + 1) })

/-- `reject_direct_request`: removes the case from *this* lawyer's pending
queue (without checking it is the requested lawyer) and re-enqueues
`case_data` into the general pool. -/
def reject_direct_request (p : AvailableCasesPool) (case_id lawyer_id : String)
    (case_data : PoolCase) : Bool × AvailableCasesPool :=
  match dictGet p.case_assignments case_id with
  | none => (false, p)
  | some assignment =>
    if ¬ assignment.status = "pending_direct" then (false, p)
    else
      let p1 :=
        match dictGet p.pending_requests lawyer_id with
        | some q =>
          { p with pending_requests :=
              (dictSet p.pending_requests lawyer_id
                (rebuildQueue ((queueItems q).filter (fun c => ¬ c.case_id = case_id)))) }
        | none => p
      let p2 :=
        if case_data.urgency then
          { p1 with urgent_pool := (p1.urgent_pool.enqueue case_data 1).2 }
        else
          { p1 with normal_pool := (p1.normal_pool.enqueue case_data).2 }
      (true,
       { p2 with
         case_assignments := dictSet p2.case_assignments case_id
           ⟨"rejected_then_available", none, none, true, none, none, some lawyer_id⟩ })

end AvailableCasesPool


/-! ## Fixtures: a case whose undo stack is at its capacity

`create_case` always allocates the undo stack with the default capacity of
1000, and a `created ↔ in_review` update loop performs arbitrarily many
successful pushes, so a full stack is reachable. -/

/-- A filler snapshot, standing for the 1000 older snapshots of a case that
has been updated 1000 times. -/
def fillerSnap : Snapshot := ⟨"filler", [], "tf"⟩

/-- An undo stack at the default capacity of 1000. -/
def fullStack : Stack Snapshot := ⟨Stack.DEFAULT_CAPACITY, List.replicate 1000 fillerSnap⟩

/-- A freshly created case (status `created`). -/
def c2Case : Case :=
  (CaseManager.mkEmpty.create_case "C-1" "E-1" ⟨0, "t0"⟩ "CL-1" "family" "d" "hd" 0).1

/-- The manager state right after that same `create_case` call (fresh empty
undo stack for `C-1`). -/
def c2Fresh : CaseManager :=
  (CaseManager.mkEmpty.create_case "C-1" "E-1" ⟨0, "t0"⟩ "CL-1" "family" "d" "hd" 0).2

/-- A manager holding `c2Case` with a full undo stack. -/
def c2Manager : CaseManager :=
  ⟨(HashTable.mkEmpty Case).put "C-1" c2Case, [("C-1", fullStack)]⟩

/-- A full undo stack whose top is a recognizable older snapshot. -/
def c3Stack : Stack Snapshot :=
  ⟨Stack.DEFAULT_CAPACITY, ⟨"in_review", [], "t-old"⟩ :: List.replicate 999 fillerSnap⟩

/-- A manager holding `c2Case` (status `created`) with `c3Stack` as its undo
stack. -/
def c3Manager : CaseManager :=
  ⟨(HashTable.mkEmpty Case).put "C-1" c2Case, [("C-1", c3Stack)]⟩

/-! ## Pool operation sequences and occurrence counting -/

/-- Number of elements of `l` whose `case_id` equals `cid`. -/
def idCount (l : List PoolCase) (cid : String) : Nat :=
  l.countP (fun c => c.case_id = cid)

/-- A queue in a shape reachable by the queue operations: the representation
invariant holds and every slot of the live window holds a value. -/
def QGood (q : Queue α) : Prop :=
  Queue.Inv q ∧ Queue.get_all q = (queueItems q).map some

namespace AvailableCasesPool

/-- The pending queue the pool code reads for `lid` (a missing key reads as a
fresh empty queue, exactly as `add_to_pool` materialises it). -/
def pendingQ (p : AvailableCasesPool) (lid : String) : Queue PoolCase :=
  (dictGet p.pending_requests lid).getD (Queue.mkEmpty PoolCase)

/-- Occurrences of `cid` in the urgent pool. -/
def occUrgent (p : AvailableCasesPool) (cid : String) : Nat :=
  idCount (p.urgent_pool.heap.map PQEntry.item) cid

/-- Occurrences of `cid` in the normal pool. -/
def occNormal (p : AvailableCasesPool) (cid : String) : Nat :=
  idCount (queueItems p.normal_pool) cid

/-- Occurrences of `cid` in the pending queue stored for `lid`. -/
def pendIdCount (p : AvailableCasesPool) (lid cid : String) : Nat :=
  idCount (queueItems (pendingQ p lid)) cid

/-- Occurrences of `cid` across all stored pending queues. -/
def occPending (p : AvailableCasesPool) (cid : String) : Nat :=
  (p.pending_requests.map (fun kv => idCount (queueItems kv.2) cid)).sum

/-- Total occurrences of `cid` across the urgent pool, the normal pool and
every lawyer's pending-request queue. -/
def occurrences (p : AvailableCasesPool) (cid : String) : Nat :=
  occUrgent p cid + occNormal p cid + occPending p cid

end AvailableCasesPool

/-- One `AvailableCasesPool` operation together with its caller-supplied
data. -/
inductive PoolOp where
  | add (c : PoolCase)
  | claim (case_id lawyer_id now : String)
  | unclaim (case_id : String) (case_data : PoolCase)
  | accept (case_id lawyer_id now : String)
  | reject (case_id lawyer_id : String) (case_data : PoolCase)
deriving Repr, DecidableEq

/-- The pool state after one operation (ignoring the reported outcome). -/
def applyPoolOp (p : AvailableCasesPool) : PoolOp → AvailableCasesPool
  | .add c => p.add_to_pool c
  | .claim cid lid now => (p.claim_case cid lid now).2
  | .unclaim cid cd => (p.unclaim_case cid cd).2
  | .accept cid lid now => (p.accept_direct_request cid lid now).2
  | .reject cid lid cd => (p.reject_direct_request cid lid cd).2

/-- The pool state after running `ops` (earliest first) from the empty pool. -/
def runPool (ops : List PoolOp) : AvailableCasesPool :=
  ops.foldl applyPoolOp AvailableCasesPool.mkEmpty

/-- Modelled from the spec: the sensible-use preconditions under which the
exactly-once invariant is restored (the amendment).  A case is only
(re-)added while it is absent from every structure (never while already
available or pending), `case_data` arguments describe the case they are
passed for, a rejection is performed by the lawyer the request was addressed
to, and the fixed-capacity structure receiving a case has room. -/
def validOp (p : AvailableCasesPool) : PoolOp → Bool
  | .add c =>
      ((dictGet p.case_assignments c.case_id).all (fun a => a.status = "claimed")) &&
      (if c.assignment_type = some "direct" then
        match c.requested_lawyer_id with
        | some lid =>
            (AvailableCasesPool.pendingQ p lid).count
              < (AvailableCasesPool.pendingQ p lid).capacity
        | none =>
            if c.urgency then p.urgent_pool.heap.length < p.urgent_pool.capacity
            else p.normal_pool.count < p.normal_pool.capacity
      else
        if c.urgency then p.urgent_pool.heap.length < p.urgent_pool.capacity
        else p.normal_pool.count < p.normal_pool.capacity)
  | .claim _ _ _ => true
  | .unclaim cid cd =>
      (cd.case_id = cid) &&
      (if cd.urgency then p.urgent_pool.heap.length < p.urgent_pool.capacity
       else p.normal_pool.count < p.normal_pool.capacity)
  | .accept _ _ _ => true
  | .reject cid lid cd =>
      (cd.case_id = cid) &&
      ((dictGet p.case_assignments cid).all (fun a => a.requested_lawyer = some lid)) &&
      (if cd.urgency then p.urgent_pool.heap.length < p.urgent_pool.capacity
       else p.normal_pool.count < p.normal_pool.capacity)

/-- Every operation of `ops` satisfies its precondition in the state where it
executes. -/
def validSeq : AvailableCasesPool → List PoolOp → Bool
  | _, [] => true
  | p, op :: ops => validOp p op && validSeq (applyPoolOp p op) ops

/-- A case id that is present in none of the pool structures. -/
def ZeroFacts (p : AvailableCasesPool) (cid : String) : Prop :=
  AvailableCasesPool.occUrgent p cid = 0 ∧
    AvailableCasesPool.occNormal p cid = 0 ∧
    ∀ lid, AvailableCasesPool.pendIdCount p lid cid = 0

/-- The per-status occurrence facts the invariant records for a case with an
assignment record. -/
def AssignFacts (p : AvailableCasesPool) (cid : String) (a : PoolAssignment) : Prop :=
  (a.status = "available" ∨ a.status = "rejected_then_available" →
      AvailableCasesPool.occUrgent p cid + AvailableCasesPool.occNormal p cid = 1 ∧
        ∀ lid, AvailableCasesPool.pendIdCount p lid cid = 0) ∧
  (a.status = "pending_direct" →
      ∃ lid, a.requested_lawyer = some lid ∧
        AvailableCasesPool.occUrgent p cid = 0 ∧
        AvailableCasesPool.occNormal p cid = 0 ∧
        AvailableCasesPool.pendIdCount p lid cid = 1 ∧
        ∀ lid2, lid2 ≠ lid → AvailableCasesPool.pendIdCount p lid2 cid = 0) ∧
  (a.status = "claimed" → ZeroFacts p cid) ∧
  (a.status = "available" ∨ a.status = "rejected_then_available" ∨
      a.status = "pending_direct" ∨ a.status = "claimed")

/-- The strengthened pool invariant maintained by every valid operation. -/
structure PoolInv (p : AvailableCasesPool) : Prop where
  uwf : PriorityQueue.Wf p.urgent_pool
  ucap : p.urgent_pool.capacity = PriorityQueue.DEFAULT_CAPACITY
  ngood : QGood p.normal_pool
  ncap : p.normal_pool.capacity = Queue.DEFAULT_CAPACITY
  pgood : ∀ kv ∈ p.pending_requests, QGood kv.2 ∧ kv.2.capacity = Queue.DEFAULT_CAPACITY
  pnodup : (p.pending_requests.map Prod.fst).Nodup
  assigned : ∀ cid a, dictGet p.case_assignments cid = some a → AssignFacts p cid a
  unassigned : ∀ cid, dictGet p.case_assignments cid = none → ZeroFacts p cid

/-- A plain normal-pool case. -/
def c6Case : PoolCase := ⟨"C6-A", none, none, false⟩

/-- A plain urgent-pool case. -/
def w6Case : PoolCase := ⟨"W6-A", none, none, true⟩

/-! # Theorems -/

theorem length_lswap [Inhabited α] (l : List α) (i j : Nat) :
    (lswap l i j).length = l.length := by
  simp [lswap]

theorem hget_set_self [Inhabited α] (l : List α) (i : Nat) (a : α) (h : i < l.length) :
    hget (l.set i a) i = a := by
  simp [hget, List.getD, List.getElem?_set_self, h]

theorem hget_set_ne [Inhabited α] (l : List α) (i j : Nat) (a : α) (h : i ≠ j) :
    hget (l.set i a) j = hget l j := by
  simp [hget, List.getD, List.getElem?_set_ne h]

theorem hget_lswap_left [Inhabited α] (l : List α) (i j : Nat)
    (hi : i < l.length) (hij : i ≠ j) :
    hget (lswap l i j) i = hget l j := by
  rw [lswap, hget_set_ne _ _ _ _ (Ne.symm hij), hget_set_self _ _ _ hi]

theorem hget_lswap_right [Inhabited α] (l : List α) (i j : Nat)
    (hj : j < l.length) :
    hget (lswap l i j) j = hget l i := by
  have hj' : j < (l.set i (hget l j)).length := by simpa using hj
  rw [lswap, hget_set_self _ _ _ hj']

theorem hget_lswap_other [Inhabited α] (l : List α) (i j k : Nat)
    (hk₁ : k ≠ i) (hk₂ : k ≠ j) :
    hget (lswap l i j) k = hget l k := by
  rw [lswap, hget_set_ne _ _ _ _ (Ne.symm hk₂), hget_set_ne _ _ _ _ (Ne.symm hk₁)]

theorem count_set [Inhabited α] [DecidableEq α] (l : List α) (i : Nat) (a x : α)
    (h : i < l.length) :
    (l.set i a).count x + (if hget l i = x then 1 else 0)
      = l.count x + (if a = x then 1 else 0) := by
  induction l generalizing i with
  | nil => simp at h
  | cons b t ih =>
    cases i with
    | zero =>
      simp only [List.set, hget, List.getD, List.getElem?_cons_zero, Option.getD_some,
        List.count_cons]
      by_cases hb : b = x <;> by_cases ha : a = x <;> simp [hb, ha] <;> omega
    | succ n =>
      simp only [List.set, List.count_cons]
      have hn : n < t.length := by simpa using h
      have := ih n hn
      have hg : hget (b :: t) (n + 1) = hget t n := by
        simp [hget, List.getD]
      rw [hg]
      by_cases hb : b = x <;> simp [hb] <;> omega

theorem count_lswap [Inhabited α] [DecidableEq α] (l : List α) (i j : Nat)
    (hi : i < l.length) (hj : j < l.length) (x : α) :
    (lswap l i j).count x = l.count x := by
  by_cases hij : i = j
  · subst hij
    have h1 := count_set l i (hget l i) x hi
    have h2 := count_set (l.set i (hget l i)) i (hget l i) x (by simpa using hi)
    rw [hget_set_self _ _ _ hi] at h2
    simp only [lswap]
    omega
  · have h1 := count_set l i (hget l j) x hi
    have h2 := count_set (l.set i (hget l j)) j (hget l i) x (by simpa using hj)
    rw [hget_set_ne _ _ _ _ hij] at h2
    simp only [lswap]
    omega

theorem perm_lswap [Inhabited α] [DecidableEq α] (l : List α) (i j : Nat)
    (hi : i < l.length) (hj : j < l.length) :
    (lswap l i j).Perm l := by
  rw [List.perm_iff_count]
  intro x
  exact count_lswap l i j hi hj x

namespace Queue

theorem length_getAllAux (items : List (Option α)) (cap : Nat) :
    ∀ k i, (getAllAux items cap i k).length = k := by
  intro k
  induction k with
  | zero => intro i; rfl
  | succ k ih => intro i; simp [getAllAux, ih]

theorem addmod_inj (cap i a b : Nat) (hcap : 0 < cap) (ha : a < cap) (hb : b < cap)
    (h : (i + a) % cap = (i + b) % cap) : a = b := by
  have ha' : (i + a) % cap = ((i % cap) + a) % cap := by
    rw [Nat.add_mod, Nat.mod_eq_of_lt ha]
  have hb' : (i + b) % cap = ((i % cap) + b) % cap := by
    rw [Nat.add_mod, Nat.mod_eq_of_lt hb]
  rw [ha', hb'] at h
  have hi : i % cap < cap := Nat.mod_lt _ hcap
  rcases Nat.lt_or_ge (i % cap + a) cap with h1 | h1 <;>
    rcases Nat.lt_or_ge (i % cap + b) cap with h2 | h2
  · rw [Nat.mod_eq_of_lt h1, Nat.mod_eq_of_lt h2] at h; omega
  · rw [Nat.mod_eq_of_lt h1, Nat.mod_eq_sub_mod h2,
      Nat.mod_eq_of_lt (by omega : i % cap + b - cap < cap)] at h; omega
  · rw [Nat.mod_eq_sub_mod h1, Nat.mod_eq_of_lt (by omega : i % cap + a - cap < cap),
      Nat.mod_eq_of_lt h2] at h; omega
  · rw [Nat.mod_eq_sub_mod h1, Nat.mod_eq_of_lt (by omega : i % cap + a - cap < cap),
      Nat.mod_eq_sub_mod h2, Nat.mod_eq_of_lt (by omega : i % cap + b - cap < cap)] at h
    omega

theorem addmod_ne_self (cap i k : Nat) (hi : i < cap) (hk0 : 0 < k) (hk : k < cap) :
    (i + k) % cap ≠ i := by
  intro h
  have h0 : (i + 0) % cap = i := by simpa using Nat.mod_eq_of_lt hi
  exact absurd (addmod_inj cap i k 0 (by omega) hk (by omega) (h.trans h0.symm)) (by omega)

/-- Traversal is unaffected by writing to a slot outside the traversed window. -/
theorem getAllAux_set_disjoint (items : List (Option α)) (cap : Nat) (v : Option α) :
    ∀ k i p, i < cap → (∀ j, j < k → (i + j) % cap ≠ p) →
      getAllAux (items.set p v) cap i k = getAllAux items cap i k := by
  intro k
  induction k with
  | zero => intro i p _ _; rfl
  | succ k ih =>
    intro i p hi hout
    have hcap : 0 < cap := by omega
    have hip : i ≠ p := by
      have := hout 0 (Nat.succ_pos _)
      simpa [Nat.mod_eq_of_lt hi] using this
    have hhead : hget (items.set p v) i = hget items i :=
      hget_set_ne items p i v (fun h => hip h.symm)
    have htail :
        getAllAux (items.set p v) cap ((i + 1) % cap) k
          = getAllAux items cap ((i + 1) % cap) k := by
      refine ih ((i + 1) % cap) p (Nat.mod_lt _ hcap) ?_
      intro j hj hpj
      refine hout (j + 1) (by omega) ?_
      rw [← hpj, Nat.mod_add_mod]
      ring_nf
    simp [getAllAux, hhead, htail]

/-- Peeling the last element off a circular traversal. -/
theorem getAllAux_snoc (items : List (Option α)) (cap : Nat) :
    ∀ k i, i < cap →
      getAllAux items cap i (k + 1)
        = getAllAux items cap i k ++ [hget items ((i + k) % cap)] := by
  intro k
  induction k with
  | zero =>
    intro i hi
    simp [getAllAux, Nat.mod_eq_of_lt hi]
  | succ k ih =>
    intro i hi
    have hcap : 0 < cap := by omega
    have h1 := ih ((i + 1) % cap) (Nat.mod_lt _ hcap)
    have h2 : ((i + 1) % cap + k) % cap = (i + (k + 1)) % cap := by
      rw [Nat.mod_add_mod]; ring_nf
    calc getAllAux items cap i (k + 2)
        = hget items i :: getAllAux items cap ((i + 1) % cap) (k + 1) := rfl
      _ = hget items i :: (getAllAux items cap ((i + 1) % cap) k
            ++ [hget items (((i + 1) % cap + k) % cap)]) := by rw [h1]
      _ = getAllAux items cap i (k + 1) ++ [hget items ((i + (k + 1)) % cap)] := by
            rw [h2]; rfl

theorem inv_mkEmpty (α : Type) (cap : Nat) : Inv (mkEmpty α cap) := by
  refine ⟨by simp [mkEmpty], by simp [mkEmpty], ?_⟩
  simp [mkEmpty]

theorem get_all_mkEmpty (α : Type) (cap : Nat) : get_all (mkEmpty α cap) = [] := by
  simp [get_all, mkEmpty]

theorem count_eq_zero_of_front_neg (q : Queue α) (h : Inv q) (hf : q.front = -1) :
    q.count = 0 := by
  obtain ⟨-, -, h3⟩ := h
  by_contra hc
  rw [if_neg hc] at h3
  obtain ⟨f, hf', -, -⟩ := h3
  rw [hf'] at hf
  exact absurd hf (by omega)

theorem enqueue_eq_first (q : Queue α) (x : α) (h1 : ¬ q.count ≥ q.capacity)
    (h2 : q.front = -1) :
    enqueue q x
      = (true, ⟨q.capacity, q.items.set 0 (some x), 0, 0, q.count + 1⟩) := by
  simp [enqueue, h1, h2]

theorem enqueue_eq_later (q : Queue α) (x : α) (h1 : ¬ q.count ≥ q.capacity)
    (h2 : ¬ q.front = -1) :
    enqueue q x
      = (true, ⟨q.capacity,
          q.items.set ((q.rear + 1) % (q.capacity : Int)).toNat (some x),
          q.front, (q.rear + 1) % (q.capacity : Int), q.count + 1⟩) := by
  simp [enqueue, h1, h2]

theorem inv_mk (cap : Nat) (items : List (Option α)) (front rear : Int) (count : Nat) :
    Inv (⟨cap, items, front, rear, count⟩ : Queue α)
      ↔ items.length = cap ∧ count ≤ cap ∧
          (if count = 0 then front = -1 ∧ rear = -1
           else ∃ f : Nat, front = (f : Int) ∧ f < cap ∧
                  rear = (((f + count - 1) % cap : Nat) : Int)) := Iff.rfl

theorem get_all_mk (cap : Nat) (items : List (Option α)) (front rear : Int) (count : Nat) :
    get_all (⟨cap, items, front, rear, count⟩ : Queue α)
      = if front = -1 then [] else getAllAux items cap front.toNat count := rfl

/-- Successful `enqueue`: appends to the abstract contents. -/
theorem enqueue_ok (q : Queue α) (x : α) (hInv : Inv q) (hroom : q.count < q.capacity) :
    (enqueue q x).1 = true ∧ Inv (enqueue q x).2 ∧
      get_all (enqueue q x).2 = get_all q ++ [some x] ∧
      (enqueue q x).2.count = q.count + 1 ∧ (enqueue q x).2.capacity = q.capacity := by
  obtain ⟨hlen, hcnt, hshape⟩ := hInv
  have hnotfull : ¬ q.count ≥ q.capacity := by omega
  have hcap : 0 < q.capacity := by omega
  by_cases hf : q.front = -1
  · have hc0 : q.count = 0 := count_eq_zero_of_front_neg q ⟨hlen, hcnt, hshape⟩ hf
    rw [enqueue_eq_first q x hnotfull hf]
    refine ⟨rfl, ?_, ?_, rfl, rfl⟩
    · rw [inv_mk]
      refine ⟨by simpa using hlen, by omega, ?_⟩
      rw [if_neg (by omega : ¬ q.count + 1 = 0)]
      exact ⟨0, rfl, hcap, by simp [hc0, Nat.mod_eq_of_lt hcap]⟩
    · have hq : get_all q = [] := by simp [get_all, hf]
      rw [hq, get_all_mk, if_neg (by omega : ¬ (0 : Int) = -1)]
      have h0lt : (0 : Nat) < q.items.length := by omega
      rw [hc0]
      simp [getAllAux, hget_set_self q.items 0 (some x) h0lt]
  · obtain ⟨f, hfe, hflt, hre⟩ : ∃ f : Nat, q.front = (f : Int) ∧ f < q.capacity ∧
        q.rear = (((f + q.count - 1) % q.capacity : Nat) : Int) := by
      have hcpos : ¬ q.count = 0 := by
        intro hc0; rw [if_pos hc0] at hshape; exact hf hshape.1
      rw [if_neg hcpos] at hshape
      exact hshape
    have hcpos : q.count ≠ 0 := by
      intro hc0; rw [if_pos hc0] at hshape; exact hf hshape.1
    rw [enqueue_eq_later q x hnotfull hf]
    have hrear : ((q.rear + 1) % (q.capacity : Int)).toNat = (f + q.count) % q.capacity := by
      rw [hre]
      have h1 : ((((f + q.count - 1) % q.capacity : Nat) : Int) + 1)
          = (((f + q.count - 1) % q.capacity + 1 : Nat) : Int) := by push_cast; ring
      rw [h1, ← Int.ofNat_emod, Int.toNat_ofNat, Nat.mod_add_mod]
      congr 1
      omega
    have hrearInt : (q.rear + 1) % (q.capacity : Int)
        = (((f + q.count) % q.capacity : Nat) : Int) := by
      rw [← hrear, Int.toNat_of_nonneg (Int.emod_nonneg _ (by omega : (q.capacity : Int) ≠ 0))]
    have hfnat : q.front.toNat = f := by rw [hfe]; simp
    refine ⟨rfl, ?_, ?_, rfl, rfl⟩
    · rw [inv_mk]
      refine ⟨by simpa using hlen, by omega, ?_⟩
      rw [if_neg (by omega : ¬ q.count + 1 = 0)]
      refine ⟨f, hfe, hflt, ?_⟩
      rw [hrearInt]
      congr 2 <;> omega
    · rw [get_all_mk, if_neg hf]
      rw [hfnat, hrear]
      show getAllAux _ _ _ (q.count + 1) = _
      rw [getAllAux_snoc _ _ _ _ hflt]
      have hset :
          getAllAux (q.items.set ((f + q.count) % q.capacity) (some x)) q.capacity f q.count
            = getAllAux q.items q.capacity f q.count := by
        refine getAllAux_set_disjoint _ _ _ _ _ _ hflt ?_
        intro j hj hbad
        have := addmod_inj q.capacity f j q.count hcap (by omega) (by omega) hbad
        omega
      rw [hset]
      have hq : get_all q = getAllAux q.items q.capacity f q.count := by
        simp only [get_all, if_neg hf, hfnat]
      rw [hq]
      congr 1
      rw [hget_set_self]
      rw [hlen]
      exact Nat.mod_lt _ hcap

theorem dequeue_eq_last (q : Queue α) (h2 : ¬ q.front = -1) (h3 : q.count - 1 = 0) :
    dequeue q
      = (hget q.items q.front.toNat,
         ⟨q.capacity, q.items.set q.front.toNat none, -1, -1, 0⟩) := by
  simp [dequeue, h2, h3]

theorem dequeue_eq_more (q : Queue α) (h2 : ¬ q.front = -1) (h3 : ¬ q.count - 1 = 0) :
    dequeue q
      = (hget q.items q.front.toNat,
         ⟨q.capacity, q.items.set q.front.toNat none,
          (q.front + 1) % (q.capacity : Int), q.rear, q.count - 1⟩) := by
  simp [dequeue, h2, h3]

/-- Successful `dequeue`: removes the head of the abstract contents. -/
theorem dequeue_ok (q : Queue α) (hInv : Inv q) (hne : q.count ≠ 0) :
    (dequeue q).1 = (get_all q).headD none ∧ Inv (dequeue q).2 ∧
      get_all (dequeue q).2 = (get_all q).tail ∧
      (dequeue q).2.count = q.count - 1 ∧ (dequeue q).2.capacity = q.capacity := by
  obtain ⟨hlen, hcnt, hshape⟩ := hInv
  rw [if_neg hne] at hshape
  obtain ⟨f, hfe, hflt, hre⟩ := hshape
  have hcap : 0 < q.capacity := by omega
  have hf : ¬ q.front = -1 := by rw [hfe]; omega
  have hfnat : q.front.toNat = f := by rw [hfe]; simp
  obtain ⟨k, hk⟩ : ∃ k, q.count = k + 1 := ⟨q.count - 1, by omega⟩
  have hga : get_all q
      = hget q.items f :: getAllAux q.items q.capacity ((f + 1) % q.capacity) k := by
    simp only [get_all, if_neg hf, hfnat, hk]
    rfl
  by_cases hlast : q.count - 1 = 0
  · have hk0 : k = 0 := by omega
    rw [dequeue_eq_last q hf hlast]
    refine ⟨by rw [hfnat, hga, hk0]; rfl, ?_, ?_, by show (0 : Nat) = _; omega, rfl⟩
    · rw [inv_mk]
      exact ⟨by simpa using hlen, by omega, by simp⟩
    · rw [hga, hk0, get_all_mk]
      simp [getAllAux]
  · rw [dequeue_eq_more q hf hlast]
    have hfront' : ((q.front + 1) % (q.capacity : Int)).toNat = (f + 1) % q.capacity := by
      rw [hfe]
      have h1 : ((f : Int) + 1) = ((f + 1 : Nat) : Int) := by push_cast; ring
      rw [h1, ← Int.ofNat_emod, Int.toNat_ofNat]
    have hfrontInt : (q.front + 1) % (q.capacity : Int)
        = (((f + 1) % q.capacity : Nat) : Int) := by
      rw [← hfront',
        Int.toNat_of_nonneg (Int.emod_nonneg _ (by omega : (q.capacity : Int) ≠ 0))]
    have hne' : ¬ ((q.front + 1) % (q.capacity : Int) = -1) := by
      intro hbad
      have := Int.emod_nonneg (q.front + 1) (by omega : (q.capacity : Int) ≠ 0)
      rw [hbad] at this
      omega
    refine ⟨by rw [hfnat, hga]; rfl, ?_, ?_, rfl, rfl⟩
    · rw [inv_mk]
      refine ⟨by simpa using hlen, by omega, ?_⟩
      rw [if_neg hlast]
      refine ⟨(f + 1) % q.capacity, hfrontInt, Nat.mod_lt _ hcap, ?_⟩
      rw [hre]
      have harith : (f + 1) % q.capacity + (q.count - 1) - 1
          = (f + 1) % q.capacity + (q.count - 2) := by omega
      rw [harith, Nat.mod_add_mod]
      congr 2
      omega
    · rw [get_all_mk, if_neg hne', hfront', hga, hk]
      simp only [Nat.add_sub_cancel, List.tail_cons, hfnat]
      refine getAllAux_set_disjoint _ _ _ _ _ _ (Nat.mod_lt _ hcap) ?_
      intro j hj hbad
      rw [Nat.mod_add_mod] at hbad
      have hj1 : (f + (1 + j)) % q.capacity = f := by
        rw [(by omega : f + (1 + j) = f + 1 + j)]; exact hbad
      exact addmod_ne_self q.capacity f (1 + j) hflt (by omega) (by omega) hj1

theorem dequeue_empty (q : Queue α) (hInv : Inv q) (h0 : q.count = 0) :
    dequeue q = (none, q) := by
  obtain ⟨-, -, hshape⟩ := hInv
  rw [if_pos h0] at hshape
  simp [dequeue, hshape.1]

theorem length_get_all (q : Queue α) (hInv : Inv q) : (get_all q).length = q.count := by
  by_cases hf : q.front = -1
  · have := count_eq_zero_of_front_neg q hInv hf
    simp [get_all, hf, this]
  · obtain ⟨-, -, hshape⟩ := hInv
    have hcpos : q.count ≠ 0 := by
      intro h0; rw [if_pos h0] at hshape; exact hf hshape.1
    simp [get_all, hf, length_getAllAux]

end Queue

theorem queue_step_sim (q : Queue α) (l : List α) (op : QOp α)
    (hInv : Queue.Inv q) (habs : Queue.get_all q = l.map some) :
    (queueStep q op).2 = (fifoStep q.capacity l op).2 ∧
      Queue.Inv (queueStep q op).1 ∧
      Queue.get_all (queueStep q op).1 = ((fifoStep q.capacity l op).1).map some ∧
      (queueStep q op).1.capacity = q.capacity := by
  have hcount : q.count = l.length := by
    have h1 := Queue.length_get_all q hInv
    rw [habs] at h1
    simpa using h1.symm
  cases op with
  | enq x =>
    by_cases hfull : l.length ≥ q.capacity
    · have hq : Queue.enqueue q x = (false, q) := by
        rw [Queue.enqueue, if_pos (by omega)]
      simp only [queueStep, fifoStep, hq, if_pos hfull]
      exact ⟨by simp, hInv, by simp [habs], by simp⟩
    · have hroom : q.count < q.capacity := by omega
      obtain ⟨h1, h2, h3, -, h5⟩ := Queue.enqueue_ok q x hInv hroom
      simp only [queueStep, fifoStep, if_neg hfull]
      refine ⟨by rw [h1], h2, ?_, h5⟩
      rw [h3, habs]
      simp
  | deq =>
    cases l with
    | nil =>
      have h0 : q.count = 0 := by simpa using hcount
      have hq := Queue.dequeue_empty q hInv h0
      simp only [queueStep, fifoStep, hq]
      exact ⟨by simp, hInv, by simp [habs], by simp⟩
    | cons x t =>
      have hne : q.count ≠ 0 := by simp [hcount]
      obtain ⟨h1, h2, h3, -, h5⟩ := Queue.dequeue_ok q hInv hne
      simp only [queueStep, fifoStep]
      refine ⟨?_, h2, ?_, h5⟩
      · rw [h1, habs]
        rfl
      · rw [h3, habs]
        rfl

theorem run_queue_sim (ops : List (QOp α)) (q : Queue α) (l : List α)
    (hInv : Queue.Inv q) (habs : Queue.get_all q = l.map some) :
    (runQueue q ops).2 = (runFifo q.capacity l ops).2 ∧
      Queue.Inv (runQueue q ops).1 ∧
      Queue.get_all (runQueue q ops).1 = ((runFifo q.capacity l ops).1).map some ∧
      (runQueue q ops).1.capacity = q.capacity := by
  induction ops generalizing q l with
  | nil => exact ⟨rfl, hInv, habs, rfl⟩
  | cons op ops ih =>
    obtain ⟨h1, h2, h3, h4⟩ := queue_step_sim q l op hInv habs
    obtain ⟨g1, g2, g3, g4⟩ := ih (queueStep q op).1 (fifoStep q.capacity l op).1 h2 h3
    rw [h4] at g1 g3
    refine ⟨?_, g2, g3, g4.trans h4⟩
    simp only [runQueue, runFifo]
    rw [g1, h1]

namespace PriorityQueue

theorem pickSmallest_cases [Inhabited α] (l : List (PQEntry α)) (i : Nat) :
    pickSmallest l i = i ∨ (i < pickSmallest l i ∧ pickSmallest l i < l.length) := by
  unfold pickSmallest
  dsimp only
  split_ifs <;> omega

end PriorityQueue

namespace PriorityQueue

theorem keyLe_refl (e : PQEntry α) : keyLe e e := by
  unfold keyLe
  omega

theorem keyLe_of_keyLt {e f : PQEntry α} (h : keyLt e f) : keyLe e f := by
  unfold keyLt at h
  unfold keyLe
  omega

theorem keyLe_trans {e f g : PQEntry α} (h1 : keyLe e f) (h2 : keyLe f g) : keyLe e g := by
  unfold keyLe at *
  omega

theorem keyLt_trans {e f g : PQEntry α} (h1 : keyLt e f) (h2 : keyLt f g) : keyLt e g := by
  unfold keyLt at *
  omega

theorem keyLt_of_keyLt_of_keyLe {e f g : PQEntry α} (h1 : keyLt e f) (h2 : keyLe f g) :
    keyLt e g := by
  unfold keyLt at *
  unfold keyLe at h2
  omega

theorem keyLt_asymm {e f : PQEntry α} (h : keyLt e f) : ¬ keyLt f e := by
  unfold keyLt at *
  omega

theorem keyLe_antisymm_key {e f : PQEntry α} (h1 : keyLe e f) (h2 : keyLe f e) :
    e.priority = f.priority ∧ e.counter = f.counter := by
  unfold keyLe at *
  omega

theorem cmpEntry_true_iff (e f : PQEntry α) : cmpEntry e f = true ↔ keyLt e f := by
  unfold cmpEntry keyLt
  split_ifs with h <;> simp <;> omega

theorem cmpEntry_false_iff (e f : PQEntry α) : cmpEntry e f = false ↔ keyLe f e := by
  unfold cmpEntry keyLe
  split_ifs with h <;> simp <;> omega

theorem keyLe_total (e f : PQEntry α) : keyLe e f ∨ keyLe f e := by
  unfold keyLe
  omega

end PriorityQueue

/-! ### Indexed-access facts used by the heap proofs -/

theorem hget_eq_getElem [Inhabited α] (l : List α) (i : Nat) (h : i < l.length) :
    hget l i = l[i] := by
  simp [hget, List.getD, List.getElem?_eq_getElem h]

theorem mem_of_hget [Inhabited α] (l : List α) (i : Nat) (h : i < l.length) :
    hget l i ∈ l := by
  rw [hget_eq_getElem l i h]
  exact List.getElem_mem h

theorem hget_append_lt [Inhabited α] (l1 l2 : List α) (i : Nat) (h : i < l1.length) :
    hget (l1 ++ l2) i = hget l1 i := by
  simp [hget, List.getD, List.getElem?_append, h]

theorem hget_append_len [Inhabited α] (l : List α) (e : α) :
    hget (l ++ [e]) l.length = e := by
  simp [hget, List.getD]

theorem hget_take [Inhabited α] (l : List α) (m i : Nat) (h : i < m) :
    hget (l.take m) i = hget l i := by
  simp [hget, List.getD, List.getElem?_take, h]

theorem exists_index_of_mem [Inhabited α] (l : List α) (x : α) (h : x ∈ l) :
    ∃ i, i < l.length ∧ hget l i = x := by
  obtain ⟨i, hi⟩ := List.get_of_mem h
  exact ⟨i.1, i.2, by rw [hget_eq_getElem _ _ i.2]; simpa using hi⟩


namespace PriorityQueue

theorem length_heapifyUp [Inhabited α] (l : List (PQEntry α)) (i : Nat) :
    (heapifyUp l i).length = l.length := by
  induction l, i using heapifyUp.induct with
  | case1 l i h hc ih =>
    rw [heapifyUp, dif_pos h, if_pos hc]
    rw [ih]
    simp [lswap]
  | case2 l i h hc =>
    rw [heapifyUp, dif_pos h, if_neg hc]
  | case3 l i h =>
    rw [heapifyUp, dif_neg h]

theorem perm_heapifyUp [Inhabited α] [DecidableEq α] (l : List (PQEntry α)) (i : Nat)
    (hi : i < l.length) : (heapifyUp l i).Perm l := by
  induction l, i using heapifyUp.induct with
  | case1 l i h hc ih =>
    rw [heapifyUp, dif_pos h, if_pos hc]
    have hp : (i - 1) / 2 < l.length := by omega
    refine (ih ?_).trans (perm_lswap l i ((i - 1) / 2) hi hp)
    rw [length_lswap]
    omega
  | case2 l i h hc =>
    rw [heapifyUp, dif_pos h, if_neg hc]
  | case3 l i h =>
    rw [heapifyUp, dif_neg h]

/-- Parent index is determined by the child index. -/
theorem parent_of_edge {a b : Nat} (h : b = 2 * a + 1 ∨ b = 2 * a + 2) :
    a = (b - 1) / 2 ∧ a < b := by
  omega

theorem heapifyUp_heapProp [Inhabited α] (l : List (PQEntry α)) (i : Nat)
    (hi : i < l.length) (hinv : UpInv l i) : HeapProp (heapifyUp l i) := by
  induction l, i using heapifyUp.induct with
  | case3 l i h =>
    rw [heapifyUp, dif_neg h]
    intro a b hb hedge
    have hbne : b ≠ i := by omega
    exact hinv.1 a b hb hedge hbne
  | case2 l i h hc =>
    rw [heapifyUp, dif_pos h, if_neg hc]
    have hple : keyLe (hget l ((i - 1) / 2)) (hget l i) :=
      (cmpEntry_false_iff _ _).mp (by simpa using hc)
    intro a b hb hedge
    by_cases hbi : b = i
    · obtain ⟨hpa, -⟩ := parent_of_edge hedge
      subst hbi
      rw [hpa]
      exact hple
    · exact hinv.1 a b hb hedge hbi
  | case1 l i h hc ih =>
    rw [heapifyUp, dif_pos h, if_pos hc]
    set p := (i - 1) / 2 with hpdef
    have hpi : p < i := by omega
    have hp : p < l.length := by omega
    have hlt : keyLt (hget l i) (hget l p) := (cmpEntry_true_iff _ _).mp hc
    have hip : i ≠ p := by omega
    have e_at_p : hget (lswap l i p) p = hget l i := hget_lswap_right l i p hp
    have e_at_i : hget (lswap l i p) i = hget l p := hget_lswap_left l i p hi hip
    have e_other : ∀ k, k ≠ i → k ≠ p → hget (lswap l i p) k = hget l k :=
      fun k h1 h2 => hget_lswap_other l i p k h1 h2
    have hlen : (lswap l i p).length = l.length := length_lswap l i p
    have hchild_i : i = 2 * p + 1 ∨ i = 2 * p + 2 := by omega
    refine ih ?_ ?_
    · rw [hlen]; exact hp
    · constructor
      · intro a b hb hedge hbp
        rw [hlen] at hb
        obtain ⟨hpa, hab⟩ := parent_of_edge hedge
        by_cases hbi : b = i
        · have hap : a = p := by omega
          subst hbi; subst hap
          rw [e_at_p, e_at_i]
          exact keyLe_of_keyLt hlt
        · rw [e_other b hbi hbp]
          by_cases hai : a = i
          · subst hai
            rw [e_at_i]
            exact hinv.2 b hb hedge h
          · by_cases hap : a = p
            · subst hap
              rw [e_at_p]
              have h1 : keyLe (hget l p) (hget l b) := hinv.1 p b hb hedge hbi
              exact keyLe_of_keyLt (keyLt_of_keyLt_of_keyLe hlt h1)
            · rw [e_other a hai hap]
              exact hinv.1 a b hb hedge hbi
      · intro b hb hedge hp0
        rw [hlen] at hb
        set g := (p - 1) / 2 with hgdef
        have hgp : g < p := by omega
        have hg : g ≠ i := by omega
        have hg2 : g ≠ p := by omega
        have hpchild : p = 2 * g + 1 ∨ p = 2 * g + 2 := by omega
        rw [e_other g hg hg2]
        have hgple : keyLe (hget l g) (hget l p) := hinv.1 g p hp hpchild (by omega)
        by_cases hbi : b = i
        · subst hbi
          rw [e_at_i]
          exact hgple
        · have hbp : b ≠ p := by omega
          rw [e_other b hbi hbp]
          have h1 : keyLe (hget l p) (hget l b) := hinv.1 p b hb hedge hbi
          exact keyLe_trans hgple h1

/-- After appending a fresh entry at the end of a heap, `heapifyUp` may be run
from the new index. -/
theorem upInv_append [Inhabited α] (l : List (PQEntry α)) (e : PQEntry α)
    (h : HeapProp l) : UpInv (l ++ [e]) l.length := by
  constructor
  · intro a b hb hedge hbne
    simp only [List.length_append, List.length_cons, List.length_nil] at hb
    have hblt : b < l.length := by omega
    have halt : a < l.length := by omega
    rw [hget_append_lt l [e] b hblt, hget_append_lt l [e] a halt]
    exact h a b hblt hedge
  · intro b hb hedge hp0
    simp only [List.length_append, List.length_cons, List.length_nil] at hb
    omega

end PriorityQueue


namespace PriorityQueue

theorem hget_cons_zero [Inhabited α] (a : α) (t : List α) : hget (a :: t) 0 = a := rfl

theorem hget_cons_succ [Inhabited α] (a : α) (t : List α) (k : Nat) :
    hget (a :: t) (k + 1) = hget t k := rfl

/-- If `pickSmallest` stays at `i`, neither child compares below the entry at `i`. -/
theorem pickSmallest_eq_self [Inhabited α] (l : List (PQEntry α)) (i : Nat)
    (hs : pickSmallest l i = i) :
    ∀ c, (c = 2 * i + 1 ∨ c = 2 * i + 2) → c < l.length → keyLe (hget l i) (hget l c) := by
  unfold pickSmallest at hs
  dsimp only at hs
  intro c hc hclen
  split_ifs at hs with h1 h2 h2 <;> try omega
  push_neg at h1 h2
  rcases hc with hc | hc <;> subst hc
  · exact (cmpEntry_false_iff _ _).mp (by simpa using h1 hclen)
  · exact (cmpEntry_false_iff _ _).mp (by simpa using h2 hclen)

/-- If `pickSmallest` moves off `i`, it lands on a strictly smaller child that
is no larger than either child. -/
theorem pickSmallest_ne_self [Inhabited α] (l : List (PQEntry α)) (i : Nat)
    (hs : pickSmallest l i ≠ i) :
    i < pickSmallest l i ∧ pickSmallest l i < l.length ∧
      keyLt (hget l (pickSmallest l i)) (hget l i) ∧
      (∀ c, (c = 2 * i + 1 ∨ c = 2 * i + 2) → c < l.length →
        keyLe (hget l (pickSmallest l i)) (hget l c)) := by
  unfold pickSmallest at *
  dsimp only at *
  split_ifs at * with h1 h2 h2
  · -- left smaller than i, right smaller than left: smallest = right
    obtain ⟨hl1, hl2⟩ := h1
    obtain ⟨hr1, hr2⟩ := h2
    have hL : keyLt (hget l (2 * i + 1)) (hget l i) := (cmpEntry_true_iff _ _).mp hl2
    have hR : keyLt (hget l (2 * i + 2)) (hget l (2 * i + 1)) := (cmpEntry_true_iff _ _).mp hr2
    refine ⟨by omega, hr1, keyLt_trans hR hL, ?_⟩
    intro c hc hclen
    rcases hc with hc | hc <;> subst hc
    · exact keyLe_of_keyLt hR
    · exact keyLe_refl _
  · -- left smaller than i, right not below left: smallest = left
    obtain ⟨hl1, hl2⟩ := h1
    have hL : keyLt (hget l (2 * i + 1)) (hget l i) := (cmpEntry_true_iff _ _).mp hl2
    push_neg at h2
    refine ⟨by omega, hl1, hL, ?_⟩
    intro c hc hclen
    rcases hc with hc | hc <;> subst hc
    · exact keyLe_refl _
    · exact (cmpEntry_false_iff _ _).mp (by simpa using h2 hclen)
  · -- left not below i, right below i: smallest = right
    push_neg at h1
    obtain ⟨hr1, hr2⟩ := h2
    have hR : keyLt (hget l (2 * i + 2)) (hget l i) := (cmpEntry_true_iff _ _).mp hr2
    refine ⟨by omega, hr1, hR, ?_⟩
    intro c hc hclen
    rcases hc with hc | hc <;> subst hc
    · have hLi : keyLe (hget l i) (hget l (2 * i + 1)) :=
        (cmpEntry_false_iff _ _).mp (by simpa using h1 hclen)
      exact keyLe_trans (keyLe_of_keyLt hR) hLi
    · exact keyLe_refl _
  · exact absurd rfl hs

theorem length_heapifyDown [Inhabited α] (l : List (PQEntry α)) (i : Nat) :
    (heapifyDown l i).length = l.length := by
  induction l, i using heapifyDown.induct with
  | case1 l i h ih =>
    rw [heapifyDown, dif_pos h]
    rw [ih, length_lswap]
  | case2 l i h =>
    rw [heapifyDown, dif_neg h]

theorem perm_heapifyDown [Inhabited α] [DecidableEq α] (l : List (PQEntry α)) (i : Nat) :
    (heapifyDown l i).Perm l := by
  induction l, i using heapifyDown.induct with
  | case1 l i h ih =>
    rw [heapifyDown, dif_pos h]
    obtain ⟨hlt, hlen, -, -⟩ := pickSmallest_ne_self l i h
    exact ih.trans (perm_lswap l i (pickSmallest l i) (by omega) hlen)
  | case2 l i h =>
    rw [heapifyDown, dif_neg h]

theorem heapifyDown_heapProp [Inhabited α] (l : List (PQEntry α)) (i : Nat)
    (hinv : DownInv l i) : HeapProp (heapifyDown l i) := by
  induction l, i using heapifyDown.induct with
  | case2 l i h =>
    rw [heapifyDown, dif_neg h]
    push_neg at h
    intro a b hb hedge
    by_cases hai : a = i
    · subst hai
      exact pickSmallest_eq_self l a h b hedge hb
    · exact hinv.1 a b hb hedge hai
  | case1 l i h ih =>
    rw [heapifyDown, dif_pos h]
    obtain ⟨his, hslen, hslt, hsmin⟩ := pickSmallest_ne_self l i h
    set q := pickSmallest l i with hq
    have hil : i < l.length := by omega
    have hiq : i ≠ q := by omega
    have e_at_i : hget (lswap l i q) i = hget l q := hget_lswap_left l i q hil hiq
    have e_at_q : hget (lswap l i q) q = hget l i := hget_lswap_right l i q hslen
    have e_other : ∀ k, k ≠ i → k ≠ q → hget (lswap l i q) k = hget l k :=
      fun k h1 h2 => hget_lswap_other l i q k h1 h2
    have hlen : (lswap l i q).length = l.length := length_lswap l i q
    have hqchild : q = 2 * i + 1 ∨ q = 2 * i + 2 := by
      have := pickSmallest_cases l i
      unfold pickSmallest at hq
      dsimp only at hq
      split_ifs at hq <;> omega
    refine ih ?_
    constructor
    · intro a b hb hedge has
      rw [hlen] at hb
      obtain ⟨hpa, hab⟩ := parent_of_edge hedge
      by_cases hai : a = i
      · subst hai
        rw [e_at_i]
        by_cases hbq : b = q
        · subst hbq
          rw [e_at_q]
          exact keyLe_of_keyLt hslt
        · rw [e_other b (by omega) hbq]
          exact hsmin b hedge hb
      · by_cases hbi : b = i
        · subst hbi
          have hi0 : 0 < b := by omega
          rw [e_at_i, e_other a hai (by omega)]
          have hpar : a = (b - 1) / 2 := hpa
          rw [hpar]
          exact hinv.2 q hslen hqchild (by omega)
        · by_cases hbq : b = q
          · subst hbq
            have : a = i := by omega
            exact absurd this hai
          · rw [e_other a hai (by omega), e_other b hbi hbq]
            exact hinv.1 a b hb hedge hai
    · intro b hb hedge hq0
      rw [hlen] at hb
      have hqp : (q - 1) / 2 = i := by omega
      rw [hqp, e_at_i]
      have hbq : b ≠ q := by omega
      have hbi : b ≠ i := by omega
      rw [e_other b hbi hbq]
      exact hinv.1 q b hb hedge (by omega)

end PriorityQueue


namespace PriorityQueue

/-- In a heap, the root is a minimum. -/
theorem heapProp_root_le [Inhabited α] (l : List (PQEntry α)) (hp : HeapProp l) :
    ∀ j, j < l.length → keyLe (hget l 0) (hget l j) := by
  intro j
  induction j using Nat.strong_induction_on with
  | _ j ih =>
    intro hj
    rcases Nat.eq_zero_or_pos j with hj0 | hj0
    · subst hj0; exact keyLe_refl _
    · have hedge : j = 2 * ((j - 1) / 2) + 1 ∨ j = 2 * ((j - 1) / 2) + 2 := by omega
      have h1 : keyLe (hget l ((j - 1) / 2)) (hget l j) := hp _ j hj hedge
      have h2 : keyLe (hget l 0) (hget l ((j - 1) / 2)) :=
        ih ((j - 1) / 2) (by omega) (by omega)
      exact keyLe_trans h2 h1

theorem length_popRebuild [Inhabited α] (l : List (PQEntry α)) :
    (popRebuild l).length = l.length - 1 := by
  unfold popRebuild
  split_ifs with h
  · simp only [List.length_nil]
    omega
  · rw [length_heapifyDown]
    rw [List.length_take, List.length_set]
    omega

theorem heapProp_popRebuild [Inhabited α] (l : List (PQEntry α)) (hp : HeapProp l) :
    HeapProp (popRebuild l) := by
  unfold popRebuild
  split_ifs with h
  · intro a b hb hedge
    simp at hb
  · have h2 : 2 ≤ l.length := by omega
    apply heapifyDown_heapProp
    constructor
    · intro a b hb hedge hane
      have hlen : ((l.set 0 (hget l (l.length - 1))).take (l.length - 1)).length
          = l.length - 1 := by
        rw [List.length_take, List.length_set]
        omega
      rw [hlen] at hb
      obtain ⟨hpa, hab⟩ := parent_of_edge hedge
      have ha1 : 1 ≤ a := by omega
      have hvb : hget ((l.set 0 (hget l (l.length - 1))).take (l.length - 1)) b
          = hget l b := by
        rw [hget_take _ _ _ hb, hget_set_ne _ _ _ _ (by omega : (0 : Nat) ≠ b)]
      have hva : hget ((l.set 0 (hget l (l.length - 1))).take (l.length - 1)) a
          = hget l a := by
        rw [hget_take _ _ _ (by omega), hget_set_ne _ _ _ _ (by omega : (0 : Nat) ≠ a)]
      rw [hva, hvb]
      exact hp a b (by omega) hedge
    · intro b hb hedge h0
      omega

/-- A nonempty list is a permutation of its last element consed onto the rest. -/
theorem last_cons_take_perm [Inhabited α] (t : List α) (h : t ≠ []) :
    (hget t (t.length - 1) :: t.take (t.length - 1)).Perm t := by
  induction t with
  | nil => exact absurd rfl h
  | cons x t' ih =>
    rcases List.eq_nil_or_concat t' with h' | h'
    · subst h'
      simp [hget, List.getD]
    · have hne : t' ≠ [] := by
        rintro rfl
        obtain ⟨l2, a, ha⟩ := h'
        exact absurd ha.symm (by simp)
      have hlen : 1 ≤ t'.length := by
        cases t' with
        | nil => exact absurd rfl hne
        | cons a b => simp
      have hstep : (x :: t').length - 1 = (t'.length - 1) + 1 := by
        rw [List.length_cons]
        omega
      have hg : hget (x :: t') ((x :: t').length - 1) = hget t' (t'.length - 1) := by
        rw [hstep]
        rfl
      have htake : (x :: t').take ((x :: t').length - 1)
          = x :: t'.take (t'.length - 1) := by
        rw [hstep]
        rfl
      rw [hg, htake]
      refine List.Perm.trans (List.Perm.swap x (hget t' (t'.length - 1))
        (t'.take (t'.length - 1))) ?_
      exact (ih hne).cons x

theorem cons_popRebuild_perm [Inhabited α] [DecidableEq α] (l : List (PQEntry α)) (h : l ≠ []) :
    (hget l 0 :: popRebuild l).Perm l := by
  unfold popRebuild
  match l, h with
  | x :: t, _ =>
    split_ifs with h1
    · have ht : t = [] := by
        rw [List.length_cons] at h1
        exact List.eq_nil_of_length_eq_zero (by omega)
      subst ht
      exact List.Perm.refl _
    · have ht : t ≠ [] := by
        rw [List.length_cons] at h1
        intro hc
        subst hc
        simp at h1
      have hset : (x :: t).set 0 (hget (x :: t) ((x :: t).length - 1))
          = hget (x :: t) ((x :: t).length - 1) :: t := rfl
      have hlen : (x :: t).length - 1 = t.length := by simp
      have hg : hget (x :: t) ((x :: t).length - 1) = hget t (t.length - 1) := by
        rw [hlen]
        cases t with
        | nil => exact absurd rfl ht
        | cons a b => rfl
      have htake : (hget (x :: t) ((x :: t).length - 1) :: t).take ((x :: t).length - 1)
          = hget (x :: t) ((x :: t).length - 1) :: t.take (t.length - 1) := by
        rw [hlen]
        cases t with
        | nil => exact absurd rfl ht
        | cons a b => rfl
      refine List.Perm.cons x ?_
      refine (perm_heapifyDown _ 0).trans ?_
      rw [hset, htake, hg]
      exact last_cons_take_perm t ht

theorem popAllFuel_perm [Inhabited α] [DecidableEq α] :
    ∀ (fuel : Nat) (l : List (PQEntry α)), l.length ≤ fuel →
      (popAllFuel fuel l).Perm l := by
  intro fuel
  induction fuel with
  | zero =>
    intro l h
    have : l = [] := List.eq_nil_of_length_eq_zero (by omega)
    subst this
    exact List.Perm.refl _
  | succ f ih =>
    intro l h
    match l with
    | [] => exact List.Perm.refl _
    | x :: t =>
      show (hget (x :: t) 0 :: popAllFuel f (popRebuild (x :: t))).Perm (x :: t)
      have hlen : (popRebuild (x :: t)).length = t.length := by
        rw [length_popRebuild]
        simp
      have hperm := ih (popRebuild (x :: t)) (by simp at h; omega)
      exact (hperm.cons _).trans (cons_popRebuild_perm (x :: t) (by simp))

theorem popAll_perm [Inhabited α] [DecidableEq α] (l : List (PQEntry α)) : (popAll l).Perm l :=
  popAllFuel_perm l.length l (Nat.le_refl _)

theorem popAllFuel_sorted [Inhabited α] [DecidableEq α] :
    ∀ (fuel : Nat) (l : List (PQEntry α)), l.length ≤ fuel → HeapProp l →
      List.Pairwise keyLe (popAllFuel fuel l) := by
  intro fuel
  induction fuel with
  | zero =>
    intro l h hp
    have : l = [] := List.eq_nil_of_length_eq_zero (by omega)
    subst this
    exact List.Pairwise.nil
  | succ f ih =>
    intro l h hp
    match l with
    | [] => exact List.Pairwise.nil
    | x :: t =>
      show List.Pairwise keyLe (hget (x :: t) 0 :: popAllFuel f (popRebuild (x :: t)))
      refine List.Pairwise.cons ?_ ?_
      · intro e he
        have hmem1 : e ∈ popRebuild (x :: t) :=
          (popAllFuel_perm f (popRebuild (x :: t))
            (by rw [length_popRebuild]; simp at h ⊢; omega)).mem_iff.mp he
        have hmem2 : e ∈ (x :: t) :=
          (cons_popRebuild_perm (x :: t) (by simp)).mem_iff.mp
            (List.mem_cons_of_mem _ hmem1)
        obtain ⟨j, hj, hje⟩ := exists_index_of_mem _ e hmem2
        rw [← hje]
        exact heapProp_root_le (x :: t) hp j hj
      · exact ih (popRebuild (x :: t))
          (by rw [length_popRebuild]; simp at h ⊢; omega)
          (heapProp_popRebuild _ hp)

theorem popAll_sorted [Inhabited α] [DecidableEq α] (l : List (PQEntry α)) (hp : HeapProp l) :
    List.Pairwise keyLe (popAll l) :=
  popAllFuel_sorted l.length l (Nat.le_refl _) hp

theorem pairwise_keyLt_of_keyLe_nodup (l : List (PQEntry α))
    (hle : List.Pairwise keyLe l) (hnd : CtrNodup l) : List.Pairwise keyLt l := by
  have hne : List.Pairwise (fun a b : PQEntry α => a.counter ≠ b.counter) l := by
    unfold CtrNodup at hnd
    rw [List.Nodup, List.pairwise_map] at hnd
    exact hnd
  have := hle.and hne
  refine this.imp ?_
  rintro a b ⟨h1, h2⟩
  unfold keyLe at h1
  unfold keyLt
  omega

theorem eq_of_perm_of_pairwise_keyLt (l1 l2 : List (PQEntry α)) (hp : l1.Perm l2)
    (h1 : List.Pairwise keyLt l1) (h2 : List.Pairwise keyLt l2) : l1 = l2 := by
  have : IsAntisymm (PQEntry α) keyLt :=
    ⟨fun a b ha hb => absurd ha (keyLt_asymm hb)⟩
  exact List.eq_of_perm_of_sorted hp h1 h2

end PriorityQueue


namespace PriorityQueue

theorem enqueue_full [Inhabited α] (pq : PriorityQueue α) (x : α) (p : Nat)
    (h : pq.heap.length ≥ pq.capacity) : enqueue pq x p = (false, pq) := by
  rw [enqueue, if_pos h]

theorem enqueue_room [Inhabited α] (pq : PriorityQueue α) (x : α) (p : Nat)
    (h : pq.heap.length < pq.capacity) :
    enqueue pq x p = (true, ⟨pq.capacity,
      heapifyUp (pq.heap ++ [⟨p, pq.entry_counter, x⟩]) pq.heap.length,
      pq.entry_counter + 1⟩) := by
  rw [enqueue, if_neg (by omega)]

theorem enqueue_heap_perm [Inhabited α] [DecidableEq α] (pq : PriorityQueue α)
    (x : α) (p : Nat) (h : pq.heap.length < pq.capacity) :
    (enqueue pq x p).2.heap.Perm (⟨p, pq.entry_counter, x⟩ :: pq.heap) := by
  rw [enqueue_room pq x p h]
  refine (perm_heapifyUp _ _ (by simp)).trans ?_
  exact List.perm_append_singleton _ _

theorem enqueue_wf [Inhabited α] [DecidableEq α] (pq : PriorityQueue α) (x : α)
    (p : Nat) (hwf : Wf pq) : Wf (enqueue pq x p).2 := by
  obtain ⟨hheap, hnd, hctr, hcap⟩ := hwf
  by_cases h : pq.heap.length ≥ pq.capacity
  · rw [enqueue_full pq x p h]
    exact ⟨hheap, hnd, hctr, hcap⟩
  · have hroom : pq.heap.length < pq.capacity := by omega
    have hperm := enqueue_heap_perm pq x p hroom
    rw [enqueue_room pq x p hroom] at hperm ⊢
    refine ⟨?_, ?_, ?_, ?_⟩
    · exact heapifyUp_heapProp _ _ (by simp) (upInv_append _ _ hheap)
    · unfold CtrNodup
      rw [(hperm.map PQEntry.counter).nodup_iff]
      simp only [List.map_cons, List.nodup_cons]
      refine ⟨?_, hnd⟩
      intro hmem
      obtain ⟨e, he, hec⟩ := List.mem_map.mp hmem
      exact absurd hec.symm (by have := hctr e he; omega)
    · intro e he
      have hmem : e ∈ (⟨p, pq.entry_counter, x⟩ : PQEntry α) :: pq.heap := hperm.mem_iff.mp he
      show e.counter < pq.entry_counter + 1
      rcases List.mem_cons.mp hmem with h1 | h1
      · rw [h1]
        show pq.entry_counter < pq.entry_counter + 1
        omega
      · have := hctr e h1
        omega
    · show (heapifyUp (pq.heap ++ [⟨p, pq.entry_counter, x⟩]) pq.heap.length).length ≤ pq.capacity
      rw [length_heapifyUp]
      simp only [List.length_append, List.length_cons, List.length_nil]
      omega

theorem enqueueAll_spec [Inhabited α] [DecidableEq α] :
    ∀ (pairs : List (α × Nat)) (pq : PriorityQueue α), Wf pq →
      pq.heap.length + pairs.length ≤ pq.capacity →
      Wf (enqueueAll pq pairs) ∧
        (enqueueAll pq pairs).heap.Perm (pq.heap ++ entriesOf pairs pq.entry_counter) ∧
        (enqueueAll pq pairs).capacity = pq.capacity := by
  intro pairs
  induction pairs with
  | nil =>
    intro pq hwf hlen
    exact ⟨hwf, by simp [enqueueAll, entriesOf], rfl⟩
  | cons pr rest ih =>
    intro pq hwf hlen
    have hroom : pq.heap.length < pq.capacity := by
      simp only [List.length_cons] at hlen
      omega
    have hwf1 : Wf (enqueue pq pr.1 pr.2).2 := enqueue_wf pq pr.1 pr.2 hwf
    have hperm1 := enqueue_heap_perm pq pr.1 pr.2 hroom
    have hlen1 : (enqueue pq pr.1 pr.2).2.heap.length = pq.heap.length + 1 := by
      rw [enqueue_room pq pr.1 pr.2 hroom]
      show (heapifyUp (pq.heap ++ [⟨pr.2, pq.entry_counter, pr.1⟩]) pq.heap.length).length
        = pq.heap.length + 1
      rw [length_heapifyUp]
      simp
    have hctr1 : (enqueue pq pr.1 pr.2).2.entry_counter = pq.entry_counter + 1 := by
      rw [enqueue_room pq pr.1 pr.2 hroom]
    have hcap1 : (enqueue pq pr.1 pr.2).2.capacity = pq.capacity := by
      rw [enqueue_room pq pr.1 pr.2 hroom]
    have hstep : enqueueAll pq (pr :: rest) = enqueueAll (enqueue pq pr.1 pr.2).2 rest := rfl
    obtain ⟨g1, g2, g3⟩ := ih (enqueue pq pr.1 pr.2).2 hwf1
      (by rw [hlen1, hcap1]; simp only [List.length_cons] at hlen; omega)
    rw [hstep]
    refine ⟨g1, ?_, by rw [g3, hcap1]⟩
    rw [hctr1] at g2
    refine g2.trans ?_
    have : entriesOf (pr :: rest) pq.entry_counter
        = ⟨pr.2, pq.entry_counter, pr.1⟩ :: entriesOf rest (pq.entry_counter + 1) := rfl
    rw [this]
    refine (hperm1.append_right (entriesOf rest (pq.entry_counter + 1))).trans ?_
    exact List.perm_middle.symm

theorem wf_mkEmpty [Inhabited α] (cap : Nat) : Wf (mkEmpty α cap) := by
  refine ⟨?_, ?_, ?_, ?_⟩
  · intro i j hj hedge
    simp [mkEmpty] at hj
  · simp [CtrNodup, mkEmpty]
  · intro e he
    simp [mkEmpty] at he
  · simp [mkEmpty]

end PriorityQueue


namespace PriorityQueue

theorem bubbleInner_spec [Inhabited α] [DecidableEq α] (l : List (PQEntry α))
    (j stop : Nat) :
    j ≤ stop → stop < l.length → MaxAt l j →
      (bubbleInner l j stop).Perm l ∧ (bubbleInner l j stop).length = l.length ∧
        (∀ x, stop < x → hget (bubbleInner l j stop) x = hget l x) ∧
        MaxAt (bubbleInner l j stop) stop := by
  induction l, j, stop using bubbleInner.induct with
  | case2 l j stop h =>
    intro hj hstop hmax
    rw [bubbleInner, if_neg h]
    have hjs : j = stop := by omega
    subst hjs
    exact ⟨List.Perm.refl _, rfl, fun x _ => rfl, hmax⟩
  | case1 l j stop h ih =>
    intro hj hstop hmax
    simp only [dite_eq_ite] at ih
    rw [bubbleInner, if_pos h]
    set l2 := if ¬ (cmpEntry (hget l j) (hget l (j + 1)) = true)
      then lswap l j (j + 1) else l with hl2def
    have hl2 : (keyLt (hget l j) (hget l (j + 1)) ∧ l2 = l) ∨
        (keyLe (hget l (j + 1)) (hget l j) ∧ l2 = lswap l j (j + 1)) := by
      rcases Bool.eq_false_or_eq_true (cmpEntry (hget l j) (hget l (j + 1))) with hc | hc
      · exact Or.inl ⟨(cmpEntry_true_iff _ _).mp hc,
          by rw [hl2def, if_neg (by simp [hc])]⟩
      · exact Or.inr ⟨(cmpEntry_false_iff _ _).mp hc,
          by rw [hl2def, if_pos (by simp [hc])]⟩
    have hlen2 : l2.length = l.length := by
      rcases hl2 with ⟨-, he⟩ | ⟨-, he⟩
      · rw [he]
      · rw [he]
        exact length_lswap l j (j + 1)
    have hperm2 : l2.Perm l := by
      rcases hl2 with ⟨-, he⟩ | ⟨-, he⟩
      · rw [he]
      · rw [he]
        exact perm_lswap l j (j + 1) (by omega) (by omega)
    have hother2 : ∀ x, x ≠ j → x ≠ j + 1 → hget l2 x = hget l x := by
      intro x h1 h2
      rcases hl2 with ⟨-, he⟩ | ⟨-, he⟩
      · rw [he]
      · rw [he]
        exact hget_lswap_other l j (j + 1) x h1 h2
    have hmax2 : MaxAt l2 (j + 1) := by
      intro m hm
      rcases hl2 with ⟨hlt, he⟩ | ⟨hswap, he⟩
      · rw [he]
        rcases Nat.lt_or_ge m (j + 1) with hmlt | hmge
        · exact keyLe_trans (hmax m (by omega)) (keyLe_of_keyLt hlt)
        · have hm' : m = j + 1 := by omega
          subst hm'
          exact keyLe_refl _
      · rw [he]
        have hj1 : j + 1 < l.length := by omega
        have e1 : hget (lswap l j (j + 1)) (j + 1) = hget l j :=
          hget_lswap_right l j (j + 1) hj1
        rcases Nat.lt_or_ge m (j + 1) with hmlt | hmge
        · rcases Nat.lt_or_ge m j with hmj | hmj
          · rw [e1, hget_lswap_other l j (j + 1) m (by omega) (by omega)]
            exact hmax m (by omega)
          · have hmj' : m = j := by omega
            rw [hmj', e1, hget_lswap_left l j (j + 1) (by omega) (by omega)]
            exact hswap
        · have hm' : m = j + 1 := by omega
          subst hm'
          exact keyLe_refl _
    obtain ⟨g1, g2, g3, g4⟩ := ih (by omega) (by rw [hlen2]; omega) hmax2
    refine ⟨g1.trans hperm2, g2.trans hlen2, ?_, g4⟩
    intro x hx
    rw [g3 x hx, hother2 x (by omega) (by omega)]

/-- Equal tails: two equal-length lists agreeing pointwise from `m` on have
permutation-equivalent prefixes whenever they are permutations. -/
theorem take_perm_of_perm_of_agree [Inhabited α] [DecidableEq α]
    (l1 l2 : List α) (m : Nat) (hp : l1.Perm l2) (hlen : l1.length = l2.length)
    (hagree : ∀ x, m ≤ x → hget l1 x = hget l2 x) :
    (l1.take m).Perm (l2.take m) := by
  have hdrop : l1.drop m = l2.drop m := by
    apply List.ext_getElem
    · simp [hlen]
    · intro k h1 h2
      have hk1 : m + k < l1.length := by
        simp at h1
        omega
      have hk2 : m + k < l2.length := by omega
      rw [List.getElem_drop, List.getElem_drop]
      rw [← hget_eq_getElem l1 (m + k) hk1, ← hget_eq_getElem l2 (m + k) hk2]
      exact hagree (m + k) (by omega)
  have h1 : l1.take m ++ l1.drop m = l1 := List.take_append_drop m l1
  have h2 : l2.take m ++ l2.drop m = l2 := List.take_append_drop m l2
  have : (l1.take m ++ l1.drop m).Perm (l2.take m ++ l1.drop m) := by
    rw [h1]
    rw [hdrop, h2]
    exact hp
  exact (List.perm_append_right_iff (l1.drop m)).mp this

theorem bubbleOuter_spec [Inhabited α] [DecidableEq α] (l : List (PQEntry α))
    (i n : Nat) :
    l.length = n → i ≤ n → OuterInv l n i →
      (bubbleOuter l i n).Perm l ∧ (bubbleOuter l i n).length = n ∧
        OuterInv (bubbleOuter l i n) n n := by
  induction l, i, n using bubbleOuter.induct with
  | case2 l i n h =>
    intro hlen hi hinv
    rw [bubbleOuter, if_neg h]
    have : i = n := by omega
    subst this
    exact ⟨List.Perm.refl _, hlen, hinv⟩
  | case1 l i n h ih =>
    intro hlen hi hinv
    rw [bubbleOuter, if_pos h]
    have hstop : n - i - 1 < l.length := by omega
    have hmax0 : MaxAt l 0 := by
      intro m hm
      have : m = 0 := by omega
      subst this
      exact keyLe_refl _
    obtain ⟨g1, g2, g3, g4⟩ := bubbleInner_spec l 0 (n - i - 1) (by omega) hstop hmax0
    set inner := bubbleInner l 0 (n - i - 1) with hidef
    have hpre : (inner.take (n - i)).Perm (l.take (n - i)) := by
      refine take_perm_of_perm_of_agree inner l (n - i) g1 g2 ?_
      intro x hx
      exact g3 x (by omega)
    have hinv2 : OuterInv inner n (i + 1) := by
      intro x y hxy hyn hny
      rcases Nat.lt_or_ge (n - i - 1) y with hygt | hyle
      · rw [g3 y hygt]
        rcases Nat.lt_or_ge (n - i - 1) x with hxgt | hxle
        · rw [g3 x hxgt]
          exact hinv x y hxy hyn (by omega)
        · have hxmem : hget inner x ∈ inner.take (n - i) := by
            have hxlen : x < (inner.take (n - i)).length := by
              rw [List.length_take, g2]
              omega
            have := hget_take inner (n - i) x (by omega)
            rw [← this]
            exact mem_of_hget _ x hxlen
          have hxmem2 : hget inner x ∈ l.take (n - i) := hpre.mem_iff.mp hxmem
          obtain ⟨k, hk, hke⟩ := exists_index_of_mem _ _ hxmem2
          have hklen : k < n - i := by
            rw [List.length_take] at hk
            omega
          rw [← hke, hget_take l (n - i) k hklen]
          exact hinv k y (by omega) hyn (by omega)
      · have hyeq : y = n - i - 1 := by omega
        subst hyeq
        exact g4 x (by omega)
    obtain ⟨f1, f2, f3⟩ := ih (by omega) (by omega) hinv2
    exact ⟨f1.trans g1, f2, f3⟩

theorem pairwise_keyLe_of_outerInv [Inhabited α] (l : List (PQEntry α))
    (h : OuterInv l l.length l.length) : List.Pairwise keyLe l := by
  rw [List.pairwise_iff_getElem]
  intro a b ha hb hab
  rw [← hget_eq_getElem l a ha, ← hget_eq_getElem l b hb]
  exact h a b hab hb (by omega)

/-- `get_all` returns exactly the entry items in dequeue order. -/
theorem get_all_eq_drain [Inhabited α] [DecidableEq α] (pq : PriorityQueue α)
    (hwf : Wf pq) : get_all pq = drain pq := by
  obtain ⟨hheap, hnd, -, -⟩ := hwf
  by_cases h0 : pq.heap.length = 0
  · have : pq.heap = [] := List.eq_nil_of_length_eq_zero h0
    rw [get_all, if_pos h0, drain, popAll, this]
    rfl
  · rw [get_all, if_neg h0, drain]
    have hres := bubbleOuter_spec pq.heap 0 pq.heap.length rfl (by omega) ?_
    · obtain ⟨f1, f2, f3⟩ := hres
      have hsorted1 : List.Pairwise keyLt (bubbleOuter pq.heap 0 pq.heap.length) := by
        refine pairwise_keyLt_of_keyLe_nodup _ ?_ ?_
        · exact pairwise_keyLe_of_outerInv _ (by rw [f2]; exact f3)
        · unfold CtrNodup
          rw [(f1.map PQEntry.counter).nodup_iff]
          exact hnd
      have hsorted2 : List.Pairwise keyLt (popAll pq.heap) := by
        refine pairwise_keyLt_of_keyLe_nodup _ (popAll_sorted _ hheap) ?_
        unfold CtrNodup
        rw [((popAll_perm pq.heap).map PQEntry.counter).nodup_iff]
        exact hnd
      have heq : bubbleOuter pq.heap 0 pq.heap.length = popAll pq.heap :=
        eq_of_perm_of_pairwise_keyLt _ _ (f1.trans (popAll_perm pq.heap).symm)
          hsorted1 hsorted2
      rw [heq]
    · intro x y hxy hyn hny
      omega

end PriorityQueue


/-- C8: for every sequence of `enqueue(item, priority)` calls within capacity
on a fresh `PriorityQueue`, `get_all()` and the sequence of repeated
`dequeue()` calls yield the same list, namely the entries (whose counters are
the insertion indices) in strictly ascending (priority, insertion-order)
order, as a permutation of everything inserted; `get_all` reads the heap
without modifying it (it is a pure function of the state here), and `enqueue`
on a full heap reports failure. -/
theorem claim_C8 (α : Type) [Inhabited α] [DecidableEq α]
    (pairs : List (α × Nat)) (cap : Nat) (hcap : pairs.length ≤ cap) :
    PriorityQueue.get_all (enqueueAll (PriorityQueue.mkEmpty α cap) pairs)
        = PriorityQueue.drain (enqueueAll (PriorityQueue.mkEmpty α cap) pairs) ∧
      (PriorityQueue.popAll (enqueueAll (PriorityQueue.mkEmpty α cap) pairs).heap).Perm
        (entriesOf pairs 0) ∧
      List.Pairwise PriorityQueue.keyLt
        (PriorityQueue.popAll (enqueueAll (PriorityQueue.mkEmpty α cap) pairs).heap) ∧
      PriorityQueue.drain (enqueueAll (PriorityQueue.mkEmpty α cap) pairs)
        = (PriorityQueue.popAll
            (enqueueAll (PriorityQueue.mkEmpty α cap) pairs).heap).map PQEntry.item ∧
      (∀ (pq' : PriorityQueue α) (x : α) (p : Nat),
        pq'.heap.length ≥ pq'.capacity → (pq'.enqueue x p).1 = false) := by
  obtain ⟨hwf, hperm, -⟩ := PriorityQueue.enqueueAll_spec pairs
    (PriorityQueue.mkEmpty α cap) (PriorityQueue.wf_mkEmpty cap) (by simp [PriorityQueue.mkEmpty]; omega)
  have hperm0 : (enqueueAll (PriorityQueue.mkEmpty α cap) pairs).heap.Perm
      (entriesOf pairs 0) := by
    simpa [PriorityQueue.mkEmpty] using hperm
  obtain ⟨hheap, hnd, hctr, hcap2⟩ := hwf
  refine ⟨PriorityQueue.get_all_eq_drain _ ⟨hheap, hnd, hctr, hcap2⟩, ?_, ?_, rfl, ?_⟩
  · exact (PriorityQueue.popAll_perm _).trans hperm0
  · refine PriorityQueue.pairwise_keyLt_of_keyLe_nodup _
      (PriorityQueue.popAll_sorted _ hheap) ?_
    unfold PriorityQueue.CtrNodup
    rw [((PriorityQueue.popAll_perm _).map PQEntry.counter).nodup_iff]
    exact hnd
  · intro pq' x p hfull
    rw [PriorityQueue.enqueue_full pq' x p hfull]

/-- Witness for C8 at a concrete input: three entries with a priority tie. -/
theorem claim_C8_witness :
    ([("a", 2), ("b", 1), ("c", 1)] : List (String × Nat)).length ≤ 4 ∧
      (PriorityQueue.get_all (enqueueAll (PriorityQueue.mkEmpty String 4)
            [("a", 2), ("b", 1), ("c", 1)])
          = PriorityQueue.drain (enqueueAll (PriorityQueue.mkEmpty String 4)
            [("a", 2), ("b", 1), ("c", 1)]) ∧
        (PriorityQueue.popAll (enqueueAll (PriorityQueue.mkEmpty String 4)
            [("a", 2), ("b", 1), ("c", 1)]).heap).Perm
          (entriesOf [("a", 2), ("b", 1), ("c", 1)] 0) ∧
        List.Pairwise PriorityQueue.keyLt
          (PriorityQueue.popAll (enqueueAll (PriorityQueue.mkEmpty String 4)
            [("a", 2), ("b", 1), ("c", 1)]).heap) ∧
        PriorityQueue.drain (enqueueAll (PriorityQueue.mkEmpty String 4)
            [("a", 2), ("b", 1), ("c", 1)])
          = (PriorityQueue.popAll (enqueueAll (PriorityQueue.mkEmpty String 4)
              [("a", 2), ("b", 1), ("c", 1)]).heap).map PQEntry.item ∧
        (∀ (pq' : PriorityQueue String) (x : String) (p : Nat),
          pq'.heap.length ≥ pq'.capacity → (pq'.enqueue x p).1 = false)) :=
  ⟨by decide, claim_C8 String [("a", 2), ("b", 1), ("c", 1)] 4 (by decide)⟩


namespace HashTable

theorem getChain_updateChain_self (chain : List (String × α)) (k : String) (v : α)
    (c : List (String × α)) (h : updateChain chain k v = some c) :
    getChain c k = some v := by
  induction chain generalizing c with
  | nil => simp [updateChain] at h
  | cons kv rest ih =>
    rw [updateChain] at h
    split_ifs at h with hk
    · simp only [Option.some.injEq] at h
      subst h
      rw [getChain, if_pos hk]
    · cases hrec : updateChain rest k v with
      | none => rw [hrec] at h; simp at h
      | some c2 =>
        rw [hrec] at h
        injection h with h
        subst h
        rw [getChain, if_neg hk]
        exact ih c2 hrec

theorem getChain_updateChain_ne (chain : List (String × α)) (k k2 : String) (v : α)
    (c : List (String × α)) (h : updateChain chain k v = some c) (hne : k2 ≠ k) :
    getChain c k2 = getChain chain k2 := by
  induction chain generalizing c with
  | nil => simp [updateChain] at h
  | cons kv rest ih =>
    rw [updateChain] at h
    split_ifs at h with hk
    · simp only [Option.some.injEq] at h
      subst h
      rw [getChain, getChain]
      by_cases h2 : kv.1 = k2
      · exact absurd (h2.symm.trans hk) hne
      · rw [if_neg (by rw [hk]; exact fun hh => hne hh.symm), if_neg h2]
    · cases hrec : updateChain rest k v with
      | none => rw [hrec] at h; simp at h
      | some c2 =>
        rw [hrec] at h
        injection h with h
        subst h
        rw [getChain, getChain]
        split_ifs with h2
        · rfl
        · exact ih c2 hrec

theorem updateChain_keys (chain : List (String × α)) (k : String) (v : α)
    (c : List (String × α)) (h : updateChain chain k v = some c) :
    c.map Prod.fst = chain.map Prod.fst := by
  induction chain generalizing c with
  | nil => simp [updateChain] at h
  | cons kv rest ih =>
    rw [updateChain] at h
    split_ifs at h with hk
    · simp only [Option.some.injEq] at h
      subst h
      simp [hk]
    · cases hrec : updateChain rest k v with
      | none => rw [hrec] at h; simp at h
      | some c2 =>
        rw [hrec] at h
        injection h with h
        subst h
        simp [ih c2 hrec]

theorem updateChain_none (chain : List (String × α)) (k : String) (v : α)
    (h : updateChain chain k v = none) : getChain chain k = none := by
  induction chain with
  | nil => rfl
  | cons kv rest ih =>
    rw [updateChain] at h
    split_ifs at h with hk
    · cases hrec : updateChain rest k v with
      | none =>
        rw [getChain, if_neg hk]
        exact ih (by rw [hrec])
      | some c2 => rw [hrec] at h; simp at h

theorem getChain_none_not_mem (chain : List (String × α)) (k : String)
    (h : getChain chain k = none) : k ∉ chain.map Prod.fst := by
  induction chain with
  | nil => simp
  | cons kv rest ih =>
    rw [getChain] at h
    split_ifs at h with hk
    · simp only [List.map_cons, List.mem_cons]
      push_neg
      exact ⟨fun hc => hk hc.symm, ih h⟩

theorem getChain_none_of_not_mem (chain : List (String × α)) (k : String)
    (h : k ∉ chain.map Prod.fst) : getChain chain k = none := by
  induction chain with
  | nil => rfl
  | cons kv rest ih =>
    simp only [List.map_cons, List.mem_cons] at h
    push_neg at h
    rw [getChain, if_neg (fun hc => h.1 hc.symm)]
    exact ih h.2

theorem getChain_removeChain_self (chain : List (String × α)) (k : String)
    (c : List (String × α)) (hnd : (chain.map Prod.fst).Nodup)
    (h : removeChain chain k = some c) : getChain c k = none := by
  induction chain generalizing c with
  | nil => simp [removeChain] at h
  | cons kv rest ih =>
    rw [removeChain] at h
    simp only [List.map_cons, List.nodup_cons] at hnd
    split_ifs at h with hk
    · simp only [Option.some.injEq] at h
      subst h
      refine getChain_none_of_not_mem _ k ?_
      rw [← hk]
      exact hnd.1
    · cases hrec : removeChain rest k with
      | none => rw [hrec] at h; simp at h
      | some c2 =>
        rw [hrec] at h
        injection h with h
        subst h
        rw [getChain, if_neg hk]
        exact ih c2 hnd.2 hrec

end HashTable


theorem getD_set_self_list (l : List β) (i : Nat) (a d : β) (h : i < l.length) :
    (l.set i a).getD i d = a := by
  simp [List.getD, List.getElem?_set_self, h]

theorem getD_set_ne_list (l : List β) (i j : Nat) (a d : β) (h : i ≠ j) :
    (l.set i a).getD j d = l.getD j d := by
  simp [List.getD, List.getElem?_set_ne h]

namespace HashTable

theorem getChain_removeChain_ne (chain : List (String × α)) (k k2 : String)
    (c : List (String × α)) (h : removeChain chain k = some c) (hne : k2 ≠ k) :
    getChain c k2 = getChain chain k2 := by
  induction chain generalizing c with
  | nil => simp [removeChain] at h
  | cons kv rest ih =>
    rw [removeChain] at h
    split_ifs at h with hk
    · simp only [Option.some.injEq] at h
      subst h
      rw [getChain, if_neg (fun hc => hne (hc.symm.trans hk))]
    · cases hrec : removeChain rest k with
      | none => rw [hrec] at h; simp at h
      | some c2 =>
        rw [hrec] at h
        injection h with h
        subst h
        rw [getChain, getChain]
        split_ifs with h2
        · rfl
        · exact ih c2 hrec

theorem removeChain_none (chain : List (String × α)) (k : String)
    (h : removeChain chain k = none) : getChain chain k = none := by
  induction chain with
  | nil => rfl
  | cons kv rest ih =>
    rw [removeChain] at h
    split_ifs at h with hk
    · cases hrec : removeChain rest k with
      | none =>
        rw [getChain, if_neg hk]
        exact ih (by rw [hrec])
      | some c2 => rw [hrec] at h; simp at h

theorem removeChain_sublist (chain : List (String × α)) (k : String)
    (c : List (String × α)) (h : removeChain chain k = some c) : c.Sublist chain := by
  induction chain generalizing c with
  | nil => simp [removeChain] at h
  | cons kv rest ih =>
    rw [removeChain] at h
    split_ifs at h with hk
    · simp only [Option.some.injEq] at h
      subst h
      exact List.sublist_cons_self kv rest
    · cases hrec : removeChain rest k with
      | none => rw [hrec] at h; simp at h
      | some c2 =>
        rw [hrec] at h
        injection h with h
        subst h
        exact (ih c2 hrec).cons₂ kv

theorem put_eq_update (ht : HashTable α) (k : String) (v : α) (c : List (String × α))
    (hu : updateChain (ht.table.getD (hashOf k ht.size) []) k v = some c) :
    ht.put k v = ⟨ht.size, ht.table.set (hashOf k ht.size) c, ht.count⟩ := by
  unfold put
  dsimp only
  rw [hu]

theorem put_eq_insert (ht : HashTable α) (k : String) (v : α)
    (hu : updateChain (ht.table.getD (hashOf k ht.size) []) k v = none) :
    ht.put k v = ⟨ht.size,
      ht.table.set (hashOf k ht.size) ((k, v) :: ht.table.getD (hashOf k ht.size) []),
      ht.count + 1⟩ := by
  unfold put
  dsimp only
  rw [hu]

theorem remove_eq_found (ht : HashTable α) (k : String) (c : List (String × α))
    (hu : removeChain (ht.table.getD (hashOf k ht.size) []) k = some c) :
    ht.remove k = (true, ⟨ht.size, ht.table.set (hashOf k ht.size) c, ht.count - 1⟩) := by
  unfold remove
  dsimp only
  rw [hu]

theorem remove_eq_missing (ht : HashTable α) (k : String)
    (hu : removeChain (ht.table.getD (hashOf k ht.size) []) k = none) :
    ht.remove k = (false, ht) := by
  unfold remove
  dsimp only
  rw [hu]

/-- `get` after `put` at the same key. -/
theorem get_put_self (ht : HashTable α) (k : String) (v : α)
    (hlen : ht.table.length = ht.size) (hpos : 0 < ht.size) :
    (ht.put k v).get k = some v := by
  have hidx : hashOf k ht.size < ht.table.length := by
    rw [hlen]
    exact Nat.mod_lt _ hpos
  cases hu : updateChain (ht.table.getD (hashOf k ht.size) []) k v with
  | some c =>
    rw [put_eq_update ht k v c hu]
    show getChain ((ht.table.set (hashOf k ht.size) c).getD (hashOf k ht.size) []) k
      = some v
    rw [getD_set_self_list _ _ _ _ hidx]
    exact getChain_updateChain_self _ k v c hu
  | none =>
    rw [put_eq_insert ht k v hu]
    show getChain ((ht.table.set (hashOf k ht.size)
      ((k, v) :: ht.table.getD (hashOf k ht.size) [])).getD (hashOf k ht.size) []) k
      = some v
    rw [getD_set_self_list _ _ _ _ hidx]
    rw [getChain, if_pos rfl]

/-- `get` after `put` at a different key. -/
theorem get_put_ne (ht : HashTable α) (k k2 : String) (v : α)
    (hlen : ht.table.length = ht.size) (hpos : 0 < ht.size) (hne : k2 ≠ k) :
    (ht.put k v).get k2 = ht.get k2 := by
  have hidx : hashOf k ht.size < ht.table.length := by
    rw [hlen]
    exact Nat.mod_lt _ hpos
  cases hu : updateChain (ht.table.getD (hashOf k ht.size) []) k v with
  | some c =>
    rw [put_eq_update ht k v c hu]
    show getChain ((ht.table.set (hashOf k ht.size) c).getD (hashOf k2 ht.size) []) k2
      = ht.get k2
    by_cases hb : hashOf k2 ht.size = hashOf k ht.size
    · rw [hb, getD_set_self_list _ _ _ _ hidx]
      rw [get, hb]
      exact getChain_updateChain_ne _ k k2 v c hu hne
    · rw [getD_set_ne_list _ _ _ _ _ (fun hc => hb hc.symm)]
      rfl
  | none =>
    rw [put_eq_insert ht k v hu]
    show getChain ((ht.table.set (hashOf k ht.size)
      ((k, v) :: ht.table.getD (hashOf k ht.size) [])).getD (hashOf k2 ht.size) []) k2
      = ht.get k2
    by_cases hb : hashOf k2 ht.size = hashOf k ht.size
    · rw [hb, getD_set_self_list _ _ _ _ hidx]
      rw [getChain, if_neg (fun hc => hne hc.symm)]
      rw [get, hb]
    · rw [getD_set_ne_list _ _ _ _ _ (fun hc => hb hc.symm)]
      rfl

/-- `get` after `remove` at the same key (chains hold no duplicate keys). -/
theorem get_remove_self (ht : HashTable α) (k : String) (hwf : wf ht) :
    (ht.remove k).2.get k = none := by
  obtain ⟨hlen, hpos, hbuckets⟩ := hwf
  have hidx : hashOf k ht.size < ht.table.length := by
    rw [hlen]
    exact Nat.mod_lt _ hpos
  cases hu : removeChain (ht.table.getD (hashOf k ht.size) []) k with
  | some c =>
    rw [remove_eq_found ht k c hu]
    show getChain ((ht.table.set (hashOf k ht.size) c).getD (hashOf k ht.size) []) k
      = none
    rw [getD_set_self_list _ _ _ _ hidx]
    exact getChain_removeChain_self _ k c
      (hbuckets (hashOf k ht.size) (Nat.mod_lt _ hpos)).1 hu
  | none =>
    rw [remove_eq_missing ht k hu]
    exact removeChain_none _ k hu

/-- `get` after `remove` at a different key. -/
theorem get_remove_ne (ht : HashTable α) (k k2 : String)
    (hlen : ht.table.length = ht.size) (hpos : 0 < ht.size) (hne : k2 ≠ k) :
    (ht.remove k).2.get k2 = ht.get k2 := by
  have hidx : hashOf k ht.size < ht.table.length := by
    rw [hlen]
    exact Nat.mod_lt _ hpos
  cases hu : removeChain (ht.table.getD (hashOf k ht.size) []) k with
  | some c =>
    rw [remove_eq_found ht k c hu]
    show getChain ((ht.table.set (hashOf k ht.size) c).getD (hashOf k2 ht.size) []) k2
      = ht.get k2
    by_cases hb : hashOf k2 ht.size = hashOf k ht.size
    · rw [hb, getD_set_self_list _ _ _ _ hidx]
      rw [get, hb]
      exact getChain_removeChain_ne _ k k2 c hu hne
    · rw [getD_set_ne_list _ _ _ _ _ (fun hc => hb hc.symm)]
      rfl
  | none => rw [remove_eq_missing ht k hu]

theorem size_put (ht : HashTable α) (k : String) (v : α) : (ht.put k v).size = ht.size := by
  cases hu : updateChain (ht.table.getD (hashOf k ht.size) []) k v with
  | some c => rw [put_eq_update ht k v c hu]
  | none => rw [put_eq_insert ht k v hu]

/-- `put` preserves well-formedness. -/
theorem wf_put (ht : HashTable α) (k : String) (v : α) (hwf : wf ht) :
    wf (ht.put k v) := by
  obtain ⟨hlen, hpos, hbuckets⟩ := hwf
  have hidx : hashOf k ht.size < ht.table.length := by
    rw [hlen]
    exact Nat.mod_lt _ hpos
  cases hu : updateChain (ht.table.getD (hashOf k ht.size) []) k v with
  | some c =>
    rw [put_eq_update ht k v c hu]
    refine ⟨by simpa using hlen, hpos, ?_⟩
    intro i hi
    have hi' : i < ht.size := hi
    show (((ht.table.set (hashOf k ht.size) c).getD i []).map Prod.fst).Nodup ∧
      ∀ kv ∈ (ht.table.set (hashOf k ht.size) c).getD i [], hashOf kv.1 ht.size = i
    by_cases hib : i = hashOf k ht.size
    · subst hib
      rw [getD_set_self_list _ _ _ _ hidx]
      have hkeys := updateChain_keys _ k v c hu
      constructor
      · rw [hkeys]
        exact (hbuckets _ hi').1
      · intro kv hkv
        have hmem : kv.1 ∈ c.map Prod.fst := List.mem_map_of_mem Prod.fst hkv
        rw [hkeys] at hmem
        obtain ⟨kv2, hkv2, hk2⟩ := List.mem_map.mp hmem
        rw [← hk2]
        exact (hbuckets _ hi').2 kv2 hkv2
    · rw [getD_set_ne_list _ _ _ _ _ (fun hc => hib hc.symm)]
      exact hbuckets i hi'
  | none =>
    rw [put_eq_insert ht k v hu]
    refine ⟨by simpa using hlen, hpos, ?_⟩
    intro i hi
    have hi' : i < ht.size := hi
    show (((ht.table.set (hashOf k ht.size)
        ((k, v) :: ht.table.getD (hashOf k ht.size) [])).getD i []).map Prod.fst).Nodup ∧
      ∀ kv ∈ (ht.table.set (hashOf k ht.size)
        ((k, v) :: ht.table.getD (hashOf k ht.size) [])).getD i [], hashOf kv.1 ht.size = i
    by_cases hib : i = hashOf k ht.size
    · subst hib
      rw [getD_set_self_list _ _ _ _ hidx]
      constructor
      · simp only [List.map_cons, List.nodup_cons]
        exact ⟨getChain_none_not_mem _ k (updateChain_none _ k v hu), (hbuckets _ hi').1⟩
      · intro kv hkv
        rcases List.mem_cons.mp hkv with h1 | h1
        · rw [h1]
        · exact (hbuckets _ hi').2 kv h1
    · rw [getD_set_ne_list _ _ _ _ _ (fun hc => hib hc.symm)]
      exact hbuckets i hi'

/-- `remove` preserves well-formedness. -/
theorem wf_remove (ht : HashTable α) (k : String) (hwf : wf ht) :
    wf (ht.remove k).2 := by
  obtain ⟨hlen, hpos, hbuckets⟩ := hwf
  cases hu : removeChain (ht.table.getD (hashOf k ht.size) []) k with
  | some c =>
    rw [remove_eq_found ht k c hu]
    refine ⟨by simpa using hlen, hpos, ?_⟩
    intro i hi
    have hi' : i < ht.size := hi
    show (((ht.table.set (hashOf k ht.size) c).getD i []).map Prod.fst).Nodup ∧
      ∀ kv ∈ (ht.table.set (hashOf k ht.size) c).getD i [], hashOf kv.1 ht.size = i
    by_cases hib : i = hashOf k ht.size
    · subst hib
      rw [getD_set_self_list _ _ _ _ (by rw [hlen]; exact Nat.mod_lt _ hpos)]
      have hsub := removeChain_sublist _ k c hu
      constructor
      · exact ((hsub.map Prod.fst).nodup (hbuckets _ hi').1)
      · intro kv hkv
        exact (hbuckets _ hi').2 kv (hsub.mem hkv)
    · rw [getD_set_ne_list _ _ _ _ _ (fun hc => hib hc.symm)]
      exact hbuckets i hi'
  | none =>
    rw [remove_eq_missing ht k hu]
    exact ⟨hlen, hpos, hbuckets⟩

theorem wf_mkEmptyTable (α : Type) (n : Nat) (hn : 0 < n) : wf (mkEmpty α n) := by
  refine ⟨by simp [mkEmpty], hn, ?_⟩
  intro i hi
  have hrep : (mkEmpty α n).table.getD i [] = ([] : List (String × α)) := by
    show (List.replicate n ([] : List (String × α))).getD i [] = []
    rcases Nat.lt_or_ge i n with h | h
    · rw [List.getD, List.get?_eq_getElem?, List.getElem?_replicate, if_pos h]
      rfl
    · rw [List.getD, List.get?_eq_getElem?, List.getElem?_replicate, if_neg (by omega)]
      rfl
  rw [hrep]
  exact ⟨List.nodup_nil, by simp⟩

end HashTable


namespace HashTable

theorem table_sum_single (p : String × α → Bool) :
    ∀ (L : List (List (String × α))) (i0 : Nat),
      (∀ j, j < L.length → j ≠ i0 → (L.getD j []).countP p = 0) →
      (L.map (fun chain => chain.countP p)).sum = (L.getD i0 []).countP p := by
  intro L
  induction L with
  | nil =>
    intro i0 h
    simp [List.getD]
  | cons b t ih =>
    intro i0 h
    cases i0 with
    | zero =>
      have hrest : (t.map (fun chain => chain.countP p)).sum = 0 := by
        apply List.sum_eq_zero
        intro x hx
        obtain ⟨c, hc, hcx⟩ := List.mem_map.mp hx
        obtain ⟨j, hj, hje⟩ := List.mem_iff_getElem.mp hc
        have := h (j + 1) (by simpa using Nat.succ_lt_succ hj) (by omega)
        have hgd : (b :: t).getD (j + 1) [] = t[j] := by
          show t.getD j [] = t[j]
          rw [List.getD_eq_getElem t [] hj]
        rw [hgd, hje] at this
        rw [← hcx, this]
      simp only [List.map_cons, List.sum_cons, hrest]
      rfl
    | succ i =>
      have hb : b.countP p = 0 := by
        have := h 0 (by simp) (by omega)
        simpa using this
      simp only [List.map_cons, List.sum_cons, hb]
      have := ih i ?_
      · simpa using this
      · intro j hj hji
        have := h (j + 1) (by simpa using Nat.succ_lt_succ hj) (by omega)
        simpa using this

theorem chain_countP_of_nodup (chain : List (String × α)) (k : String)
    (hnd : (chain.map Prod.fst).Nodup) :
    chain.countP (fun kv => kv.1 = k) = if (getChain chain k).isSome then 1 else 0 := by
  induction chain with
  | nil => rfl
  | cons kv rest ih =>
    simp only [List.map_cons, List.nodup_cons] at hnd
    rw [List.countP_cons, getChain]
    by_cases hk : kv.1 = k
    · rw [if_pos hk]
      have hrest : rest.countP (fun kv2 => decide (kv2.1 = k)) = 0 := by
        rw [List.countP_eq_zero]
        intro a ha
        simp only [decide_eq_true_iff]
        intro hc
        exact hnd.1 (by rw [← hk] at hc; rw [← hc]; exact List.mem_map_of_mem Prod.fst ha)
      rw [hrest]
      simp [hk]
    · rw [if_neg hk]
      rw [ih hnd.2]
      simp [hk]

theorem keyOccurrences_of_wf (ht : HashTable α) (hwf : wf ht) (k : String) :
    keyOccurrences ht k = if (ht.get k).isSome then 1 else 0 := by
  obtain ⟨hlen, hpos, hbuckets⟩ := hwf
  unfold keyOccurrences
  have hidx : hashOf k ht.size < ht.size := Nat.mod_lt _ hpos
  have h1 := table_sum_single (fun kv => decide (kv.1 = k)) ht.table (hashOf k ht.size) ?_
  · rw [h1]
    rw [chain_countP_of_nodup _ k (hbuckets _ hidx).1]
    rfl
  · intro j hj hji
    rw [List.countP_eq_zero]
    intro kv hkv
    simp only [decide_eq_true_iff]
    intro hc
    apply hji
    rw [← (hbuckets j (by omega : j < ht.size)).2 kv hkv, hc]

end HashTable

/-- C10: on a well-formed table, two distinct colliding keys are independently
retrievable after both are inserted; `put` on a present key overwrites in
place, leaving exactly one entry for that key; and `remove` makes the removed
key unretrievable while every other key keeps its value. -/
theorem claim_C10 (α : Type) (ht : HashTable α) (hwf : HashTable.wf ht)
    (k1 k2 : String) (v1 v2 : α) (hne : k1 ≠ k2)
    (hcol : HashTable.hashOf k1 ht.size = HashTable.hashOf k2 ht.size) :
    ((ht.put k1 v1).put k2 v2).get k1 = some v1 ∧
      ((ht.put k1 v1).put k2 v2).get k2 = some v2 ∧
      (∀ (k : String) (v : α), ht.contains k = true →
        (ht.put k v).get k = some v ∧ HashTable.keyOccurrences (ht.put k v) k = 1) ∧
      (∀ k : String, (ht.remove k).2.get k = none ∧
        ∀ k3, k3 ≠ k → (ht.remove k).2.get k3 = ht.get k3) := by
  have hlen := hwf.1
  have hpos := hwf.2.1
  obtain ⟨hlen1, hpos1, -⟩ := HashTable.wf_put ht k1 v1 hwf
  refine ⟨?_, ?_, ?_, ?_⟩
  · rw [HashTable.get_put_ne (ht.put k1 v1) k2 k1 v2 hlen1 hpos1 hne]
    exact HashTable.get_put_self ht k1 v1 hlen hpos
  · exact HashTable.get_put_self (ht.put k1 v1) k2 v2 hlen1 hpos1
  · intro k v hk
    have hwfp := HashTable.wf_put ht k v hwf
    have hget : (ht.put k v).get k = some v := HashTable.get_put_self ht k v hlen hpos
    refine ⟨hget, ?_⟩
    rw [HashTable.keyOccurrences_of_wf _ hwfp k, hget]
    rfl
  · intro k
    exact ⟨HashTable.get_remove_self ht k hwf,
      fun k3 hk3 => HashTable.get_remove_ne ht k k3 hlen hpos hk3⟩

/-- Witness for C10: the empty 101-bucket table with the genuinely colliding
keys "ab" and "[" (both hash to 91 mod 101). -/
theorem claim_C10_witness :
    HashTable.wf (HashTable.mkEmpty Nat 101) ∧ "ab" ≠ "[" ∧
      HashTable.hashOf "ab" (HashTable.mkEmpty Nat 101).size
        = HashTable.hashOf "[" (HashTable.mkEmpty Nat 101).size ∧
      ((((HashTable.mkEmpty Nat 101).put "ab" 1).put "[" 2).get "ab" = some 1 ∧
        (((HashTable.mkEmpty Nat 101).put "ab" 1).put "[" 2).get "[" = some 2 ∧
        (∀ (k : String) (v : Nat), (HashTable.mkEmpty Nat 101).contains k = true →
          ((HashTable.mkEmpty Nat 101).put k v).get k = some v ∧
            HashTable.keyOccurrences ((HashTable.mkEmpty Nat 101).put k v) k = 1) ∧
        (∀ k : String, ((HashTable.mkEmpty Nat 101).remove k).2.get k = none ∧
          ∀ k3, k3 ≠ k → ((HashTable.mkEmpty Nat 101).remove k).2.get k3
            = (HashTable.mkEmpty Nat 101).get k3)) :=
  ⟨HashTable.wf_mkEmptyTable Nat 101 (by decide), by decide, by decide,
    claim_C10 Nat (HashTable.mkEmpty Nat 101)
      (HashTable.wf_mkEmptyTable Nat 101 (by decide)) "ab" "[" 1 2 (by decide) (by decide)⟩


/-! ### Association-list lemmas -/

theorem dictGet_dictSet_self (l : List (String × β)) (k : String) (v : β) :
    dictGet (dictSet l k v) k = some v := by
  induction l with
  | nil => simp [dictGet, dictSet]
  | cons kv t ih =>
    obtain ⟨k2, v2⟩ := kv
    by_cases h : k2 = k
    · simp [dictSet, dictGet, h]
    · simp [dictSet, dictGet, h, ih]

theorem dictGet_dictSet_ne (l : List (String × β)) (k k2 : String) (v : β)
    (h : k2 ≠ k) : dictGet (dictSet l k v) k2 = dictGet l k2 := by
  induction l with
  | nil => simp [dictGet, dictSet, Ne.symm h]
  | cons kv t ih =>
    obtain ⟨k3, v3⟩ := kv
    by_cases hk : k3 = k
    · subst hk
      simp [dictSet, dictGet, Ne.symm h]
    · simp [dictSet, dictGet, hk, ih]

theorem dictGet_of_mem_nodup (l : List (String × β)) (kv : String × β)
    (hmem : kv ∈ l) (hnd : (l.map Prod.fst).Nodup) : dictGet l kv.1 = some kv.2 := by
  induction l with
  | nil => cases hmem
  | cons hd t ih =>
    simp only [List.map_cons, List.nodup_cons] at hnd
    obtain ⟨h1, h2⟩ := hnd
    rcases List.mem_cons.mp hmem with h | h
    · rw [h]
      obtain ⟨k2, v2⟩ := hd
      simp [dictGet]
    · have hne : hd.1 ≠ kv.1 := by
        intro he
        rw [he] at h1
        exact h1 (List.mem_map_of_mem _ h)
      obtain ⟨k2, v2⟩ := hd
      rw [dictGet, if_neg hne]
      exact ih h h2

theorem mem_dictSet (l : List (String × β)) (k : String) (v : β) (kv : String × β)
    (h : kv ∈ dictSet l k v) : kv = (k, v) ∨ kv ∈ l := by
  induction l with
  | nil =>
    rw [dictSet] at h
    left
    exact List.mem_singleton.mp h
  | cons hd t ih =>
    obtain ⟨k2, v2⟩ := hd
    by_cases hk : k2 = k
    · rw [dictSet, if_pos hk] at h
      rcases List.mem_cons.mp h with h | h
      · left; exact h
      · right; exact List.mem_cons_of_mem _ h
    · rw [dictSet, if_neg hk] at h
      rcases List.mem_cons.mp h with h | h
      · right; rw [h]; exact List.mem_cons_self _ _
      · rcases ih h with h | h
        · left; exact h
        · right; exact List.mem_cons_of_mem _ h

theorem mem_keys_dictSet (l : List (String × β)) (k : String) (v : β) (x : String)
    (h : x ∈ (dictSet l k v).map Prod.fst) : x = k ∨ x ∈ l.map Prod.fst := by
  obtain ⟨kv, hkv, hx⟩ := List.mem_map.mp h
  rcases mem_dictSet l k v kv hkv with h1 | h1
  · left; rw [← hx, h1]
  · right; rw [← hx]; exact List.mem_map_of_mem _ h1

theorem nodup_keys_dictSet (l : List (String × β)) (k : String) (v : β)
    (hnd : (l.map Prod.fst).Nodup) : ((dictSet l k v).map Prod.fst).Nodup := by
  induction l with
  | nil => simp [dictSet]
  | cons hd t ih =>
    obtain ⟨k2, v2⟩ := hd
    simp only [List.map_cons, List.nodup_cons] at hnd
    obtain ⟨h1, h2⟩ := hnd
    by_cases hk : k2 = k
    · subst hk
      rw [dictSet, if_pos rfl]
      simp only [List.map_cons, List.nodup_cons]
      exact ⟨h1, h2⟩
    · rw [dictSet, if_neg hk]
      simp only [List.map_cons, List.nodup_cons]
      refine ⟨?_, ih h2⟩
      intro hmem
      rcases mem_keys_dictSet t k v k2 hmem with h | h
      · exact hk h
      · exact h1 h

/-- `put` does not change the number of buckets. -/
theorem table_length_put (ht : HashTable β) (k : String) (v : β) :
    (ht.put k v).table.length = ht.table.length := by
  cases hu : HashTable.updateChain (ht.table.getD (HashTable.hashOf k ht.size) []) k v with
  | some c =>
    rw [HashTable.put_eq_update ht k v c hu]
    exact List.length_set ..
  | none =>
    rw [HashTable.put_eq_insert ht k v hu]
    exact List.length_set ..

/-- C1: every case returned by `create_case` carries `days_until_hearing`
equal to the floor-of-days difference `d` (possibly negative when the hearing
is overdue), urgency level `urgent` when `d ≤ 7`, `high` when `7 < d ≤ 14`
and `normal` when `d > 14`, `priority_score = max 0 d`, status `created`, no
assigned lawyer, and an initial `hearing` event among its events. -/
theorem claim_C1 (m : CaseManager) (caseId evtId : String) (now : Timestamp)
    (client_id case_type description hearing_date : String) (hearingSec : Int)
    (d : Int) (hd : d = (hearingSec - now.sec).fdiv 86400) :
    (m.create_case caseId evtId now client_id case_type description
        hearing_date hearingSec).1.days_until_hearing = d ∧
      (d ≤ 7 → (m.create_case caseId evtId now client_id case_type description
          hearing_date hearingSec).1.urgency_level = "urgent") ∧
      (7 < d ∧ d ≤ 14 → (m.create_case caseId evtId now client_id case_type
          description hearing_date hearingSec).1.urgency_level = "high") ∧
      (14 < d → (m.create_case caseId evtId now client_id case_type description
          hearing_date hearingSec).1.urgency_level = "normal") ∧
      (m.create_case caseId evtId now client_id case_type description
          hearing_date hearingSec).1.priority_score = max 0 d ∧
      (m.create_case caseId evtId now client_id case_type description
          hearing_date hearingSec).1.status = "created" ∧
      (m.create_case caseId evtId now client_id case_type description
          hearing_date hearingSec).1.lawyer_id = none ∧
      ∃ e ∈ (m.create_case caseId evtId now client_id case_type description
          hearing_date hearingSec).1.events, e.event_type = "hearing" := by
  have hc : (m.create_case caseId evtId now client_id case_type description
      hearing_date hearingSec).1
      = ⟨caseId, client_id, none, case_type, description, hearing_date,
         (if d ≤ 7 then "urgent" else if d ≤ 14 then "high" else "normal"),
         d, max 0 d, "created", now.iso, now.iso, [],
         [⟨evtId, "hearing", hearing_date, "Court hearing", "system", now.iso⟩]⟩ := by
    subst hd
    rfl
  rw [hc]
  refine ⟨rfl, ?_, ?_, ?_, rfl, rfl, rfl, ⟨_, List.mem_singleton_self _, rfl⟩⟩
  · intro h
    show (if d ≤ 7 then "urgent" else if d ≤ 14 then "high" else "normal") = "urgent"
    rw [if_pos h]
  · rintro ⟨h1, h2⟩
    show (if d ≤ 7 then "urgent" else if d ≤ 14 then "high" else "normal") = "high"
    rw [if_neg (by omega), if_pos h2]
  · intro h
    show (if d ≤ 7 then "urgent" else if d ≤ 14 then "high" else "normal") = "normal"
    rw [if_neg (by omega), if_neg (by omega)]

/-- Witness for C1: a hearing five days after `now` gives an `urgent` case
with score 5. -/
theorem claim_C1_witness :
    ((5 : Int) = ((432000 : Int) - (⟨0, "t0"⟩ : Timestamp).sec).fdiv 86400) ∧
      ((CaseManager.mkEmpty.create_case "C-W1" "E-W1" ⟨0, "t0"⟩ "CL" "family"
          "d" "hd" 432000).1.days_until_hearing = 5 ∧
        ((5 : Int) ≤ 7 → (CaseManager.mkEmpty.create_case "C-W1" "E-W1"
            ⟨0, "t0"⟩ "CL" "family" "d" "hd" 432000).1.urgency_level = "urgent") ∧
        ((7 : Int) < 5 ∧ (5 : Int) ≤ 14 → (CaseManager.mkEmpty.create_case "C-W1"
            "E-W1" ⟨0, "t0"⟩ "CL" "family" "d" "hd" 432000).1.urgency_level = "high") ∧
        ((14 : Int) < 5 → (CaseManager.mkEmpty.create_case "C-W1" "E-W1"
            ⟨0, "t0"⟩ "CL" "family" "d" "hd" 432000).1.urgency_level = "normal") ∧
        (CaseManager.mkEmpty.create_case "C-W1" "E-W1" ⟨0, "t0"⟩ "CL" "family"
            "d" "hd" 432000).1.priority_score = max 0 5 ∧
        (CaseManager.mkEmpty.create_case "C-W1" "E-W1" ⟨0, "t0"⟩ "CL" "family"
            "d" "hd" 432000).1.status = "created" ∧
        (CaseManager.mkEmpty.create_case "C-W1" "E-W1" ⟨0, "t0"⟩ "CL" "family"
            "d" "hd" 432000).1.lawyer_id = none ∧
        ∃ e ∈ (CaseManager.mkEmpty.create_case "C-W1" "E-W1" ⟨0, "t0"⟩ "CL"
            "family" "d" "hd" 432000).1.events, e.event_type = "hearing") :=
  ⟨by decide, claim_C1 CaseManager.mkEmpty "C-W1" "E-W1" ⟨0, "t0"⟩ "CL" "family"
      "d" "hd" 432000 5 (by decide)⟩

/-- C5: `get_lawyer_case_count` never returns a count: for every manager and
every lawyer it raises `AttributeError`, because the code enumerates
`self.case_store.cases.values()` and the custom `HashTable` bound to
`CaseStore.cases` has no `values` attribute. -/
theorem claim_C5 (m : CaseManager) (lawyer_id : String) :
    m.get_lawyer_case_count lawyer_id
        = Except.error "AttributeError: 'HashTable' object has no attribute 'values'" ∧
      ∀ n : Nat, m.get_lawyer_case_count lawyer_id ≠ Except.ok n :=
  ⟨rfl, fun _ h => Except.noConfusion h⟩

/-- C7: when a lawyer's recorded case count has reached
`MAX_CASES_PER_LAWYER` (2), `claim_case` fails with the capacity message and
returns the whole pool state unchanged (both pools, every assignment record
and every lawyer count are those of the input state). -/
theorem claim_C7 (p : AvailableCasesPool) (case_id lawyer_id now : String)
    (h : AvailableCasesPool.MAX_CASES_PER_LAWYER
        ≤ (dictGet p.lawyer_case_counts lawyer_id).getD 0) :
    p.claim_case case_id lawyer_id now
      = ((false, "Maximum case load reached (2 cases)"), p) := by
  have hcc : AvailableCasesPool.can_lawyer_claim p lawyer_id
      = (false, "Maximum case load reached (2 cases)") := by
    unfold AvailableCasesPool.can_lawyer_claim
    rw [if_pos h]
    decide
  unfold AvailableCasesPool.claim_case
  dsimp only
  rw [hcc]
  simp

/-- Witness for C7: a lawyer already holding two cases. -/
theorem claim_C7_witness :
    (AvailableCasesPool.MAX_CASES_PER_LAWYER
        ≤ (dictGet ({ AvailableCasesPool.mkEmpty with
            lawyer_case_counts := [("L-1", 2)] }).lawyer_case_counts "L-1").getD 0) ∧
      AvailableCasesPool.claim_case
          { AvailableCasesPool.mkEmpty with lawyer_case_counts := [("L-1", 2)] }
          "C-7" "L-1" "t"
        = ((false, "Maximum case load reached (2 cases)"),
            { AvailableCasesPool.mkEmpty with lawyer_case_counts := [("L-1", 2)] }) :=
  ⟨by decide, claim_C7 _ "C-7" "L-1" "t" (by decide)⟩

/-- C9: from a fresh queue of any capacity, every sequence of
`enqueue`/`dequeue` operations produces exactly the outputs of the ideal
capacity-bounded FIFO: dequeues yield the enqueued elements in order with
nothing lost or duplicated (also across circular wraparound), `enqueue`
reports failure exactly when `cap` elements are held, `dequeue` reports the
empty signal on an empty queue, and afterwards `get_all` (a pure function of
the state, hence non-mutating) reads exactly the residual FIFO contents
front-to-rear. -/
theorem claim_C9 (α : Type) (cap : Nat) (ops : List (QOp α)) :
    (runQueue (Queue.mkEmpty α cap) ops).2 = (runFifo cap [] ops).2 ∧
      Queue.get_all (runQueue (Queue.mkEmpty α cap) ops).1
        = ((runFifo cap [] ops).1).map some := by
  obtain ⟨h1, -, h3, -⟩ := run_queue_sim ops (Queue.mkEmpty α cap) []
    (Queue.inv_mkEmpty α cap) (by rw [Queue.get_all_mkEmpty]; rfl)
  exact ⟨h1, h3⟩


/-! ### Equation lemmas for `update_case_status` / `undo_last_update` -/

theorem update_success_eq (m : CaseManager) (case_id new_status updated_by notes : String)
    (now : Timestamp) (case_ : Case) (stack : Stack Snapshot)
    (hget : m.case_store.get case_id = some case_)
    (hstk : dictGet m.case_history_stack case_id = some stack)
    (hvalid : new_status ∈ VALID_STATE_TRANSITIONS case_.status) :
    m.update_case_status case_id new_status updated_by notes now
      = some ((true, "Update successful"),
          ⟨m.case_store.put case_id
              { case_ with
                status := new_status,
                updates := case_.updates
                  ++ [⟨now.iso, updated_by, case_.status, new_status, notes⟩],
                updated_at := now.iso },
            dictSet m.case_history_stack case_id
              (stack.push ⟨case_.status, case_.updates, case_.updated_at⟩).2⟩) := by
  simp only [CaseManager.update_case_status, hget]
  rw [if_pos hvalid]
  simp only [hstk]

theorem update_invalid_eq (m : CaseManager) (case_id new_status updated_by notes : String)
    (now : Timestamp) (case_ : Case)
    (hget : m.case_store.get case_id = some case_)
    (hinvalid : new_status ∉ VALID_STATE_TRANSITIONS case_.status) :
    m.update_case_status case_id new_status updated_by notes now
      = some ((false,
          "Invalid transition from " ++ case_.status ++ " to " ++ new_status), m) := by
  simp only [CaseManager.update_case_status, hget]
  rw [if_neg hinvalid]

theorem undo_success_eq (m : CaseManager) (case_id : String) (cap : Nat)
    (snap : Snapshot) (rest : List Snapshot) (case_ : Case)
    (hstk : dictGet m.case_history_stack case_id = some ⟨cap, snap :: rest⟩)
    (hget : m.case_store.get case_id = some case_) :
    m.undo_last_update case_id
      = ((true, "Successfully undone"),
         ⟨m.case_store.put case_id
            { case_ with
              status := snap.status,
              updates := snap.updates,
              updated_at := snap.updated_at },
          dictSet m.case_history_stack case_id ⟨cap, rest⟩⟩) := by
  simp only [CaseManager.undo_last_update, hstk, hget]

theorem undo_empty_eq (m : CaseManager) (case_id : String) (cap : Nat)
    (hstk : dictGet m.case_history_stack case_id = some ⟨cap, []⟩) :
    m.undo_last_update case_id = ((false, "No previous state to restore"), m) := by
  simp only [CaseManager.undo_last_update, hstk]

/-- C2 (amended): for an existing case whose undo stack is NOT full,
`update_case_status` succeeds iff the fixed transition table allows
`current → new` (in particular, every call on a `closed` case fails); on an
invalid transition it fails with a message naming the transition and returns
the manager unchanged; on success the pre-update
`{status, updates, updated_at}` snapshot is pushed onto the case's undo stack
and an audit entry recording old and new status is appended to the case.
Without the not-full proviso the push clause is false, see
`claim_C2_counterexample`. -/
theorem claim_C2 (m : CaseManager) (case_id new_status updated_by notes : String)
    (now : Timestamp) (case_ : Case) (stack : Stack Snapshot)
    (hlen : m.case_store.table.length = m.case_store.size)
    (hpos : 0 < m.case_store.size)
    (hget : m.case_store.get case_id = some case_)
    (hstk : dictGet m.case_history_stack case_id = some stack)
    (hroom : stack.items.length < stack.capacity) :
    (new_status ∈ VALID_STATE_TRANSITIONS case_.status →
      ∃ m2, m.update_case_status case_id new_status updated_by notes now
          = some ((true, "Update successful"), m2) ∧
        m2.case_store.get case_id = some
          { case_ with
            status := new_status,
            updates := case_.updates
              ++ [⟨now.iso, updated_by, case_.status, new_status, notes⟩],
            updated_at := now.iso } ∧
        dictGet m2.case_history_stack case_id
          = some ⟨stack.capacity,
              ⟨case_.status, case_.updates, case_.updated_at⟩ :: stack.items⟩) ∧
    (new_status ∉ VALID_STATE_TRANSITIONS case_.status →
      m.update_case_status case_id new_status updated_by notes now
        = some ((false,
            "Invalid transition from " ++ case_.status ++ " to " ++ new_status), m)) ∧
    (case_.status = "closed" →
      m.update_case_status case_id new_status updated_by notes now
        = some ((false,
            "Invalid transition from " ++ case_.status ++ " to " ++ new_status), m)) := by
  have hpush : (stack.push ⟨case_.status, case_.updates, case_.updated_at⟩).2
      = ⟨stack.capacity, ⟨case_.status, case_.updates, case_.updated_at⟩ :: stack.items⟩ := by
    rw [Stack.push, if_neg (by omega)]
  refine ⟨?_, ?_, ?_⟩
  · intro hvalid
    refine ⟨_, update_success_eq m case_id new_status updated_by notes now case_ stack
        hget hstk hvalid, ?_, ?_⟩
    · exact HashTable.get_put_self m.case_store case_id _ hlen hpos
    · show dictGet (dictSet m.case_history_stack case_id
          (stack.push ⟨case_.status, case_.updates, case_.updated_at⟩).2) case_id = _
      rw [hpush]
      exact dictGet_dictSet_self _ _ _
  · intro hinvalid
    exact update_invalid_eq m case_id new_status updated_by notes now case_ hget hinvalid
  · intro hclosed
    have hempty : VALID_STATE_TRANSITIONS case_.status = [] := by
      rw [hclosed]
      decide
    exact update_invalid_eq m case_id new_status updated_by notes now case_ hget
      (by rw [hempty]; exact List.not_mem_nil _)

/-- Witness for C2: the manager obtained by creating case `C-1` from scratch
(fresh empty undo stack), updated `created → active`. -/
theorem claim_C2_witness :
    (∀ hv : "active" ∈ VALID_STATE_TRANSITIONS c2Case.status,
      ∃ m2, c2Fresh.update_case_status "C-1" "active" "U-1" "n" ⟨86400, "t1"⟩
          = some ((true, "Update successful"), m2) ∧
        m2.case_store.get "C-1" = some
          { c2Case with
            status := "active",
            updates := c2Case.updates
              ++ [⟨("t1" : String), "U-1", c2Case.status, "active", "n"⟩],
            updated_at := "t1" } ∧
        dictGet m2.case_history_stack "C-1"
          = some ⟨(Stack.mkEmpty Snapshot).capacity,
              ⟨c2Case.status, c2Case.updates, c2Case.updated_at⟩
                :: (Stack.mkEmpty Snapshot).items⟩) ∧
    ("active" ∉ VALID_STATE_TRANSITIONS c2Case.status →
      c2Fresh.update_case_status "C-1" "active" "U-1" "n" ⟨86400, "t1"⟩
        = some ((false,
            "Invalid transition from " ++ c2Case.status ++ " to " ++ "active"),
          c2Fresh)) ∧
    (c2Case.status = "closed" →
      c2Fresh.update_case_status "C-1" "active" "U-1" "n" ⟨86400, "t1"⟩
        = some ((false,
            "Invalid transition from " ++ c2Case.status ++ " to " ++ "active"),
          c2Fresh)) := by
  have h := claim_C2 c2Fresh "C-1" "active" "U-1" "n" ⟨86400, "t1"⟩ c2Case
    (Stack.mkEmpty Snapshot) rfl (by decide) rfl rfl (by decide)
  exact ⟨fun _ => h.1 (by decide), h.2.1, h.2.2⟩

set_option maxRecDepth 100000 in
/-- C2 counterexample (refuting the unamended claim): `c2Manager` holds a
`created` case whose undo stack is full — a state reachable by 1000
successful updates (for instance a `created ↔ in_review` loop).  A further
valid `created → active` update reports success, yet the undo stack
afterwards is the unchanged `fullStack`: the pre-update snapshot was NOT
pushed (`Stack.push` reports overflow and the result is ignored), and the
stack's top is the filler snapshot, not the pre-update state. -/
theorem claim_C2_counterexample :
    (c2Manager.update_case_status "C-1" "active" "U-1" "n" ⟨86400, "t1"⟩).map
        (fun r => (r.1.1, dictGet r.2.case_history_stack "C-1"))
      = some (true, some fullStack) ∧
      fillerSnap ≠ (⟨c2Case.status, c2Case.updates, c2Case.updated_at⟩ : Snapshot) :=
  ⟨rfl, by decide⟩

/-- C3 (amended): for an existing case whose undo stack is not full, one
successful `update_case_status` followed by one `undo_last_update` restores
`status`, `updates` and `updated_at` exactly to their pre-update values, and
the undo stack returns to exactly its pre-update contents (each undo pops one
snapshot, so repeated undos walk back through successively earlier
snapshots); `undo_last_update` on a case whose undo stack is empty fails
explicitly and changes nothing.  Without the not-full proviso the round trip
is false, see `claim_C3_counterexample`. -/
theorem claim_C3 (m : CaseManager) (case_id new_status updated_by notes : String)
    (now : Timestamp) (case_ : Case) (stack : Stack Snapshot)
    (hlen : m.case_store.table.length = m.case_store.size)
    (hpos : 0 < m.case_store.size)
    (hget : m.case_store.get case_id = some case_)
    (hstk : dictGet m.case_history_stack case_id = some stack)
    (hroom : stack.items.length < stack.capacity)
    (hvalid : new_status ∈ VALID_STATE_TRANSITIONS case_.status) :
    (∃ m1 m2 c2, m.update_case_status case_id new_status updated_by notes now
          = some ((true, "Update successful"), m1) ∧
        m1.undo_last_update case_id = ((true, "Successfully undone"), m2) ∧
        m2.case_store.get case_id = some c2 ∧
        c2.status = case_.status ∧ c2.updates = case_.updates ∧
        c2.updated_at = case_.updated_at ∧
        dictGet m2.case_history_stack case_id = some stack) ∧
    (∀ (m0 : CaseManager) (cid : String) (st : Stack Snapshot),
        dictGet m0.case_history_stack cid = some st → st.items = [] →
        m0.undo_last_update cid = ((false, "No previous state to restore"), m0)) := by
  have hpush : (stack.push ⟨case_.status, case_.updates, case_.updated_at⟩).2
      = ⟨stack.capacity, ⟨case_.status, case_.updates, case_.updated_at⟩ :: stack.items⟩ := by
    rw [Stack.push, if_neg (by omega)]
  have hupd := update_success_eq m case_id new_status updated_by notes now case_ stack
    hget hstk hvalid
  have hstk1 : dictGet (dictSet m.case_history_stack case_id
      (stack.push ⟨case_.status, case_.updates, case_.updated_at⟩).2) case_id
      = some ⟨stack.capacity,
          ⟨case_.status, case_.updates, case_.updated_at⟩ :: stack.items⟩ := by
    rw [hpush]
    exact dictGet_dictSet_self _ _ _
  have hget1 : (m.case_store.put case_id
      { case_ with
        status := new_status,
        updates := case_.updates
          ++ [⟨now.iso, updated_by, case_.status, new_status, notes⟩],
        updated_at := now.iso }).get case_id
      = some { case_ with
          status := new_status,
          updates := case_.updates
            ++ [⟨now.iso, updated_by, case_.status, new_status, notes⟩],
          updated_at := now.iso } :=
    HashTable.get_put_self m.case_store case_id _ hlen hpos
  have hundo := undo_success_eq
    ⟨m.case_store.put case_id
        { case_ with
          status := new_status,
          updates := case_.updates
            ++ [⟨now.iso, updated_by, case_.status, new_status, notes⟩],
          updated_at := now.iso },
      dictSet m.case_history_stack case_id
        (stack.push ⟨case_.status, case_.updates, case_.updated_at⟩).2⟩
    case_id stack.capacity ⟨case_.status, case_.updates, case_.updated_at⟩
    stack.items
    { case_ with
      status := new_status,
      updates := case_.updates
        ++ [⟨now.iso, updated_by, case_.status, new_status, notes⟩],
      updated_at := now.iso }
    hstk1 hget1
  refine ⟨⟨_, _, _, hupd, hundo, ?_, rfl, rfl, rfl, ?_⟩, ?_⟩
  · refine HashTable.get_put_self _ case_id _ ?_ ?_
    · rw [table_length_put, HashTable.size_put]
      exact hlen
    · rw [HashTable.size_put]
      exact hpos
  · show dictGet (dictSet (dictSet m.case_history_stack case_id
        (stack.push ⟨case_.status, case_.updates, case_.updated_at⟩).2) case_id
        ⟨stack.capacity, stack.items⟩) case_id = some stack
    rw [dictGet_dictSet_self]
  · intro m0 cid st hs he
    obtain ⟨cp, items⟩ := st
    have he2 : items = [] := he
    subst he2
    exact undo_empty_eq m0 cid cp hs

/-- Witness for C3: create case `C-1` from scratch, update `created → active`,
undo. -/
theorem claim_C3_witness :
    (∃ m1 m2 c2, c2Fresh.update_case_status "C-1" "active" "U-1" "n" ⟨86400, "t1"⟩
          = some ((true, "Update successful"), m1) ∧
        m1.undo_last_update "C-1" = ((true, "Successfully undone"), m2) ∧
        m2.case_store.get "C-1" = some c2 ∧
        c2.status = c2Case.status ∧ c2.updates = c2Case.updates ∧
        c2.updated_at = c2Case.updated_at ∧
        dictGet m2.case_history_stack "C-1" = some (Stack.mkEmpty Snapshot)) ∧
    (∀ (m0 : CaseManager) (cid : String) (st : Stack Snapshot),
        dictGet m0.case_history_stack cid = some st → st.items = [] →
        m0.undo_last_update cid = ((false, "No previous state to restore"), m0)) :=
  claim_C3 c2Fresh "C-1" "active" "U-1" "n" ⟨86400, "t1"⟩ c2Case
    (Stack.mkEmpty Snapshot) rfl (by decide) rfl rfl (by decide) (by decide)

set_option maxRecDepth 100000 in
/-- C3 counterexample (refuting the unamended claim): `c3Manager` holds a
`created` case whose full undo stack (reachable by 1000 successful updates)
is topped by an older `in_review` snapshot.  A valid `created → active`
update succeeds but its snapshot push is dropped; the following undo then
reports success and restores that older snapshot: the status comes back
`in_review`, not the pre-update `created`. -/
theorem claim_C3_counterexample :
    ((c3Manager.update_case_status "C-1" "active" "U-1" "n" ⟨86400, "t1"⟩).map
        (fun r => (r.1.1, (r.2.undo_last_update "C-1").1.1,
          ((r.2.undo_last_update "C-1").2.case_store.get "C-1").map Case.status)))
      = some (true, true, some "in_review") ∧
      c2Case.status = "created" :=
  ⟨rfl, rfl⟩

/-- C4: `create_case_with_assignment` never returns any of the three claimed
outcomes.  The case IS created and stored, but the code then evaluates
`self.get_lawyer_case_count(selected_lawyer_id)`, which raises
`AttributeError` (see `claim_C5`), so every call fails after mutating the
store; moreover `find_available_lawyer` can never return a lawyer (it raises
the same `AttributeError` as soon as any lawyer matches the speciality), so
the `auto_assigned` outcome is unreachable even in isolation. -/
theorem claim_C4 (m : CaseManager) (caseId evtId : String) (now : Timestamp)
    (client_id case_type description hearing_date : String) (hearingSec : Int)
    (selected_lawyer_id speciality : String) (users : List CaseManager.UserData)
    (hlen : m.case_store.table.length = m.case_store.size)
    (hpos : 0 < m.case_store.size) :
    (m.create_case_with_assignment caseId evtId now client_id case_type
        description hearing_date hearingSec selected_lawyer_id speciality users).1
      = Except.error "AttributeError: 'HashTable' object has no attribute 'values'" ∧
    (m.create_case_with_assignment caseId evtId now client_id case_type
        description hearing_date hearingSec selected_lawyer_id speciality
        users).2.case_store.get caseId
      = some (m.create_case caseId evtId now client_id case_type description
          hearing_date hearingSec).1 ∧
    (∀ lid, m.find_available_lawyer speciality users ≠ Except.ok (some lid)) := by
  refine ⟨rfl, ?_, ?_⟩
  · exact HashTable.get_put_self m.case_store caseId _ hlen hpos
  · intro lid
    unfold CaseManager.find_available_lawyer
    by_cases hc : (users.filter (fun u => u.role = "lawyer")).any
        (fun u => speciality ∈ u.speciality)
    · rw [if_pos hc]
      exact fun h => Except.noConfusion h
    · rw [if_neg hc]
      intro h
      injection h with h
      exact Option.noConfusion h

/-- Witness for C4 at the empty manager. -/
theorem claim_C4_witness :
    ((CaseManager.mkEmpty.create_case_with_assignment "C-4" "E-4" ⟨0, "t0"⟩ "CL"
          "family" "d" "hd" 0 "L-1" "family" []).1
        = Except.error "AttributeError: 'HashTable' object has no attribute 'values'" ∧
      (CaseManager.mkEmpty.create_case_with_assignment "C-4" "E-4" ⟨0, "t0"⟩ "CL"
          "family" "d" "hd" 0 "L-1" "family" []).2.case_store.get "C-4"
        = some (CaseManager.mkEmpty.create_case "C-4" "E-4" ⟨0, "t0"⟩ "CL"
            "family" "d" "hd" 0).1 ∧
      (∀ lid, CaseManager.mkEmpty.find_available_lawyer "family" []
          ≠ Except.ok (some lid))) :=
  claim_C4 CaseManager.mkEmpty "C-4" "E-4" ⟨0, "t0"⟩ "CL" "family" "d" "hd" 0
    "L-1" "family" [] rfl (by decide)


/-! ### Queue contents helpers (towards the pool invariant) -/

theorem queueItems_mkEmpty (α : Type) (cap : Nat) :
    queueItems (Queue.mkEmpty α cap) = [] := by
  rw [queueItems, Queue.get_all_mkEmpty]
  rfl

theorem qgood_mkEmpty (α : Type) (cap : Nat) : QGood (Queue.mkEmpty α cap) := by
  refine ⟨Queue.inv_mkEmpty α cap, ?_⟩
  rw [Queue.get_all_mkEmpty, queueItems, Queue.get_all_mkEmpty]
  rfl

theorem qgood_enqueue (q : Queue α) (x : α) (h : QGood q)
    (hroom : q.count < q.capacity) :
    QGood (q.enqueue x).2 ∧ queueItems (q.enqueue x).2 = queueItems q ++ [x] ∧
      (q.enqueue x).2.capacity = q.capacity ∧ (q.enqueue x).2.count = q.count + 1 := by
  obtain ⟨hinv, habs⟩ := h
  obtain ⟨-, h2, h3, h4, h5⟩ := Queue.enqueue_ok q x hinv hroom
  have hitems : queueItems (q.enqueue x).2 = queueItems q ++ [x] := by
    rw [queueItems, h3, habs, queueItems]
    simp
  refine ⟨⟨h2, ?_⟩, hitems, h5, h4⟩
  rw [h3, habs, hitems]
  simp

theorem count_eq_items_length (q : Queue α) (h : QGood q) :
    q.count = (queueItems q).length := by
  have h1 := Queue.length_get_all q h.1
  rw [h.2] at h1
  simpa using h1.symm

theorem foldl_enqueue_spec (l : List α) : ∀ (q : Queue α), QGood q →
    q.count + l.length ≤ q.capacity →
    QGood (l.foldl (fun qq c => (qq.enqueue c).2) q) ∧
      queueItems (l.foldl (fun qq c => (qq.enqueue c).2) q) = queueItems q ++ l ∧
      (l.foldl (fun qq c => (qq.enqueue c).2) q).capacity = q.capacity ∧
      (l.foldl (fun qq c => (qq.enqueue c).2) q).count = q.count + l.length := by
  induction l with
  | nil =>
    intro q h _
    exact ⟨h, by simp, rfl, rfl⟩
  | cons x t ih =>
    intro q h hlen
    simp only [List.length_cons] at hlen
    have hroom : q.count < q.capacity := by omega
    obtain ⟨hg1, hi1, hc1, hn1⟩ := qgood_enqueue q x h hroom
    obtain ⟨g1, g2, g3, g4⟩ := ih (q.enqueue x).2 hg1 (by rw [hn1, hc1]; omega)
    refine ⟨g1, ?_, by rw [List.foldl_cons, g3, hc1],
      by rw [List.foldl_cons, g4, hn1, List.length_cons]; omega⟩
    show queueItems (t.foldl (fun qq c => (qq.enqueue c).2) (q.enqueue x).2)
        = queueItems q ++ x :: t
    rw [g2, hi1]
    simp

theorem rebuildQueue_spec (l : List PoolCase) (hl : l.length ≤ Queue.DEFAULT_CAPACITY) :
    QGood (AvailableCasesPool.rebuildQueue l) ∧
      queueItems (AvailableCasesPool.rebuildQueue l) = l ∧
      (AvailableCasesPool.rebuildQueue l).capacity = Queue.DEFAULT_CAPACITY ∧
      (AvailableCasesPool.rebuildQueue l).count = l.length := by
  obtain ⟨g1, g2, g3, g4⟩ := foldl_enqueue_spec l (Queue.mkEmpty PoolCase)
    (qgood_mkEmpty _ _) (by simpa [Queue.mkEmpty] using hl)
  refine ⟨g1, ?_, by simpa [AvailableCasesPool.rebuildQueue] using g3,
    by simpa [AvailableCasesPool.rebuildQueue, Queue.mkEmpty] using g4⟩
  rw [AvailableCasesPool.rebuildQueue]
  rw [queueItems_mkEmpty] at g2
  simpa using g2

/-! ### Heap contents helpers -/

theorem entriesOf_map_item (pairs : List (α × Nat)) :
    ∀ c0, (entriesOf pairs c0).map PQEntry.item = pairs.map Prod.fst := by
  induction pairs with
  | nil => intro c0; rfl
  | cons pr rest ih =>
    intro c0
    simp only [entriesOf, List.map_cons, ih]

theorem enqueue_capacity [Inhabited α] (pq : PriorityQueue α) (x : α) (pr : Nat) :
    (pq.enqueue x pr).2.capacity = pq.capacity := by
  by_cases h : pq.heap.length ≥ pq.capacity
  · rw [PriorityQueue.enqueue_full pq x pr h]
  · rw [PriorityQueue.enqueue_room pq x pr (by omega)]

theorem rebuildUrgent_spec (l : List PoolCase)
    (hl : l.length ≤ PriorityQueue.DEFAULT_CAPACITY) :
    PriorityQueue.Wf (AvailableCasesPool.rebuildUrgent l) ∧
      ((AvailableCasesPool.rebuildUrgent l).heap.map PQEntry.item).Perm l ∧
      (AvailableCasesPool.rebuildUrgent l).capacity = PriorityQueue.DEFAULT_CAPACITY := by
  have heq : AvailableCasesPool.rebuildUrgent l
      = enqueueAll (PriorityQueue.mkEmpty PoolCase) (l.map (fun c => (c, 1))) := by
    rw [AvailableCasesPool.rebuildUrgent, enqueueAll, List.foldl_map]
  obtain ⟨g1, g2, g3⟩ := PriorityQueue.enqueueAll_spec (l.map (fun c => (c, 1)))
    (PriorityQueue.mkEmpty PoolCase) (PriorityQueue.wf_mkEmpty _)
    (by simpa [PriorityQueue.mkEmpty] using hl)
  rw [heq]
  refine ⟨g1, ?_, g3⟩
  have he2 : ((PriorityQueue.mkEmpty PoolCase).heap
      ++ entriesOf (l.map (fun c => (c, 1))) (PriorityQueue.mkEmpty PoolCase).entry_counter).map
        PQEntry.item = l := by
    rw [show (PriorityQueue.mkEmpty PoolCase).heap = [] from rfl, List.nil_append,
      entriesOf_map_item, List.map_map]
    exact List.map_id l
  have g2m := g2.map PQEntry.item
  rw [he2] at g2m
  exact g2m

theorem get_all_perm_heap [Inhabited α] [DecidableEq α] (pq : PriorityQueue α)
    (hwf : PriorityQueue.Wf pq) :
    (PriorityQueue.get_all pq).Perm (pq.heap.map PQEntry.item) := by
  rw [PriorityQueue.get_all_eq_drain pq hwf, PriorityQueue.drain]
  exact (PriorityQueue.popAll_perm pq.heap).map PQEntry.item

/-! ### Counting case ids -/

theorem idCount_append (l1 l2 : List PoolCase) (cid : String) :
    idCount (l1 ++ l2) cid = idCount l1 cid + idCount l2 cid := by
  simp [idCount, List.countP_append]

theorem idCount_perm {l1 l2 : List PoolCase} (h : l1.Perm l2) (cid : String) :
    idCount l1 cid = idCount l2 cid :=
  h.countP_eq _

theorem idCount_cons (c : PoolCase) (l : List PoolCase) (cid : String) :
    idCount (c :: l) cid = idCount l cid + (if c.case_id = cid then 1 else 0) := by
  rw [idCount, List.countP_cons, idCount]
  by_cases h : c.case_id = cid <;> simp [h]

theorem idCount_filter_self (l : List PoolCase) (cid : String) :
    idCount (l.filter (fun c => ¬ c.case_id = cid)) cid = 0 := by
  rw [idCount, List.countP_eq_zero]
  intro c hc
  rw [List.mem_filter] at hc
  simpa using hc.2

theorem idCount_filter_ne (l : List PoolCase) (cid cid2 : String) (h : cid2 ≠ cid) :
    idCount (l.filter (fun c => ¬ c.case_id = cid)) cid2 = idCount l cid2 := by
  induction l with
  | nil => rfl
  | cons c t ih =>
    by_cases hc : c.case_id = cid
    · rw [List.filter_cons, if_neg (by simp [hc]), ih, idCount_cons,
        if_neg (by rw [hc]; exact fun he => h he.symm)]
      omega
    · rw [List.filter_cons, if_pos (by simp [hc]), idCount_cons, idCount_cons, ih]

theorem idCount_pos_of_any (l : List PoolCase) (cid : String)
    (h : l.any (fun c => c.case_id = cid) = true) : 0 < idCount l cid := by
  rw [idCount, List.countP_pos]
  obtain ⟨c, hc, he⟩ := List.any_eq_true.mp h
  exact ⟨c, hc, he⟩

theorem idCount_eq_zero_of_not_any (l : List PoolCase) (cid : String)
    (h : l.any (fun c => c.case_id = cid) = false) : idCount l cid = 0 := by
  rw [idCount, List.countP_eq_zero]
  intro c hc
  have := List.any_eq_false.mp h c hc
  simpa using this

/-! ### Summing pending-queue counts -/

theorem sum_map_eq_zero (l : List γ) (g : γ → Nat)
    (h : ∀ kv ∈ l, g kv = 0) : (l.map g).sum = 0 := by
  induction l with
  | nil => rfl
  | cons a t ih =>
    simp [h a (List.mem_cons_self _ _), ih fun kv hk => h kv (List.mem_cons_of_mem _ hk)]

theorem sum_map_eq_single (l : List (String × β)) (g : String × β → Nat) (lid : String)
    (hnd : (l.map Prod.fst).Nodup) (h0 : ∀ kv ∈ l, kv.1 ≠ lid → g kv = 0) :
    (l.map g).sum = (match dictGet l lid with
      | some b => g (lid, b)
      | none => 0) := by
  induction l with
  | nil => rfl
  | cons hd t ih =>
    obtain ⟨k2, v2⟩ := hd
    simp only [List.map_cons, List.nodup_cons] at hnd
    obtain ⟨h1, h2⟩ := hnd
    by_cases hk : k2 = lid
    · subst hk
      rw [List.map_cons, List.sum_cons, dictGet, if_pos rfl]
      have ht : (t.map g).sum = 0 := by
        refine sum_map_eq_zero t g fun kv hk2 => ?_
        refine h0 kv (List.mem_cons_of_mem _ hk2) fun he => ?_
        exact h1 (he ▸ List.mem_map_of_mem Prod.fst hk2)
      rw [ht]
      simp
    · rw [List.map_cons, List.sum_cons, dictGet, if_neg hk,
        h0 (k2, v2) (List.mem_cons_self _ _) hk,
        ih h2 fun kv hm hne => h0 kv (List.mem_cons_of_mem _ hm) hne]
      simp

theorem occPending_eq_zero (p : AvailableCasesPool) (cid : String)
    (hnd : (p.pending_requests.map Prod.fst).Nodup)
    (h : ∀ lid, AvailableCasesPool.pendIdCount p lid cid = 0) :
    AvailableCasesPool.occPending p cid = 0 := by
  refine sum_map_eq_zero _ _ fun kv hkv => ?_
  have hget := dictGet_of_mem_nodup _ kv hkv hnd
  have h2 := h kv.1
  rw [AvailableCasesPool.pendIdCount, AvailableCasesPool.pendingQ, hget] at h2
  exact h2

theorem occPending_eq_single (p : AvailableCasesPool) (cid lid : String)
    (hnd : (p.pending_requests.map Prod.fst).Nodup)
    (h1 : AvailableCasesPool.pendIdCount p lid cid = 1)
    (h0 : ∀ lid2, lid2 ≠ lid → AvailableCasesPool.pendIdCount p lid2 cid = 0) :
    AvailableCasesPool.occPending p cid = 1 := by
  rw [AvailableCasesPool.occPending,
    sum_map_eq_single p.pending_requests _ lid hnd ?_]
  · cases hd : dictGet p.pending_requests lid with
    | none =>
      exfalso
      rw [AvailableCasesPool.pendIdCount, AvailableCasesPool.pendingQ, hd] at h1
      have hmk : (Option.getD (none : Option (Queue PoolCase)) (Queue.mkEmpty PoolCase))
          = Queue.mkEmpty PoolCase := rfl
      rw [hmk, queueItems_mkEmpty] at h1
      simp [idCount] at h1
    | some q =>
      have h2 := h1
      rw [AvailableCasesPool.pendIdCount, AvailableCasesPool.pendingQ, hd] at h2
      exact h2
  · intro kv hkv hne
    have hget := dictGet_of_mem_nodup _ kv hkv hnd
    have h2 := h0 kv.1 hne
    rw [AvailableCasesPool.pendIdCount, AvailableCasesPool.pendingQ, hget] at h2
    exact h2


/-! ### Equation lemmas for the pool operations -/

theorem add_direct_eq (p : AvailableCasesPool) (c : PoolCase) (lid : String)
    (h1 : c.assignment_type = some "direct") (h2 : c.requested_lawyer_id = some lid) :
    p.add_to_pool c
      = { p with
          pending_requests := dictSet p.pending_requests lid
            ((AvailableCasesPool.pendingQ p lid).enqueue c).2,
          case_assignments := dictSet p.case_assignments c.case_id
            ⟨"pending_direct", some lid, none, false, none, none, none⟩ } := by
  unfold AvailableCasesPool.add_to_pool
  rw [if_pos h1, h2]
  rfl

theorem add_general_eq (p : AvailableCasesPool) (c : PoolCase)
    (h : c.assignment_type ≠ some "direct" ∨ c.requested_lawyer_id = none) :
    p.add_to_pool c = AvailableCasesPool.addToGeneralPool p c := by
  unfold AvailableCasesPool.add_to_pool
  by_cases h1 : c.assignment_type = some "direct"
  · rcases h with h | h
    · exact absurd h1 h
    · rw [if_pos h1, h]
  · rw [if_neg h1]

theorem addGeneral_urgent_eq (p : AvailableCasesPool) (c : PoolCase)
    (hu : c.urgency = true) :
    AvailableCasesPool.addToGeneralPool p c
      = { p with
          urgent_pool := (p.urgent_pool.enqueue c 1).2,
          case_assignments := dictSet p.case_assignments c.case_id
            ⟨"available", none, none, true, none, none, none⟩ } := by
  unfold AvailableCasesPool.addToGeneralPool
  rw [hu, if_pos rfl]

theorem addGeneral_normal_eq (p : AvailableCasesPool) (c : PoolCase)
    (hu : c.urgency = false) :
    AvailableCasesPool.addToGeneralPool p c
      = { p with
          normal_pool := (p.normal_pool.enqueue c).2,
          case_assignments := dictSet p.case_assignments c.case_id
            ⟨"available", none, none, true, none, none, none⟩ } := by
  unfold AvailableCasesPool.addToGeneralPool
  rw [hu, if_neg (by simp)]

theorem claim_cap_eq (p : AvailableCasesPool) (cid lid now : String)
    (h : (AvailableCasesPool.can_lawyer_claim p lid).1 = false) :
    p.claim_case cid lid now
      = ((false, (AvailableCasesPool.can_lawyer_claim p lid).2), p) := by
  unfold AvailableCasesPool.claim_case
  dsimp only
  rw [h, if_pos (by simp)]

theorem claim_not_found_eq (p : AvailableCasesPool) (cid lid now : String)
    (hcc : (AvailableCasesPool.can_lawyer_claim p lid).1 = true)
    (hd : dictGet p.case_assignments cid = none) :
    p.claim_case cid lid now = ((false, "Case not found"), p) := by
  unfold AvailableCasesPool.claim_case
  dsimp only
  rw [hcc, if_neg (fun h2 => h2 rfl)]
  simp only [hd]

theorem claim_not_avail_eq (p : AvailableCasesPool) (cid lid now : String)
    (a : PoolAssignment)
    (hcc : (AvailableCasesPool.can_lawyer_claim p lid).1 = true)
    (hd : dictGet p.case_assignments cid = some a)
    (hs : ¬ (a.status = "available" ∨ a.status = "rejected_then_available")) :
    p.claim_case cid lid now = ((false, "Case not available"), p) := by
  unfold AvailableCasesPool.claim_case
  dsimp only
  rw [hcc, if_neg (fun h2 => h2 rfl)]
  simp only [hd]
  rw [if_pos hs]

theorem claim_urgent_eq (p : AvailableCasesPool) (cid lid now : String)
    (a : PoolAssignment)
    (hcc : (AvailableCasesPool.can_lawyer_claim p lid).1 = true)
    (hd : dictGet p.case_assignments cid = some a)
    (hs : a.status = "available" ∨ a.status = "rejected_then_available")
    (hu : (p.urgent_pool.get_all).any (fun c => c.case_id = cid) = true) :
    p.claim_case cid lid now
      = ((true, "Case claimed successfully"),
         { p with
           urgent_pool := AvailableCasesPool.rebuildUrgent
             ((p.urgent_pool.get_all).filter (fun c => ¬ c.case_id = cid)),
           case_assignments := dictSet p.case_assignments cid
             ⟨"claimed", none, some lid, false, some now, none, none⟩,
           lawyer_case_counts := dictSet p.lawyer_case_counts lid
             ((dictGet p.lawyer_case_counts lid).getD 0 + 1) }) := by
  unfold AvailableCasesPool.claim_case
  dsimp only
  rw [hcc, if_neg (fun h2 => h2 rfl)]
  simp only [hd]
  rw [if_neg (not_not_intro hs), hu, if_pos rfl]

theorem claim_normal_eq (p : AvailableCasesPool) (cid lid now : String)
    (a : PoolAssignment)
    (hcc : (AvailableCasesPool.can_lawyer_claim p lid).1 = true)
    (hd : dictGet p.case_assignments cid = some a)
    (hs : a.status = "available" ∨ a.status = "rejected_then_available")
    (hu : (p.urgent_pool.get_all).any (fun c => c.case_id = cid) = false)
    (hn : (queueItems p.normal_pool).any (fun c => c.case_id = cid) = true) :
    p.claim_case cid lid now
      = ((true, "Case claimed successfully"),
         { p with
           normal_pool := AvailableCasesPool.rebuildQueue
             ((queueItems p.normal_pool).filter (fun c => ¬ c.case_id = cid)),
           case_assignments := dictSet p.case_assignments cid
             ⟨"claimed", none, some lid, false, some now, none, none⟩,
           lawyer_case_counts := dictSet p.lawyer_case_counts lid
             ((dictGet p.lawyer_case_counts lid).getD 0 + 1) }) := by
  unfold AvailableCasesPool.claim_case
  dsimp only
  rw [hcc, if_neg (fun h2 => h2 rfl)]
  simp only [hd]
  rw [if_neg (not_not_intro hs), hu, if_neg (by simp), hn, if_pos rfl]

theorem claim_not_in_pool_eq (p : AvailableCasesPool) (cid lid now : String)
    (a : PoolAssignment)
    (hcc : (AvailableCasesPool.can_lawyer_claim p lid).1 = true)
    (hd : dictGet p.case_assignments cid = some a)
    (hs : a.status = "available" ∨ a.status = "rejected_then_available")
    (hu : (p.urgent_pool.get_all).any (fun c => c.case_id = cid) = false)
    (hn : (queueItems p.normal_pool).any (fun c => c.case_id = cid) = false) :
    p.claim_case cid lid now = ((false, "Case not in pool"), p) := by
  unfold AvailableCasesPool.claim_case
  dsimp only
  rw [hcc, if_neg (fun h2 => h2 rfl)]
  simp only [hd]
  rw [if_neg (not_not_intro hs), hu, if_neg (by simp), hn, if_neg (by simp)]

theorem unclaim_none_eq (p : AvailableCasesPool) (cid : String) (cd : PoolCase)
    (hd : dictGet p.case_assignments cid = none) :
    p.unclaim_case cid cd = (false, p) := by
  unfold AvailableCasesPool.unclaim_case
  simp only [hd]

theorem unclaim_notclaimed_eq (p : AvailableCasesPool) (cid : String) (cd : PoolCase)
    (a : PoolAssignment)
    (hd : dictGet p.case_assignments cid = some a)
    (hs : ¬ a.status = "claimed") :
    p.unclaim_case cid cd = (false, p) := by
  unfold AvailableCasesPool.unclaim_case
  simp only [hd]
  rw [if_pos hs]

theorem unclaim_success_urgent_eq (p : AvailableCasesPool) (cid : String)
    (cd : PoolCase) (a : PoolAssignment)
    (hd : dictGet p.case_assignments cid = some a)
    (hs : a.status = "claimed") (hu : cd.urgency = true) :
    ∃ lcc, p.unclaim_case cid cd
      = (true,
         { p with
           urgent_pool := (p.urgent_pool.enqueue cd 1).2,
           case_assignments := dictSet p.case_assignments cid
             ⟨"available", none, none, true, none, none, none⟩,
           lawyer_case_counts := lcc }) := by
  rcases hl : a.lawyer_id with _ | lid
  · refine ⟨p.lawyer_case_counts, ?_⟩
    unfold AvailableCasesPool.unclaim_case
    simp only [hd]
    rw [if_neg (not_not_intro hs)]
    simp only [hl]
    rw [hu, if_pos rfl]
  · rcases hc : dictGet p.lawyer_case_counts lid with _ | cnt
    · refine ⟨p.lawyer_case_counts, ?_⟩
      unfold AvailableCasesPool.unclaim_case
      simp only [hd]
      rw [if_neg (not_not_intro hs)]
      simp only [hl, hc]
      rw [hu, if_pos rfl]
    · refine ⟨dictSet p.lawyer_case_counts lid (cnt - 1), ?_⟩
      unfold AvailableCasesPool.unclaim_case
      simp only [hd]
      rw [if_neg (not_not_intro hs)]
      simp only [hl, hc]
      rw [hu, if_pos rfl]

theorem unclaim_success_normal_eq (p : AvailableCasesPool) (cid : String)
    (cd : PoolCase) (a : PoolAssignment)
    (hd : dictGet p.case_assignments cid = some a)
    (hs : a.status = "claimed") (hu : cd.urgency = false) :
    ∃ lcc, p.unclaim_case cid cd
      = (true,
         { p with
           normal_pool := (p.normal_pool.enqueue cd).2,
           case_assignments := dictSet p.case_assignments cid
             ⟨"available", none, none, true, none, none, none⟩,
           lawyer_case_counts := lcc }) := by
  rcases hl : a.lawyer_id with _ | lid
  · refine ⟨p.lawyer_case_counts, ?_⟩
    unfold AvailableCasesPool.unclaim_case
    simp only [hd]
    rw [if_neg (not_not_intro hs)]
    simp only [hl]
    rw [hu, if_neg (by simp)]
  · rcases hc : dictGet p.lawyer_case_counts lid with _ | cnt
    · refine ⟨p.lawyer_case_counts, ?_⟩
      unfold AvailableCasesPool.unclaim_case
      simp only [hd]
      rw [if_neg (not_not_intro hs)]
      simp only [hl, hc]
      rw [hu, if_neg (by simp)]
    · refine ⟨dictSet p.lawyer_case_counts lid (cnt - 1), ?_⟩
      unfold AvailableCasesPool.unclaim_case
      simp only [hd]
      rw [if_neg (not_not_intro hs)]
      simp only [hl, hc]
      rw [hu, if_neg (by simp)]

theorem accept_cap_eq (p : AvailableCasesPool) (cid lid now : String)
    (h : (AvailableCasesPool.can_lawyer_claim p lid).1 = false) :
    p.accept_direct_request cid lid now
      = ((false, (AvailableCasesPool.can_lawyer_claim p lid).2), p) := by
  unfold AvailableCasesPool.accept_direct_request
  dsimp only
  rw [h, if_pos (by simp)]

theorem accept_not_found_eq (p : AvailableCasesPool) (cid lid now : String)
    (hcc : (AvailableCasesPool.can_lawyer_claim p lid).1 = true)
    (hd : dictGet p.case_assignments cid = none) :
    p.accept_direct_request cid lid now = ((false, "Case not found"), p) := by
  unfold AvailableCasesPool.accept_direct_request
  dsimp only
  rw [hcc, if_neg (fun h2 => h2 rfl)]
  simp only [hd]

theorem accept_not_pending_eq (p : AvailableCasesPool) (cid lid now : String)
    (a : PoolAssignment)
    (hcc : (AvailableCasesPool.can_lawyer_claim p lid).1 = true)
    (hd : dictGet p.case_assignments cid = some a)
    (hs : ¬ a.status = "pending_direct") :
    p.accept_direct_request cid lid now = ((false, "Not a pending request"), p) := by
  unfold AvailableCasesPool.accept_direct_request
  dsimp only
  rw [hcc, if_neg (fun h2 => h2 rfl)]
  simp only [hd]
  rw [if_pos hs]

theorem accept_wrong_lawyer_eq (p : AvailableCasesPool) (cid lid now : String)
    (a : PoolAssignment)
    (hcc : (AvailableCasesPool.can_lawyer_claim p lid).1 = true)
    (hd : dictGet p.case_assignments cid = some a)
    (hs : a.status = "pending_direct")
    (hr : ¬ a.requested_lawyer = some lid) :
    p.accept_direct_request cid lid now
      = ((false, "Request not for this lawyer"), p) := by
  unfold AvailableCasesPool.accept_direct_request
  dsimp only
  rw [hcc, if_neg (fun h2 => h2 rfl)]
  simp only [hd]
  rw [if_neg (not_not_intro hs), if_pos hr]

theorem accept_success_eq (p : AvailableCasesPool) (cid lid now : String)
    (a : PoolAssignment) (q : Queue PoolCase)
    (hcc : (AvailableCasesPool.can_lawyer_claim p lid).1 = true)
    (hd : dictGet p.case_assignments cid = some a)
    (hs : a.status = "pending_direct")
    (hr : a.requested_lawyer = some lid)
    (hq : dictGet p.pending_requests lid = some q) :
    p.accept_direct_request cid lid now
      = ((true, "Request accepted"),
         { p with
           pending_requests := dictSet p.pending_requests lid
             (AvailableCasesPool.rebuildQueue
               ((queueItems q).filter (fun c => ¬ c.case_id = cid))),
           case_assignments := dictSet p.case_assignments cid
             ⟨"claimed", none, some lid, false, some now, some "direct", none⟩,
           lawyer_case_counts := dictSet p.lawyer_case_counts lid
             ((dictGet p.lawyer_case_counts lid).getD 0 + 1) }) := by
  unfold AvailableCasesPool.accept_direct_request
  dsimp only
  rw [hcc, if_neg (fun h2 => h2 rfl)]
  simp only [hd]
  rw [if_neg (not_not_intro hs), if_neg (not_not_intro hr)]
  simp only [hq]

theorem reject_none_eq (p : AvailableCasesPool) (cid lid : String) (cd : PoolCase)
    (hd : dictGet p.case_assignments cid = none) :
    p.reject_direct_request cid lid cd = (false, p) := by
  unfold AvailableCasesPool.reject_direct_request
  simp only [hd]

theorem reject_notpending_eq (p : AvailableCasesPool) (cid lid : String)
    (cd : PoolCase) (a : PoolAssignment)
    (hd : dictGet p.case_assignments cid = some a)
    (hs : ¬ a.status = "pending_direct") :
    p.reject_direct_request cid lid cd = (false, p) := by
  unfold AvailableCasesPool.reject_direct_request
  simp only [hd]
  rw [if_pos hs]

theorem reject_success_urgent_eq (p : AvailableCasesPool) (cid lid : String)
    (cd : PoolCase) (a : PoolAssignment) (q : Queue PoolCase)
    (hd : dictGet p.case_assignments cid = some a)
    (hs : a.status = "pending_direct")
    (hq : dictGet p.pending_requests lid = some q)
    (hu : cd.urgency = true) :
    p.reject_direct_request cid lid cd
      = (true,
         { p with
           pending_requests := dictSet p.pending_requests lid
             (AvailableCasesPool.rebuildQueue
               ((queueItems q).filter (fun c => ¬ c.case_id = cid))),
           urgent_pool := (p.urgent_pool.enqueue cd 1).2,
           case_assignments := dictSet p.case_assignments cid
             ⟨"rejected_then_available", none, none, true, none, none, some lid⟩ }) := by
  unfold AvailableCasesPool.reject_direct_request
  simp only [hd]
  rw [if_neg (not_not_intro hs)]
  simp only [hq]
  rw [hu, if_pos rfl]

theorem reject_success_normal_eq (p : AvailableCasesPool) (cid lid : String)
    (cd : PoolCase) (a : PoolAssignment) (q : Queue PoolCase)
    (hd : dictGet p.case_assignments cid = some a)
    (hs : a.status = "pending_direct")
    (hq : dictGet p.pending_requests lid = some q)
    (hu : cd.urgency = false) :
    p.reject_direct_request cid lid cd
      = (true,
         { p with
           pending_requests := dictSet p.pending_requests lid
             (AvailableCasesPool.rebuildQueue
               ((queueItems q).filter (fun c => ¬ c.case_id = cid))),
           normal_pool := (p.normal_pool.enqueue cd).2,
           case_assignments := dictSet p.case_assignments cid
             ⟨"rejected_then_available", none, none, true, none, none, some lid⟩ }) := by
  unfold AvailableCasesPool.reject_direct_request
  simp only [hd]
  rw [if_neg (not_not_intro hs)]
  simp only [hq]
  rw [hu, if_neg (by simp)]


/-! ### Transfer lemmas for the per-case facts -/

theorem mem_of_dictGet (l : List (String × β)) (k : String) (v : β)
    (h : dictGet l k = some v) : (k, v) ∈ l := by
  induction l with
  | nil => simp [dictGet] at h
  | cons hd t ih =>
    obtain ⟨k2, v2⟩ := hd
    by_cases hk : k2 = k
    · rw [dictGet, if_pos hk] at h
      injection h with h
      rw [← hk, ← h]
      exact List.mem_cons_self _ _
    · rw [dictGet, if_neg hk] at h
      exact List.mem_cons_of_mem _ (ih h)

theorem idCount_singleton (c : PoolCase) (cid : String) :
    idCount [c] cid = if c.case_id = cid then 1 else 0 := by
  rw [show [c] = c :: ([] : List PoolCase) from rfl, idCount_cons]
  simp [idCount]

theorem zeroFacts_of_counts_eq (p p2 : AvailableCasesPool) (cid : String)
    (hU : AvailableCasesPool.occUrgent p2 cid = AvailableCasesPool.occUrgent p cid)
    (hN : AvailableCasesPool.occNormal p2 cid = AvailableCasesPool.occNormal p cid)
    (hP : ∀ lid, AvailableCasesPool.pendIdCount p2 lid cid
        = AvailableCasesPool.pendIdCount p lid cid)
    (h : ZeroFacts p cid) : ZeroFacts p2 cid := by
  unfold ZeroFacts at h ⊢
  rw [hU, hN]
  simp only [hP]
  exact h

theorem assignFacts_of_counts_eq (p p2 : AvailableCasesPool) (cid : String)
    (a : PoolAssignment)
    (hU : AvailableCasesPool.occUrgent p2 cid = AvailableCasesPool.occUrgent p cid)
    (hN : AvailableCasesPool.occNormal p2 cid = AvailableCasesPool.occNormal p cid)
    (hP : ∀ lid, AvailableCasesPool.pendIdCount p2 lid cid
        = AvailableCasesPool.pendIdCount p lid cid)
    (h : AssignFacts p cid a) : AssignFacts p2 cid a := by
  unfold AssignFacts ZeroFacts at h ⊢
  rw [hU, hN]
  simp only [hP]
  exact h

/-! ### The invariant holds initially and is preserved by every valid
operation -/

theorem poolInv_mkEmpty : PoolInv AvailableCasesPool.mkEmpty := by
  refine ⟨PriorityQueue.wf_mkEmpty _, rfl, qgood_mkEmpty _ _, rfl, ?_, ?_, ?_, ?_⟩
  · intro kv hkv
    exact absurd hkv (List.not_mem_nil kv)
  · exact List.nodup_nil
  · intro cid a hd
    simp [dictGet] at hd
  · intro cid hd
    refine ⟨rfl, ?_, ?_⟩
    · show idCount (queueItems (Queue.mkEmpty PoolCase)) cid = 0
      rw [queueItems_mkEmpty]
      rfl
    · intro lid
      show idCount (queueItems (Queue.mkEmpty PoolCase)) cid = 0
      rw [queueItems_mkEmpty]
      rfl

theorem poolInv_addGeneral_urgent (p : AvailableCasesPool) (c : PoolCase)
    (hinv : PoolInv p) (hz : ZeroFacts p c.case_id) (hu : c.urgency = true)
    (hroom : p.urgent_pool.heap.length < p.urgent_pool.capacity) :
    PoolInv (AvailableCasesPool.addToGeneralPool p c) := by
  obtain ⟨hz1, hz2, hz3⟩ := hz
  rw [addGeneral_urgent_eq p c hu]
  have hUeq : ∀ x, AvailableCasesPool.occUrgent
      { p with
        urgent_pool := (p.urgent_pool.enqueue c 1).2,
        case_assignments := dictSet p.case_assignments c.case_id
          ⟨"available", none, none, true, none, none, none⟩ } x
      = AvailableCasesPool.occUrgent p x + (if c.case_id = x then 1 else 0) := by
    intro x
    have hperm := (PriorityQueue.enqueue_heap_perm p.urgent_pool c 1 hroom).map
      PQEntry.item
    show idCount ((p.urgent_pool.enqueue c 1).2.heap.map PQEntry.item) x = _
    rw [idCount_perm hperm, List.map_cons, idCount_cons]
    rfl
  have hN : ∀ x, AvailableCasesPool.occNormal
      { p with
        urgent_pool := (p.urgent_pool.enqueue c 1).2,
        case_assignments := dictSet p.case_assignments c.case_id
          ⟨"available", none, none, true, none, none, none⟩ } x
      = AvailableCasesPool.occNormal p x := fun x => rfl
  have hP : ∀ lid x, AvailableCasesPool.pendIdCount
      { p with
        urgent_pool := (p.urgent_pool.enqueue c 1).2,
        case_assignments := dictSet p.case_assignments c.case_id
          ⟨"available", none, none, true, none, none, none⟩ } lid x
      = AvailableCasesPool.pendIdCount p lid x := fun lid x => rfl
  refine ⟨PriorityQueue.enqueue_wf p.urgent_pool c 1 hinv.uwf,
    by rw [show ({ p with
        urgent_pool := (p.urgent_pool.enqueue c 1).2,
        case_assignments := dictSet p.case_assignments c.case_id
          ⟨"available", none, none, true, none, none, none⟩ }
        : AvailableCasesPool).urgent_pool = (p.urgent_pool.enqueue c 1).2 from rfl,
      enqueue_capacity]; exact hinv.ucap,
    hinv.ngood, hinv.ncap, hinv.pgood, hinv.pnodup, ?_, ?_⟩
  · intro cid a hd
    by_cases hc : cid = c.case_id
    · subst hc
      rw [dictGet_dictSet_self] at hd
      injection hd with hd
      subst hd
      refine ⟨?_, ?_, ?_, Or.inl rfl⟩
      · intro _
        refine ⟨?_, fun lid => by rw [hP]; exact hz3 lid⟩
        rw [hUeq, if_pos rfl, hN, hz1, hz2]
      · intro habs
        exact absurd habs (by decide)
      · intro habs
        exact absurd habs (by decide)
    · rw [dictGet_dictSet_ne _ _ _ _ hc] at hd
      refine assignFacts_of_counts_eq p _ cid a ?_ (hN cid) (fun lid => hP lid cid)
        (hinv.assigned cid a hd)
      rw [hUeq, if_neg fun he => hc he.symm]
      omega
  · intro cid hd
    by_cases hc : cid = c.case_id
    · subst hc
      rw [dictGet_dictSet_self] at hd
      exact absurd hd (by simp)
    · rw [dictGet_dictSet_ne _ _ _ _ hc] at hd
      refine zeroFacts_of_counts_eq p _ cid ?_ (hN cid) (fun lid => hP lid cid)
        (hinv.unassigned cid hd)
      rw [hUeq, if_neg fun he => hc he.symm]
      omega

theorem poolInv_addGeneral_normal (p : AvailableCasesPool) (c : PoolCase)
    (hinv : PoolInv p) (hz : ZeroFacts p c.case_id) (hu : c.urgency = false)
    (hroom : p.normal_pool.count < p.normal_pool.capacity) :
    PoolInv (AvailableCasesPool.addToGeneralPool p c) := by
  obtain ⟨hz1, hz2, hz3⟩ := hz
  rw [addGeneral_normal_eq p c hu]
  obtain ⟨hg2, hi2, hc2, hn2⟩ := qgood_enqueue p.normal_pool c hinv.ngood hroom
  have hNeq : ∀ x, AvailableCasesPool.occNormal
      { p with
        normal_pool := (p.normal_pool.enqueue c).2,
        case_assignments := dictSet p.case_assignments c.case_id
          ⟨"available", none, none, true, none, none, none⟩ } x
      = AvailableCasesPool.occNormal p x + (if c.case_id = x then 1 else 0) := by
    intro x
    show idCount (queueItems (p.normal_pool.enqueue c).2) x = _
    rw [hi2, idCount_append, idCount_singleton]
    rfl
  have hU : ∀ x, AvailableCasesPool.occUrgent
      { p with
        normal_pool := (p.normal_pool.enqueue c).2,
        case_assignments := dictSet p.case_assignments c.case_id
          ⟨"available", none, none, true, none, none, none⟩ } x
      = AvailableCasesPool.occUrgent p x := fun x => rfl
  have hP : ∀ lid x, AvailableCasesPool.pendIdCount
      { p with
        normal_pool := (p.normal_pool.enqueue c).2,
        case_assignments := dictSet p.case_assignments c.case_id
          ⟨"available", none, none, true, none, none, none⟩ } lid x
      = AvailableCasesPool.pendIdCount p lid x := fun lid x => rfl
  refine ⟨hinv.uwf, hinv.ucap, hg2, by rw [hc2]; exact hinv.ncap,
    hinv.pgood, hinv.pnodup, ?_, ?_⟩
  · intro cid a hd
    by_cases hc : cid = c.case_id
    · subst hc
      rw [dictGet_dictSet_self] at hd
      injection hd with hd
      subst hd
      refine ⟨?_, ?_, ?_, Or.inl rfl⟩
      · intro _
        refine ⟨?_, fun lid => by rw [hP]; exact hz3 lid⟩
        rw [hNeq, if_pos rfl, hU, hz1, hz2]
      · intro habs
        exact absurd habs (by decide)
      · intro habs
        exact absurd habs (by decide)
    · rw [dictGet_dictSet_ne _ _ _ _ hc] at hd
      refine assignFacts_of_counts_eq p _ cid a (hU cid) ?_ (fun lid => hP lid cid)
        (hinv.assigned cid a hd)
      rw [hNeq, if_neg fun he => hc he.symm]
      omega
  · intro cid hd
    by_cases hc : cid = c.case_id
    · subst hc
      rw [dictGet_dictSet_self] at hd
      exact absurd hd (by simp)
    · rw [dictGet_dictSet_ne _ _ _ _ hc] at hd
      refine zeroFacts_of_counts_eq p _ cid (hU cid) ?_ (fun lid => hP lid cid)
        (hinv.unassigned cid hd)
      rw [hNeq, if_neg fun he => hc he.symm]
      omega

theorem poolInv_add (p : AvailableCasesPool) (c : PoolCase)
    (hinv : PoolInv p) (hv : validOp p (.add c) = true) :
    PoolInv (p.add_to_pool c) := by
  simp only [validOp, Bool.and_eq_true] at hv
  obtain ⟨hclaimed, hcap⟩ := hv
  have hzero : ZeroFacts p c.case_id := by
    cases hd : dictGet p.case_assignments c.case_id with
    | none => exact hinv.unassigned _ hd
    | some a =>
      have ha : a.status = "claimed" := by
        rw [hd] at hclaimed
        simpa [Option.all] using hclaimed
      exact (hinv.assigned _ a hd).2.2.1 ha
  have hgeneral : (if c.urgency then
        decide (p.urgent_pool.heap.length < p.urgent_pool.capacity)
      else decide (p.normal_pool.count < p.normal_pool.capacity)) = true →
      PoolInv (AvailableCasesPool.addToGeneralPool p c) := by
    intro hcap2
    cases hu : c.urgency with
    | false =>
      rw [hu] at hcap2
      simp only [Bool.false_eq_true, if_false, decide_eq_true_eq] at hcap2
      exact poolInv_addGeneral_normal p c hinv hzero hu hcap2
    | true =>
      rw [hu] at hcap2
      simp only [if_true, decide_eq_true_eq] at hcap2
      exact poolInv_addGeneral_urgent p c hinv hzero hu hcap2
  obtain ⟨hz1, hz2, hz3⟩ := hzero
  by_cases hdir : c.assignment_type = some "direct"
  · rcases hrl : c.requested_lawyer_id with _ | lid
    · rw [if_pos hdir] at hcap
      simp only [hrl] at hcap
      rw [add_general_eq p c (Or.inr hrl)]
      exact hgeneral hcap
    · rw [if_pos hdir] at hcap
      simp only [hrl] at hcap
      have hroom : (AvailableCasesPool.pendingQ p lid).count
          < (AvailableCasesPool.pendingQ p lid).capacity := by
        simpa using hcap
      have hQ : QGood (AvailableCasesPool.pendingQ p lid) ∧
          (AvailableCasesPool.pendingQ p lid).capacity = Queue.DEFAULT_CAPACITY := by
        cases hq : dictGet p.pending_requests lid with
        | none =>
          rw [AvailableCasesPool.pendingQ, hq]
          exact ⟨qgood_mkEmpty _ _, rfl⟩
        | some q =>
          rw [AvailableCasesPool.pendingQ, hq]
          exact hinv.pgood (lid, q) (mem_of_dictGet _ _ _ hq)
      obtain ⟨hQg, hQc⟩ := hQ
      obtain ⟨hg2, hi2, hc2, hn2⟩ :=
        qgood_enqueue (AvailableCasesPool.pendingQ p lid) c hQg hroom
      rw [add_direct_eq p c lid hdir hrl]
      have hU : ∀ x, AvailableCasesPool.occUrgent
          { p with
            pending_requests := dictSet p.pending_requests lid
              ((AvailableCasesPool.pendingQ p lid).enqueue c).2,
            case_assignments := dictSet p.case_assignments c.case_id
              ⟨"pending_direct", some lid, none, false, none, none, none⟩ } x
          = AvailableCasesPool.occUrgent p x := fun x => rfl
      have hN : ∀ x, AvailableCasesPool.occNormal
          { p with
            pending_requests := dictSet p.pending_requests lid
              ((AvailableCasesPool.pendingQ p lid).enqueue c).2,
            case_assignments := dictSet p.case_assignments c.case_id
              ⟨"pending_direct", some lid, none, false, none, none, none⟩ } x
          = AvailableCasesPool.occNormal p x := fun x => rfl
      have hPself : ∀ x, AvailableCasesPool.pendIdCount
          { p with
            pending_requests := dictSet p.pending_requests lid
              ((AvailableCasesPool.pendingQ p lid).enqueue c).2,
            case_assignments := dictSet p.case_assignments c.case_id
              ⟨"pending_direct", some lid, none, false, none, none, none⟩ } lid x
          = AvailableCasesPool.pendIdCount p lid x + (if c.case_id = x then 1 else 0) := by
        intro x
        rw [AvailableCasesPool.pendIdCount]
        show idCount (queueItems ((dictGet (dictSet p.pending_requests lid
          ((AvailableCasesPool.pendingQ p lid).enqueue c).2) lid).getD
            (Queue.mkEmpty PoolCase))) x = _
        rw [dictGet_dictSet_self, Option.getD_some, hi2, idCount_append,
          idCount_singleton]
        rfl
      have hPother : ∀ lid2, lid2 ≠ lid → ∀ x, AvailableCasesPool.pendIdCount
          { p with
            pending_requests := dictSet p.pending_requests lid
              ((AvailableCasesPool.pendingQ p lid).enqueue c).2,
            case_assignments := dictSet p.case_assignments c.case_id
              ⟨"pending_direct", some lid, none, false, none, none, none⟩ } lid2 x
          = AvailableCasesPool.pendIdCount p lid2 x := by
        intro lid2 hne x
        rw [AvailableCasesPool.pendIdCount]
        show idCount (queueItems ((dictGet (dictSet p.pending_requests lid
          ((AvailableCasesPool.pendingQ p lid).enqueue c).2) lid2).getD
            (Queue.mkEmpty PoolCase))) x = _
        rw [dictGet_dictSet_ne _ _ _ _ hne]
        rfl
      have hPany : ∀ lid2 x, x ≠ c.case_id → AvailableCasesPool.pendIdCount
          { p with
            pending_requests := dictSet p.pending_requests lid
              ((AvailableCasesPool.pendingQ p lid).enqueue c).2,
            case_assignments := dictSet p.case_assignments c.case_id
              ⟨"pending_direct", some lid, none, false, none, none, none⟩ } lid2 x
          = AvailableCasesPool.pendIdCount p lid2 x := by
        intro lid2 x hx
        by_cases hne : lid2 = lid
        · subst hne
          rw [hPself, if_neg fun he => hx he.symm]
          omega
        · rw [hPother lid2 hne]
      refine ⟨hinv.uwf, hinv.ucap, hinv.ngood, hinv.ncap, ?_, ?_, ?_, ?_⟩
      · intro kv hkv
        rcases mem_dictSet _ _ _ _ hkv with h | h
        · rw [h]
          exact ⟨hg2, by rw [hc2, hQc]⟩
        · exact hinv.pgood kv h
      · exact nodup_keys_dictSet _ _ _ hinv.pnodup
      · intro cid a hd
        by_cases hc : cid = c.case_id
        · subst hc
          rw [dictGet_dictSet_self] at hd
          injection hd with hd
          subst hd
          refine ⟨?_, ?_, ?_, Or.inr (Or.inr (Or.inl rfl))⟩
          · intro habs
            rcases habs with h | h <;> simp at h
          · intro _
            refine ⟨lid, rfl, by rw [hU]; exact hz1, by rw [hN]; exact hz2, ?_, ?_⟩
            · rw [hPself, hz3 lid, if_pos rfl]
            · intro lid2 hne
              rw [hPother lid2 hne]
              exact hz3 lid2
          · intro habs
            simp at habs
        · rw [dictGet_dictSet_ne _ _ _ _ hc] at hd
          exact assignFacts_of_counts_eq p _ cid a (hU cid) (hN cid)
            (fun lid2 => hPany lid2 cid hc) (hinv.assigned cid a hd)
      · intro cid hd
        by_cases hc : cid = c.case_id
        · subst hc
          rw [dictGet_dictSet_self] at hd
          exact absurd hd (by simp)
        · rw [dictGet_dictSet_ne _ _ _ _ hc] at hd
          exact zeroFacts_of_counts_eq p _ cid (hU cid) (hN cid)
            (fun lid2 => hPany lid2 cid hc) (hinv.unassigned cid hd)
  · rw [if_neg hdir] at hcap
    rw [add_general_eq p c (Or.inl hdir)]
    exact hgeneral hcap


theorem poolInv_claim (p : AvailableCasesPool) (cid lid now : String)
    (hinv : PoolInv p) : PoolInv (p.claim_case cid lid now).2 := by
  cases hcc : (AvailableCasesPool.can_lawyer_claim p lid).1 with
  | false =>
    rw [claim_cap_eq p cid lid now hcc]
    exact hinv
  | true =>
    cases hd : dictGet p.case_assignments cid with
    | none =>
      rw [claim_not_found_eq p cid lid now hcc hd]
      exact hinv
    | some a =>
      by_cases hs : a.status = "available" ∨ a.status = "rejected_then_available"
      · obtain ⟨hsum, hpend⟩ := (hinv.assigned cid a hd).1 hs
        cases hu : (p.urgent_pool.get_all).any (fun c => c.case_id = cid) with
        | true =>
          rw [claim_urgent_eq p cid lid now a hcc hd hs hu]
          have hperm : (p.urgent_pool.get_all).Perm
              (p.urgent_pool.heap.map PQEntry.item) :=
            get_all_perm_heap _ hinv.uwf
          have hFlen : ((p.urgent_pool.get_all).filter
              (fun c => ¬ c.case_id = cid)).length
              ≤ PriorityQueue.DEFAULT_CAPACITY := by
            refine le_trans (List.length_filter_le _ _) ?_
            rw [hperm.length_eq, List.length_map]
            rw [← hinv.ucap]
            exact hinv.uwf.2.2.2
          obtain ⟨hwfR, hpermR, hcapR⟩ := rebuildUrgent_spec _ hFlen
          have hUcnt : ∀ x, AvailableCasesPool.occUrgent
              { p with
                urgent_pool := AvailableCasesPool.rebuildUrgent
                  ((p.urgent_pool.get_all).filter (fun c => ¬ c.case_id = cid)),
                case_assignments := dictSet p.case_assignments cid
                  ⟨"claimed", none, some lid, false, some now, none, none⟩,
                lawyer_case_counts := dictSet p.lawyer_case_counts lid
                  ((dictGet p.lawyer_case_counts lid).getD 0 + 1) } x
              = idCount ((p.urgent_pool.get_all).filter
                  (fun c => ¬ c.case_id = cid)) x :=
            fun x => idCount_perm hpermR x
          have hN : ∀ x, AvailableCasesPool.occNormal
              { p with
                urgent_pool := AvailableCasesPool.rebuildUrgent
                  ((p.urgent_pool.get_all).filter (fun c => ¬ c.case_id = cid)),
                case_assignments := dictSet p.case_assignments cid
                  ⟨"claimed", none, some lid, false, some now, none, none⟩,
                lawyer_case_counts := dictSet p.lawyer_case_counts lid
                  ((dictGet p.lawyer_case_counts lid).getD 0 + 1) } x
              = AvailableCasesPool.occNormal p x := fun x => rfl
          have hP : ∀ lid2 x, AvailableCasesPool.pendIdCount
              { p with
                urgent_pool := AvailableCasesPool.rebuildUrgent
                  ((p.urgent_pool.get_all).filter (fun c => ¬ c.case_id = cid)),
                case_assignments := dictSet p.case_assignments cid
                  ⟨"claimed", none, some lid, false, some now, none, none⟩,
                lawyer_case_counts := dictSet p.lawyer_case_counts lid
                  ((dictGet p.lawyer_case_counts lid).getD 0 + 1) } lid2 x
              = AvailableCasesPool.pendIdCount p lid2 x := fun lid2 x => rfl
          have h1 : 0 < AvailableCasesPool.occUrgent p cid := by
            rw [show AvailableCasesPool.occUrgent p cid
              = idCount (p.urgent_pool.get_all) cid from (idCount_perm hperm cid).symm]
            exact idCount_pos_of_any _ cid hu
          refine ⟨hwfR, hcapR, hinv.ngood, hinv.ncap, hinv.pgood, hinv.pnodup, ?_, ?_⟩
          · intro cid2 a2 hd2
            by_cases hc : cid2 = cid
            · subst hc
              rw [dictGet_dictSet_self] at hd2
              injection hd2 with hd2
              subst hd2
              refine ⟨?_, ?_, ?_, Or.inr (Or.inr (Or.inr rfl))⟩
              · intro habs
                rcases habs with h | h <;> simp at h
              · intro habs
                simp at habs
              · intro _
                refine ⟨?_, ?_, hpend⟩
                · rw [hUcnt]
                  exact idCount_filter_self _ _
                · rw [hN]
                  omega
            · rw [dictGet_dictSet_ne _ _ _ _ hc] at hd2
              refine assignFacts_of_counts_eq p _ cid2 a2 ?_ (hN cid2)
                (fun lid2 => hP lid2 cid2) (hinv.assigned cid2 a2 hd2)
              rw [hUcnt, idCount_filter_ne _ _ _ hc, idCount_perm hperm]
              rfl
          · intro cid2 hd2
            by_cases hc : cid2 = cid
            · subst hc
              rw [dictGet_dictSet_self] at hd2
              exact absurd hd2 (by simp)
            · rw [dictGet_dictSet_ne _ _ _ _ hc] at hd2
              refine zeroFacts_of_counts_eq p _ cid2 ?_ (hN cid2)
                (fun lid2 => hP lid2 cid2) (hinv.unassigned cid2 hd2)
              rw [hUcnt, idCount_filter_ne _ _ _ hc, idCount_perm hperm]
              rfl
        | false =>
          cases hn : (queueItems p.normal_pool).any (fun c => c.case_id = cid) with
          | false =>
            rw [claim_not_in_pool_eq p cid lid now a hcc hd hs hu hn]
            exact hinv
          | true =>
            rw [claim_normal_eq p cid lid now a hcc hd hs hu hn]
            have hu0 : AvailableCasesPool.occUrgent p cid = 0 := by
              have hperm : (p.urgent_pool.get_all).Perm
                  (p.urgent_pool.heap.map PQEntry.item) :=
                get_all_perm_heap _ hinv.uwf
              rw [show AvailableCasesPool.occUrgent p cid
                = idCount (p.urgent_pool.get_all) cid from (idCount_perm hperm cid).symm]
              exact idCount_eq_zero_of_not_any _ cid hu
            have hFlen : ((queueItems p.normal_pool).filter
                (fun c => ¬ c.case_id = cid)).length ≤ Queue.DEFAULT_CAPACITY := by
              refine le_trans (List.length_filter_le _ _) ?_
              rw [← count_eq_items_length p.normal_pool hinv.ngood, ← hinv.ncap]
              exact hinv.ngood.1.2.1
            obtain ⟨hgR, hiR, hcapR, hnR⟩ := rebuildQueue_spec _ hFlen
            have hNcnt : ∀ x, AvailableCasesPool.occNormal
                { p with
                  normal_pool := AvailableCasesPool.rebuildQueue
                    ((queueItems p.normal_pool).filter (fun c => ¬ c.case_id = cid)),
                  case_assignments := dictSet p.case_assignments cid
                    ⟨"claimed", none, some lid, false, some now, none, none⟩,
                  lawyer_case_counts := dictSet p.lawyer_case_counts lid
                    ((dictGet p.lawyer_case_counts lid).getD 0 + 1) } x
                = idCount ((queueItems p.normal_pool).filter
                    (fun c => ¬ c.case_id = cid)) x := by
              intro x
              show idCount (queueItems (AvailableCasesPool.rebuildQueue _)) x = _
              rw [hiR]
            have hU : ∀ x, AvailableCasesPool.occUrgent
                { p with
                  normal_pool := AvailableCasesPool.rebuildQueue
                    ((queueItems p.normal_pool).filter (fun c => ¬ c.case_id = cid)),
                  case_assignments := dictSet p.case_assignments cid
                    ⟨"claimed", none, some lid, false, some now, none, none⟩,
                  lawyer_case_counts := dictSet p.lawyer_case_counts lid
                    ((dictGet p.lawyer_case_counts lid).getD 0 + 1) } x
                = AvailableCasesPool.occUrgent p x := fun x => rfl
            have hP : ∀ lid2 x, AvailableCasesPool.pendIdCount
                { p with
                  normal_pool := AvailableCasesPool.rebuildQueue
                    ((queueItems p.normal_pool).filter (fun c => ¬ c.case_id = cid)),
                  case_assignments := dictSet p.case_assignments cid
                    ⟨"claimed", none, some lid, false, some now, none, none⟩,
                  lawyer_case_counts := dictSet p.lawyer_case_counts lid
                    ((dictGet p.lawyer_case_counts lid).getD 0 + 1) } lid2 x
                = AvailableCasesPool.pendIdCount p lid2 x := fun lid2 x => rfl
            refine ⟨hinv.uwf, hinv.ucap, hgR, by rw [hcapR], hinv.pgood,
              hinv.pnodup, ?_, ?_⟩
            · intro cid2 a2 hd2
              by_cases hc : cid2 = cid
              · subst hc
                rw [dictGet_dictSet_self] at hd2
                injection hd2 with hd2
                subst hd2
                refine ⟨?_, ?_, ?_, Or.inr (Or.inr (Or.inr rfl))⟩
                · intro habs
                  rcases habs with h | h <;> simp at h
                · intro habs
                  simp at habs
                · intro _
                  refine ⟨by rw [hU]; exact hu0, ?_, hpend⟩
                  rw [hNcnt]
                  exact idCount_filter_self _ _
              · rw [dictGet_dictSet_ne _ _ _ _ hc] at hd2
                refine assignFacts_of_counts_eq p _ cid2 a2 (hU cid2) ?_
                  (fun lid2 => hP lid2 cid2) (hinv.assigned cid2 a2 hd2)
                rw [hNcnt, idCount_filter_ne _ _ _ hc]
                rfl
            · intro cid2 hd2
              by_cases hc : cid2 = cid
              · subst hc
                rw [dictGet_dictSet_self] at hd2
                exact absurd hd2 (by simp)
              · rw [dictGet_dictSet_ne _ _ _ _ hc] at hd2
                refine zeroFacts_of_counts_eq p _ cid2 (hU cid2) ?_
                  (fun lid2 => hP lid2 cid2) (hinv.unassigned cid2 hd2)
                rw [hNcnt, idCount_filter_ne _ _ _ hc]
                rfl
      · rw [claim_not_avail_eq p cid lid now a hcc hd hs]
        exact hinv


/-- Re-filing a case that is currently in no structure into the urgent pool,
while recording an `available`-class assignment for it, preserves the
invariant (used by `unclaim_case`). -/
theorem poolInv_readd_urgent (p : AvailableCasesPool) (c : PoolCase)
    (lcc : List (String × Nat)) (rec : PoolAssignment)
    (hrec : rec.status = "available" ∨ rec.status = "rejected_then_available")
    (hinv : PoolInv p) (hz : ZeroFacts p c.case_id)
    (hroom : p.urgent_pool.heap.length < p.urgent_pool.capacity) :
    PoolInv { p with
      urgent_pool := (p.urgent_pool.enqueue c 1).2,
      case_assignments := dictSet p.case_assignments c.case_id rec,
      lawyer_case_counts := lcc } := by
  obtain ⟨hz1, hz2, hz3⟩ := hz
  have hUeq : ∀ x, AvailableCasesPool.occUrgent
      { p with
        urgent_pool := (p.urgent_pool.enqueue c 1).2,
        case_assignments := dictSet p.case_assignments c.case_id rec,
        lawyer_case_counts := lcc } x
      = AvailableCasesPool.occUrgent p x + (if c.case_id = x then 1 else 0) := by
    intro x
    have hperm := (PriorityQueue.enqueue_heap_perm p.urgent_pool c 1 hroom).map
      PQEntry.item
    show idCount ((p.urgent_pool.enqueue c 1).2.heap.map PQEntry.item) x = _
    rw [idCount_perm hperm, List.map_cons, idCount_cons]
    rfl
  have hN : ∀ x, AvailableCasesPool.occNormal
      { p with
        urgent_pool := (p.urgent_pool.enqueue c 1).2,
        case_assignments := dictSet p.case_assignments c.case_id rec,
        lawyer_case_counts := lcc } x
      = AvailableCasesPool.occNormal p x := fun x => rfl
  have hP : ∀ lid x, AvailableCasesPool.pendIdCount
      { p with
        urgent_pool := (p.urgent_pool.enqueue c 1).2,
        case_assignments := dictSet p.case_assignments c.case_id rec,
        lawyer_case_counts := lcc } lid x
      = AvailableCasesPool.pendIdCount p lid x := fun lid x => rfl
  refine ⟨PriorityQueue.enqueue_wf p.urgent_pool c 1 hinv.uwf,
    by rw [show ({ p with
        urgent_pool := (p.urgent_pool.enqueue c 1).2,
        case_assignments := dictSet p.case_assignments c.case_id rec,
        lawyer_case_counts := lcc }
        : AvailableCasesPool).urgent_pool = (p.urgent_pool.enqueue c 1).2 from rfl,
      enqueue_capacity]; exact hinv.ucap,
    hinv.ngood, hinv.ncap, hinv.pgood, hinv.pnodup, ?_, ?_⟩
  · intro cid a hd
    by_cases hc : cid = c.case_id
    · subst hc
      rw [dictGet_dictSet_self] at hd
      injection hd with hd
      subst hd
      refine ⟨?_, ?_, ?_, ?_⟩
      · intro _
        refine ⟨?_, fun lid => by rw [hP]; exact hz3 lid⟩
        rw [hUeq, if_pos rfl, hN, hz1, hz2]
      · intro habs
        rcases hrec with h | h <;> rw [h] at habs <;> simp at habs
      · intro habs
        rcases hrec with h | h <;> rw [h] at habs <;> simp at habs
      · rcases hrec with h | h
        · exact Or.inl h
        · exact Or.inr (Or.inl h)
    · rw [dictGet_dictSet_ne _ _ _ _ hc] at hd
      refine assignFacts_of_counts_eq p _ cid a ?_ (hN cid) (fun lid => hP lid cid)
        (hinv.assigned cid a hd)
      rw [hUeq, if_neg fun he => hc he.symm]
      omega
  · intro cid hd
    by_cases hc : cid = c.case_id
    · subst hc
      rw [dictGet_dictSet_self] at hd
      exact absurd hd (by simp)
    · rw [dictGet_dictSet_ne _ _ _ _ hc] at hd
      refine zeroFacts_of_counts_eq p _ cid ?_ (hN cid) (fun lid => hP lid cid)
        (hinv.unassigned cid hd)
      rw [hUeq, if_neg fun he => hc he.symm]
      omega

/-- As `poolInv_readd_urgent`, for the normal pool. -/
theorem poolInv_readd_normal (p : AvailableCasesPool) (c : PoolCase)
    (lcc : List (String × Nat)) (rec : PoolAssignment)
    (hrec : rec.status = "available" ∨ rec.status = "rejected_then_available")
    (hinv : PoolInv p) (hz : ZeroFacts p c.case_id)
    (hroom : p.normal_pool.count < p.normal_pool.capacity) :
    PoolInv { p with
      normal_pool := (p.normal_pool.enqueue c).2,
      case_assignments := dictSet p.case_assignments c.case_id rec,
      lawyer_case_counts := lcc } := by
  obtain ⟨hz1, hz2, hz3⟩ := hz
  obtain ⟨hg2, hi2, hc2, hn2⟩ := qgood_enqueue p.normal_pool c hinv.ngood hroom
  have hNeq : ∀ x, AvailableCasesPool.occNormal
      { p with
        normal_pool := (p.normal_pool.enqueue c).2,
        case_assignments := dictSet p.case_assignments c.case_id rec,
        lawyer_case_counts := lcc } x
      = AvailableCasesPool.occNormal p x + (if c.case_id = x then 1 else 0) := by
    intro x
    show idCount (queueItems (p.normal_pool.enqueue c).2) x = _
    rw [hi2, idCount_append, idCount_singleton]
    rfl
  have hU : ∀ x, AvailableCasesPool.occUrgent
      { p with
        normal_pool := (p.normal_pool.enqueue c).2,
        case_assignments := dictSet p.case_assignments c.case_id rec,
        lawyer_case_counts := lcc } x
      = AvailableCasesPool.occUrgent p x := fun x => rfl
  have hP : ∀ lid x, AvailableCasesPool.pendIdCount
      { p with
        normal_pool := (p.normal_pool.enqueue c).2,
        case_assignments := dictSet p.case_assignments c.case_id rec,
        lawyer_case_counts := lcc } lid x
      = AvailableCasesPool.pendIdCount p lid x := fun lid x => rfl
  refine ⟨hinv.uwf, hinv.ucap, hg2, by rw [hc2]; exact hinv.ncap,
    hinv.pgood, hinv.pnodup, ?_, ?_⟩
  · intro cid a hd
    by_cases hc : cid = c.case_id
    · subst hc
      rw [dictGet_dictSet_self] at hd
      injection hd with hd
      subst hd
      refine ⟨?_, ?_, ?_, ?_⟩
      · intro _
        refine ⟨?_, fun lid => by rw [hP]; exact hz3 lid⟩
        rw [hNeq, if_pos rfl, hU, hz1, hz2]
      · intro habs
        rcases hrec with h | h <;> rw [h] at habs <;> simp at habs
      · intro habs
        rcases hrec with h | h <;> rw [h] at habs <;> simp at habs
      · rcases hrec with h | h
        · exact Or.inl h
        · exact Or.inr (Or.inl h)
    · rw [dictGet_dictSet_ne _ _ _ _ hc] at hd
      refine assignFacts_of_counts_eq p _ cid a (hU cid) ?_ (fun lid => hP lid cid)
        (hinv.assigned cid a hd)
      rw [hNeq, if_neg fun he => hc he.symm]
      omega
  · intro cid hd
    by_cases hc : cid = c.case_id
    · subst hc
      rw [dictGet_dictSet_self] at hd
      exact absurd hd (by simp)
    · rw [dictGet_dictSet_ne _ _ _ _ hc] at hd
      refine zeroFacts_of_counts_eq p _ cid (hU cid) ?_ (fun lid => hP lid cid)
        (hinv.unassigned cid hd)
      rw [hNeq, if_neg fun he => hc he.symm]
      omega

theorem poolInv_unclaim (p : AvailableCasesPool) (cid : String) (cd : PoolCase)
    (hinv : PoolInv p) (hv : validOp p (.unclaim cid cd) = true) :
    PoolInv (p.unclaim_case cid cd).2 := by
  simp only [validOp, Bool.and_eq_true, decide_eq_true_eq] at hv
  obtain ⟨hcid, hcap⟩ := hv
  subst hcid
  cases hd : dictGet p.case_assignments cd.case_id with
  | none =>
    rw [unclaim_none_eq p cd.case_id cd hd]
    exact hinv
  | some a =>
    by_cases hs : a.status = "claimed"
    · have hz := (hinv.assigned cd.case_id a hd).2.2.1 hs
      cases hu : cd.urgency with
      | true =>
        rw [hu] at hcap
        simp only [if_true, decide_eq_true_eq] at hcap
        obtain ⟨lcc, heq⟩ := unclaim_success_urgent_eq p cd.case_id cd a hd hs hu
        rw [heq]
        exact poolInv_readd_urgent p cd lcc _ (Or.inl rfl) hinv hz hcap
      | false =>
        rw [hu] at hcap
        simp only [Bool.false_eq_true, if_false, decide_eq_true_eq] at hcap
        obtain ⟨lcc, heq⟩ := unclaim_success_normal_eq p cd.case_id cd a hd hs hu
        rw [heq]
        exact poolInv_readd_normal p cd lcc _ (Or.inl rfl) hinv hz hcap
    · rw [unclaim_notclaimed_eq p cd.case_id cd a hd hs]
      exact hinv


theorem poolInv_accept (p : AvailableCasesPool) (cid lid now : String)
    (hinv : PoolInv p) : PoolInv (p.accept_direct_request cid lid now).2 := by
  cases hcc : (AvailableCasesPool.can_lawyer_claim p lid).1 with
  | false =>
    rw [accept_cap_eq p cid lid now hcc]
    exact hinv
  | true =>
    cases hd : dictGet p.case_assignments cid with
    | none =>
      rw [accept_not_found_eq p cid lid now hcc hd]
      exact hinv
    | some a =>
      by_cases hs : a.status = "pending_direct"
      · by_cases hr : a.requested_lawyer = some lid
        · obtain ⟨lid0, hreq, hzU, hzN, hp1, hp0⟩ := (hinv.assigned cid a hd).2.1 hs
          have hlid : lid0 = lid := by
            have h2 := hreq.symm.trans hr
            injection h2
          subst hlid
          cases hq : dictGet p.pending_requests lid0 with
          | none =>
            exfalso
            rw [AvailableCasesPool.pendIdCount, AvailableCasesPool.pendingQ, hq] at hp1
            have hmk : (Option.getD (none : Option (Queue PoolCase))
                (Queue.mkEmpty PoolCase)) = Queue.mkEmpty PoolCase := rfl
            rw [hmk, queueItems_mkEmpty] at hp1
            simp [idCount] at hp1
          | some q =>
            rw [accept_success_eq p cid lid0 now a q hcc hd hs hr hq]
            obtain ⟨hqg, hqc⟩ := hinv.pgood (lid0, q) (mem_of_dictGet _ _ _ hq)
            have hpq : AvailableCasesPool.pendingQ p lid0 = q := by
              rw [AvailableCasesPool.pendingQ, hq]
              rfl
            have hFlen : ((queueItems q).filter
                (fun c => ¬ c.case_id = cid)).length ≤ Queue.DEFAULT_CAPACITY := by
              refine le_trans (List.length_filter_le _ _) ?_
              rw [← count_eq_items_length q hqg, ← hqc]
              exact hqg.1.2.1
            obtain ⟨hgR, hiR, hcapR, hnR⟩ := rebuildQueue_spec _ hFlen
            have hU : ∀ x, AvailableCasesPool.occUrgent
                { p with
                  pending_requests := dictSet p.pending_requests lid0
                    (AvailableCasesPool.rebuildQueue
                      ((queueItems q).filter (fun c => ¬ c.case_id = cid))),
                  case_assignments := dictSet p.case_assignments cid
                    ⟨"claimed", none, some lid0, false, some now, some "direct", none⟩,
                  lawyer_case_counts := dictSet p.lawyer_case_counts lid0
                    ((dictGet p.lawyer_case_counts lid0).getD 0 + 1) } x
                = AvailableCasesPool.occUrgent p x := fun x => rfl
            have hN : ∀ x, AvailableCasesPool.occNormal
                { p with
                  pending_requests := dictSet p.pending_requests lid0
                    (AvailableCasesPool.rebuildQueue
                      ((queueItems q).filter (fun c => ¬ c.case_id = cid))),
                  case_assignments := dictSet p.case_assignments cid
                    ⟨"claimed", none, some lid0, false, some now, some "direct", none⟩,
                  lawyer_case_counts := dictSet p.lawyer_case_counts lid0
                    ((dictGet p.lawyer_case_counts lid0).getD 0 + 1) } x
                = AvailableCasesPool.occNormal p x := fun x => rfl
            have hPself : ∀ x, AvailableCasesPool.pendIdCount
                { p with
                  pending_requests := dictSet p.pending_requests lid0
                    (AvailableCasesPool.rebuildQueue
                      ((queueItems q).filter (fun c => ¬ c.case_id = cid))),
                  case_assignments := dictSet p.case_assignments cid
                    ⟨"claimed", none, some lid0, false, some now, some "direct", none⟩,
                  lawyer_case_counts := dictSet p.lawyer_case_counts lid0
                    ((dictGet p.lawyer_case_counts lid0).getD 0 + 1) } lid0 x
                = idCount ((queueItems q).filter (fun c => ¬ c.case_id = cid)) x := by
              intro x
              rw [AvailableCasesPool.pendIdCount]
              show idCount (queueItems ((dictGet (dictSet p.pending_requests lid0
                (AvailableCasesPool.rebuildQueue
                  ((queueItems q).filter (fun c => ¬ c.case_id = cid)))) lid0).getD
                    (Queue.mkEmpty PoolCase))) x = _
              rw [dictGet_dictSet_self, Option.getD_some, hiR]
            have hPother : ∀ lid2, lid2 ≠ lid0 → ∀ x, AvailableCasesPool.pendIdCount
                { p with
                  pending_requests := dictSet p.pending_requests lid0
                    (AvailableCasesPool.rebuildQueue
                      ((queueItems q).filter (fun c => ¬ c.case_id = cid))),
                  case_assignments := dictSet p.case_assignments cid
                    ⟨"claimed", none, some lid0, false, some now, some "direct", none⟩,
                  lawyer_case_counts := dictSet p.lawyer_case_counts lid0
                    ((dictGet p.lawyer_case_counts lid0).getD 0 + 1) } lid2 x
                = AvailableCasesPool.pendIdCount p lid2 x := by
              intro lid2 hne x
              rw [AvailableCasesPool.pendIdCount]
              show idCount (queueItems ((dictGet (dictSet p.pending_requests lid0
                (AvailableCasesPool.rebuildQueue
                  ((queueItems q).filter (fun c => ¬ c.case_id = cid)))) lid2).getD
                    (Queue.mkEmpty PoolCase))) x = _
              rw [dictGet_dictSet_ne _ _ _ _ hne]
              rfl
            have hPany : ∀ lid2 x, x ≠ cid → AvailableCasesPool.pendIdCount
                { p with
                  pending_requests := dictSet p.pending_requests lid0
                    (AvailableCasesPool.rebuildQueue
                      ((queueItems q).filter (fun c => ¬ c.case_id = cid))),
                  case_assignments := dictSet p.case_assignments cid
                    ⟨"claimed", none, some lid0, false, some now, some "direct", none⟩,
                  lawyer_case_counts := dictSet p.lawyer_case_counts lid0
                    ((dictGet p.lawyer_case_counts lid0).getD 0 + 1) } lid2 x
                = AvailableCasesPool.pendIdCount p lid2 x := by
              intro lid2 x hx
              by_cases hne : lid2 = lid0
              · subst hne
                rw [hPself, idCount_filter_ne _ _ _ hx,
                  AvailableCasesPool.pendIdCount, hpq]
              · rw [hPother lid2 hne]
            refine ⟨hinv.uwf, hinv.ucap, hinv.ngood, hinv.ncap, ?_, ?_, ?_, ?_⟩
            · intro kv hkv
              rcases mem_dictSet _ _ _ _ hkv with h | h
              · rw [h]
                exact ⟨hgR, hcapR⟩
              · exact hinv.pgood kv h
            · exact nodup_keys_dictSet _ _ _ hinv.pnodup
            · intro cid2 a2 hd2
              by_cases hc : cid2 = cid
              · subst hc
                rw [dictGet_dictSet_self] at hd2
                injection hd2 with hd2
                subst hd2
                refine ⟨?_, ?_, ?_, Or.inr (Or.inr (Or.inr rfl))⟩
                · intro habs
                  rcases habs with h | h <;> simp at h
                · intro habs
                  simp at habs
                · intro _
                  refine ⟨by rw [hU]; exact hzU, by rw [hN]; exact hzN, ?_⟩
                  intro lid2
                  by_cases hne : lid2 = lid0
                  · subst hne
                    rw [hPself]
                    exact idCount_filter_self _ _
                  · rw [hPother lid2 hne]
                    exact hp0 lid2 hne
              · rw [dictGet_dictSet_ne _ _ _ _ hc] at hd2
                exact assignFacts_of_counts_eq p _ cid2 a2 (hU cid2) (hN cid2)
                  (fun lid2 => hPany lid2 cid2 hc) (hinv.assigned cid2 a2 hd2)
            · intro cid2 hd2
              by_cases hc : cid2 = cid
              · subst hc
                rw [dictGet_dictSet_self] at hd2
                exact absurd hd2 (by simp)
              · rw [dictGet_dictSet_ne _ _ _ _ hc] at hd2
                exact zeroFacts_of_counts_eq p _ cid2 (hU cid2) (hN cid2)
                  (fun lid2 => hPany lid2 cid2 hc) (hinv.unassigned cid2 hd2)
        · rw [accept_wrong_lawyer_eq p cid lid now a hcc hd hs hr]
          exact hinv
      · rw [accept_not_pending_eq p cid lid now a hcc hd hs]
        exact hinv


theorem poolInv_reject (p : AvailableCasesPool) (cid lid : String) (cd : PoolCase)
    (hinv : PoolInv p) (hv : validOp p (.reject cid lid cd) = true) :
    PoolInv (p.reject_direct_request cid lid cd).2 := by
  simp only [validOp, Bool.and_eq_true, decide_eq_true_eq] at hv
  obtain ⟨⟨hcid, hall⟩, hcap⟩ := hv
  subst hcid
  have hcapU : cd.urgency = true →
      p.urgent_pool.heap.length < p.urgent_pool.capacity := by
    intro hu
    rw [hu] at hcap
    simpa using hcap
  have hcapN : cd.urgency = false →
      p.normal_pool.count < p.normal_pool.capacity := by
    intro hu
    rw [hu] at hcap
    simpa using hcap
  clear hcap
  cases hd : dictGet p.case_assignments cd.case_id with
  | none =>
    rw [reject_none_eq p cd.case_id lid cd hd]
    exact hinv
  | some a =>
    by_cases hs : a.status = "pending_direct"
    · have hall2 : a.requested_lawyer = some lid := by
        rw [hd] at hall
        simpa [Option.all] using hall
      obtain ⟨lid0, hreq, hzU, hzN, hp1, hp0⟩ :=
        (hinv.assigned cd.case_id a hd).2.1 hs
      have hlid : lid0 = lid := by
        have h2 := hreq.symm.trans hall2
        injection h2
      subst hlid
      cases hq : dictGet p.pending_requests lid0 with
      | none =>
        exfalso
        rw [AvailableCasesPool.pendIdCount, AvailableCasesPool.pendingQ, hq] at hp1
        have hmk : (Option.getD (none : Option (Queue PoolCase))
            (Queue.mkEmpty PoolCase)) = Queue.mkEmpty PoolCase := rfl
        rw [hmk, queueItems_mkEmpty] at hp1
        simp [idCount] at hp1
      | some q =>
        obtain ⟨hqg, hqc⟩ := hinv.pgood (lid0, q) (mem_of_dictGet _ _ _ hq)
        have hpq : AvailableCasesPool.pendingQ p lid0 = q := by
          rw [AvailableCasesPool.pendingQ, hq]
          rfl
        have hFlen : ((queueItems q).filter
            (fun c => ¬ c.case_id = cd.case_id)).length ≤ Queue.DEFAULT_CAPACITY := by
          refine le_trans (List.length_filter_le _ _) ?_
          rw [← count_eq_items_length q hqg, ← hqc]
          exact hqg.1.2.1
        obtain ⟨hgR, hiR, hcapR, hnR⟩ := rebuildQueue_spec _ hFlen
        cases hu : cd.urgency with
        | true =>
          have hcap := hcapU hu
          rw [reject_success_urgent_eq p cd.case_id lid0 cd a q hd hs hq hu]
          have hUeq : ∀ x, AvailableCasesPool.occUrgent
              { p with
                pending_requests := dictSet p.pending_requests lid0
                  (AvailableCasesPool.rebuildQueue
                    ((queueItems q).filter (fun c => ¬ c.case_id = cd.case_id))),
                urgent_pool := (p.urgent_pool.enqueue cd 1).2,
                case_assignments := dictSet p.case_assignments cd.case_id
                  ⟨"rejected_then_available", none, none, true, none, none, some lid0⟩ } x
              = AvailableCasesPool.occUrgent p x
                + (if cd.case_id = x then 1 else 0) := by
            intro x
            have hperm := (PriorityQueue.enqueue_heap_perm p.urgent_pool cd 1 hcap).map
              PQEntry.item
            show idCount ((p.urgent_pool.enqueue cd 1).2.heap.map PQEntry.item) x = _
            rw [idCount_perm hperm, List.map_cons, idCount_cons]
            rfl
          have hN : ∀ x, AvailableCasesPool.occNormal
              { p with
                pending_requests := dictSet p.pending_requests lid0
                  (AvailableCasesPool.rebuildQueue
                    ((queueItems q).filter (fun c => ¬ c.case_id = cd.case_id))),
                urgent_pool := (p.urgent_pool.enqueue cd 1).2,
                case_assignments := dictSet p.case_assignments cd.case_id
                  ⟨"rejected_then_available", none, none, true, none, none, some lid0⟩ } x
              = AvailableCasesPool.occNormal p x := fun x => rfl
          have hPself : ∀ x, AvailableCasesPool.pendIdCount
              { p with
                pending_requests := dictSet p.pending_requests lid0
                  (AvailableCasesPool.rebuildQueue
                    ((queueItems q).filter (fun c => ¬ c.case_id = cd.case_id))),
                urgent_pool := (p.urgent_pool.enqueue cd 1).2,
                case_assignments := dictSet p.case_assignments cd.case_id
                  ⟨"rejected_then_available", none, none, true, none, none, some lid0⟩ }
                lid0 x
              = idCount ((queueItems q).filter
                  (fun c => ¬ c.case_id = cd.case_id)) x := by
            intro x
            rw [AvailableCasesPool.pendIdCount]
            show idCount (queueItems ((dictGet (dictSet p.pending_requests lid0
              (AvailableCasesPool.rebuildQueue
                ((queueItems q).filter (fun c => ¬ c.case_id = cd.case_id)))) lid0).getD
                  (Queue.mkEmpty PoolCase))) x = _
            rw [dictGet_dictSet_self, Option.getD_some, hiR]
          have hPother : ∀ lid2, lid2 ≠ lid0 → ∀ x, AvailableCasesPool.pendIdCount
              { p with
                pending_requests := dictSet p.pending_requests lid0
                  (AvailableCasesPool.rebuildQueue
                    ((queueItems q).filter (fun c => ¬ c.case_id = cd.case_id))),
                urgent_pool := (p.urgent_pool.enqueue cd 1).2,
                case_assignments := dictSet p.case_assignments cd.case_id
                  ⟨"rejected_then_available", none, none, true, none, none, some lid0⟩ }
                lid2 x
              = AvailableCasesPool.pendIdCount p lid2 x := by
            intro lid2 hne x
            rw [AvailableCasesPool.pendIdCount]
            show idCount (queueItems ((dictGet (dictSet p.pending_requests lid0
              (AvailableCasesPool.rebuildQueue
                ((queueItems q).filter (fun c => ¬ c.case_id = cd.case_id)))) lid2).getD
                  (Queue.mkEmpty PoolCase))) x = _
            rw [dictGet_dictSet_ne _ _ _ _ hne]
            rfl
          have hPany : ∀ lid2 x, x ≠ cd.case_id → AvailableCasesPool.pendIdCount
              { p with
                pending_requests := dictSet p.pending_requests lid0
                  (AvailableCasesPool.rebuildQueue
                    ((queueItems q).filter (fun c => ¬ c.case_id = cd.case_id))),
                urgent_pool := (p.urgent_pool.enqueue cd 1).2,
                case_assignments := dictSet p.case_assignments cd.case_id
                  ⟨"rejected_then_available", none, none, true, none, none, some lid0⟩ }
                lid2 x
              = AvailableCasesPool.pendIdCount p lid2 x := by
            intro lid2 x hx
            by_cases hne : lid2 = lid0
            · subst hne
              rw [hPself, idCount_filter_ne _ _ _ hx,
                AvailableCasesPool.pendIdCount, hpq]
            · rw [hPother lid2 hne]
          refine ⟨PriorityQueue.enqueue_wf p.urgent_pool cd 1 hinv.uwf,
            by rw [show ({ p with
                pending_requests := dictSet p.pending_requests lid0
                  (AvailableCasesPool.rebuildQueue
                    ((queueItems q).filter (fun c => ¬ c.case_id = cd.case_id))),
                urgent_pool := (p.urgent_pool.enqueue cd 1).2,
                case_assignments := dictSet p.case_assignments cd.case_id
                  ⟨"rejected_then_available", none, none, true, none, none, some lid0⟩ }
                : AvailableCasesPool).urgent_pool = (p.urgent_pool.enqueue cd 1).2
                from rfl, enqueue_capacity]; exact hinv.ucap,
            hinv.ngood, hinv.ncap, ?_, ?_, ?_, ?_⟩
          · intro kv hkv
            rcases mem_dictSet _ _ _ _ hkv with h | h
            · rw [h]
              exact ⟨hgR, hcapR⟩
            · exact hinv.pgood kv h
          · exact nodup_keys_dictSet _ _ _ hinv.pnodup
          · intro cid2 a2 hd2
            by_cases hc : cid2 = cd.case_id
            · subst hc
              rw [dictGet_dictSet_self] at hd2
              injection hd2 with hd2
              subst hd2
              refine ⟨?_, ?_, ?_, Or.inr (Or.inl rfl)⟩
              · intro _
                refine ⟨?_, ?_⟩
                · rw [hUeq, if_pos rfl, hN, hzU, hzN]
                · intro lid2
                  by_cases hne : lid2 = lid0
                  · subst hne
                    rw [hPself]
                    exact idCount_filter_self _ _
                  · rw [hPother lid2 hne]
                    exact hp0 lid2 hne
              · intro habs
                simp at habs
              · intro habs
                simp at habs
            · rw [dictGet_dictSet_ne _ _ _ _ hc] at hd2
              refine assignFacts_of_counts_eq p _ cid2 a2 ?_ (hN cid2)
                (fun lid2 => hPany lid2 cid2 hc) (hinv.assigned cid2 a2 hd2)
              rw [hUeq, if_neg fun he => hc he.symm]
              omega
          · intro cid2 hd2
            by_cases hc : cid2 = cd.case_id
            · subst hc
              rw [dictGet_dictSet_self] at hd2
              exact absurd hd2 (by simp)
            · rw [dictGet_dictSet_ne _ _ _ _ hc] at hd2
              refine zeroFacts_of_counts_eq p _ cid2 ?_ (hN cid2)
                (fun lid2 => hPany lid2 cid2 hc) (hinv.unassigned cid2 hd2)
              rw [hUeq, if_neg fun he => hc he.symm]
              omega
        | false =>
          have hcap := hcapN hu
          rw [reject_success_normal_eq p cd.case_id lid0 cd a q hd hs hq hu]
          obtain ⟨hg2, hi2, hc2, hn2⟩ := qgood_enqueue p.normal_pool cd hinv.ngood hcap
          have hNeq : ∀ x, AvailableCasesPool.occNormal
              { p with
                pending_requests := dictSet p.pending_requests lid0
                  (AvailableCasesPool.rebuildQueue
                    ((queueItems q).filter (fun c => ¬ c.case_id = cd.case_id))),
                normal_pool := (p.normal_pool.enqueue cd).2,
                case_assignments := dictSet p.case_assignments cd.case_id
                  ⟨"rejected_then_available", none, none, true, none, none, some lid0⟩ } x
              = AvailableCasesPool.occNormal p x
                + (if cd.case_id = x then 1 else 0) := by
            intro x
            show idCount (queueItems (p.normal_pool.enqueue cd).2) x = _
            rw [hi2, idCount_append, idCount_singleton]
            rfl
          have hU : ∀ x, AvailableCasesPool.occUrgent
              { p with
                pending_requests := dictSet p.pending_requests lid0
                  (AvailableCasesPool.rebuildQueue
                    ((queueItems q).filter (fun c => ¬ c.case_id = cd.case_id))),
                normal_pool := (p.normal_pool.enqueue cd).2,
                case_assignments := dictSet p.case_assignments cd.case_id
                  ⟨"rejected_then_available", none, none, true, none, none, some lid0⟩ } x
              = AvailableCasesPool.occUrgent p x := fun x => rfl
          have hPself : ∀ x, AvailableCasesPool.pendIdCount
              { p with
                pending_requests := dictSet p.pending_requests lid0
                  (AvailableCasesPool.rebuildQueue
                    ((queueItems q).filter (fun c => ¬ c.case_id = cd.case_id))),
                normal_pool := (p.normal_pool.enqueue cd).2,
                case_assignments := dictSet p.case_assignments cd.case_id
                  ⟨"rejected_then_available", none, none, true, none, none, some lid0⟩ }
                lid0 x
              = idCount ((queueItems q).filter
                  (fun c => ¬ c.case_id = cd.case_id)) x := by
            intro x
            rw [AvailableCasesPool.pendIdCount]
            show idCount (queueItems ((dictGet (dictSet p.pending_requests lid0
              (AvailableCasesPool.rebuildQueue
                ((queueItems q).filter (fun c => ¬ c.case_id = cd.case_id)))) lid0).getD
                  (Queue.mkEmpty PoolCase))) x = _
            rw [dictGet_dictSet_self, Option.getD_some, hiR]
          have hPother : ∀ lid2, lid2 ≠ lid0 → ∀ x, AvailableCasesPool.pendIdCount
              { p with
                pending_requests := dictSet p.pending_requests lid0
                  (AvailableCasesPool.rebuildQueue
                    ((queueItems q).filter (fun c => ¬ c.case_id = cd.case_id))),
                normal_pool := (p.normal_pool.enqueue cd).2,
                case_assignments := dictSet p.case_assignments cd.case_id
                  ⟨"rejected_then_available", none, none, true, none, none, some lid0⟩ }
                lid2 x
              = AvailableCasesPool.pendIdCount p lid2 x := by
            intro lid2 hne x
            rw [AvailableCasesPool.pendIdCount]
            show idCount (queueItems ((dictGet (dictSet p.pending_requests lid0
              (AvailableCasesPool.rebuildQueue
                ((queueItems q).filter (fun c => ¬ c.case_id = cd.case_id)))) lid2).getD
                  (Queue.mkEmpty PoolCase))) x = _
            rw [dictGet_dictSet_ne _ _ _ _ hne]
            rfl
          have hPany : ∀ lid2 x, x ≠ cd.case_id → AvailableCasesPool.pendIdCount
              { p with
                pending_requests := dictSet p.pending_requests lid0
                  (AvailableCasesPool.rebuildQueue
                    ((queueItems q).filter (fun c => ¬ c.case_id = cd.case_id))),
                normal_pool := (p.normal_pool.enqueue cd).2,
                case_assignments := dictSet p.case_assignments cd.case_id
                  ⟨"rejected_then_available", none, none, true, none, none, some lid0⟩ }
                lid2 x
              = AvailableCasesPool.pendIdCount p lid2 x := by
            intro lid2 x hx
            by_cases hne : lid2 = lid0
            · subst hne
              rw [hPself, idCount_filter_ne _ _ _ hx,
                AvailableCasesPool.pendIdCount, hpq]
            · rw [hPother lid2 hne]
          refine ⟨hinv.uwf, hinv.ucap, hg2, by rw [hc2]; exact hinv.ncap,
            ?_, ?_, ?_, ?_⟩
          · intro kv hkv
            rcases mem_dictSet _ _ _ _ hkv with h | h
            · rw [h]
              exact ⟨hgR, hcapR⟩
            · exact hinv.pgood kv h
          · exact nodup_keys_dictSet _ _ _ hinv.pnodup
          · intro cid2 a2 hd2
            by_cases hc : cid2 = cd.case_id
            · subst hc
              rw [dictGet_dictSet_self] at hd2
              injection hd2 with hd2
              subst hd2
              refine ⟨?_, ?_, ?_, Or.inr (Or.inl rfl)⟩
              · intro _
                refine ⟨?_, ?_⟩
                · rw [hNeq, if_pos rfl, hU, hzU, hzN]
                · intro lid2
                  by_cases hne : lid2 = lid0
                  · subst hne
                    rw [hPself]
                    exact idCount_filter_self _ _
                  · rw [hPother lid2 hne]
                    exact hp0 lid2 hne
              · intro habs
                simp at habs
              · intro habs
                simp at habs
            · rw [dictGet_dictSet_ne _ _ _ _ hc] at hd2
              refine assignFacts_of_counts_eq p _ cid2 a2 (hU cid2) ?_
                (fun lid2 => hPany lid2 cid2 hc) (hinv.assigned cid2 a2 hd2)
              rw [hNeq, if_neg fun he => hc he.symm]
              omega
          · intro cid2 hd2
            by_cases hc : cid2 = cd.case_id
            · subst hc
              rw [dictGet_dictSet_self] at hd2
              exact absurd hd2 (by simp)
            · rw [dictGet_dictSet_ne _ _ _ _ hc] at hd2
              refine zeroFacts_of_counts_eq p _ cid2 (hU cid2) ?_
                (fun lid2 => hPany lid2 cid2 hc) (hinv.unassigned cid2 hd2)
              rw [hNeq, if_neg fun he => hc he.symm]
              omega
    · rw [reject_notpending_eq p cd.case_id lid cd a hd hs]
      exact hinv


theorem poolInv_step (p : AvailableCasesPool) (op : PoolOp)
    (hinv : PoolInv p) (hv : validOp p op = true) : PoolInv (applyPoolOp p op) := by
  cases op with
  | add c => exact poolInv_add p c hinv hv
  | claim cid lid now => exact poolInv_claim p cid lid now hinv
  | unclaim cid cd => exact poolInv_unclaim p cid cd hinv hv
  | accept cid lid now => exact poolInv_accept p cid lid now hinv
  | reject cid lid cd => exact poolInv_reject p cid lid cd hinv hv

theorem poolInv_foldl (ops : List PoolOp) : ∀ p, PoolInv p →
    validSeq p ops = true → PoolInv (ops.foldl applyPoolOp p) := by
  induction ops with
  | nil =>
    intro p h _
    exact h
  | cons op rest ih =>
    intro p h hv
    simp only [validSeq, Bool.and_eq_true] at hv
    rw [List.foldl_cons]
    exact ih (applyPoolOp p op) (poolInv_step p op h hv.1) hv.2

theorem poolInv_run (ops : List PoolOp)
    (hv : validSeq AvailableCasesPool.mkEmpty ops = true) : PoolInv (runPool ops) :=
  poolInv_foldl ops _ poolInv_mkEmpty hv

/-- The claim-facing exactly-once statement follows from the strengthened
invariant. -/
theorem claimInv_of_poolInv (p : AvailableCasesPool) (hinv : PoolInv p) :
    (∀ cid a, dictGet p.case_assignments cid = some a →
       ((a.status = "available" ∨ a.status = "rejected_then_available" ∨
           a.status = "pending_direct") →
         AvailableCasesPool.occurrences p cid = 1) ∧
       (a.status = "claimed" → AvailableCasesPool.occurrences p cid = 0)) ∧
    (∀ cid, AvailableCasesPool.occurrences p cid ≤ 1) := by
  have hin : ∀ cid a, dictGet p.case_assignments cid = some a →
      ((a.status = "available" ∨ a.status = "rejected_then_available" ∨
          a.status = "pending_direct") →
        AvailableCasesPool.occurrences p cid = 1) ∧
      (a.status = "claimed" → AvailableCasesPool.occurrences p cid = 0) := by
    intro cid a hd
    have hf := hinv.assigned cid a hd
    constructor
    · intro hst
      rcases hst with h | h | h
      · obtain ⟨hsum, hpend⟩ := hf.1 (Or.inl h)
        rw [AvailableCasesPool.occurrences,
          occPending_eq_zero p cid hinv.pnodup hpend]
        omega
      · obtain ⟨hsum, hpend⟩ := hf.1 (Or.inr h)
        rw [AvailableCasesPool.occurrences,
          occPending_eq_zero p cid hinv.pnodup hpend]
        omega
      · obtain ⟨lid, -, hzU, hzN, hp1, hp0⟩ := hf.2.1 h
        rw [AvailableCasesPool.occurrences, hzU, hzN,
          occPending_eq_single p cid lid hinv.pnodup hp1 hp0]
    · intro h
      obtain ⟨hzU, hzN, hpend⟩ := hf.2.2.1 h
      rw [AvailableCasesPool.occurrences, hzU, hzN,
        occPending_eq_zero p cid hinv.pnodup hpend]
  refine ⟨hin, ?_⟩
  intro cid
  cases hd : dictGet p.case_assignments cid with
  | none =>
    obtain ⟨hzU, hzN, hpend⟩ := hinv.unassigned cid hd
    rw [AvailableCasesPool.occurrences, hzU, hzN,
      occPending_eq_zero p cid hinv.pnodup hpend]
    omega
  | some a =>
    have hf := hinv.assigned cid a hd
    rcases hf.2.2.2 with h | h | h | h
    · rw [(hin cid a hd).1 (Or.inl h)]
    · rw [(hin cid a hd).1 (Or.inr (Or.inl h))]
    · rw [(hin cid a hd).1 (Or.inr (Or.inr h))]
    · rw [(hin cid a hd).2 h]
      omega

/-- C6 (amended): over every sequence of pool operations from the empty pool
in which cases are only (re-)added while absent from every structure,
`case_data` arguments describe the case they are passed for, rejections are
performed by the requested lawyer, and the receiving fixed-capacity structure
has room (`validSeq`), every case recorded in `case_assignments` occurs
exactly once across the urgent pool, the normal pool and all pending-request
queues while its status is `available`, `rejected_then_available` or
`pending_direct`, occurs nowhere when `claimed`, and no case id ever occurs
more than once across or within these structures.  Without the added-only-
when-absent proviso the claim is false, see `claim_C6_counterexample`. -/
theorem claim_C6 (ops : List PoolOp)
    (hvalid : validSeq AvailableCasesPool.mkEmpty ops = true) :
    (∀ cid a, dictGet (runPool ops).case_assignments cid = some a →
       ((a.status = "available" ∨ a.status = "rejected_then_available" ∨
           a.status = "pending_direct") →
         AvailableCasesPool.occurrences (runPool ops) cid = 1) ∧
       (a.status = "claimed" →
         AvailableCasesPool.occurrences (runPool ops) cid = 0)) ∧
    (∀ cid, AvailableCasesPool.occurrences (runPool ops) cid ≤ 1) :=
  claimInv_of_poolInv _ (poolInv_run ops hvalid)

/-- C6 counterexample (refuting the unamended claim): `add_to_pool` performs
no duplicate check, so adding the same (normal, non-direct) case twice from
the empty pool leaves its `case_id` twice in the normal pool while its
assignment status is `available` — the case is not "in exactly one structure,
never duplicated". -/
theorem claim_C6_counterexample :
    AvailableCasesPool.occurrences
        (runPool [PoolOp.add c6Case, PoolOp.add c6Case]) "C6-A" = 2 ∧
      (dictGet (runPool [PoolOp.add c6Case, PoolOp.add c6Case]).case_assignments
          "C6-A").map (fun a => a.status) = some "available" :=
  ⟨rfl, rfl⟩

/-- Witness for C6: a single urgent add from the empty pool is a valid
sequence. -/
theorem claim_C6_witness :
    validSeq AvailableCasesPool.mkEmpty [PoolOp.add w6Case] = true ∧
      ((∀ cid a, dictGet (runPool [PoolOp.add w6Case]).case_assignments cid
            = some a →
         ((a.status = "available" ∨ a.status = "rejected_then_available" ∨
             a.status = "pending_direct") →
           AvailableCasesPool.occurrences (runPool [PoolOp.add w6Case]) cid = 1) ∧
         (a.status = "claimed" →
           AvailableCasesPool.occurrences (runPool [PoolOp.add w6Case]) cid = 0)) ∧
       (∀ cid, AvailableCasesPool.occurrences (runPool [PoolOp.add w6Case]) cid
          ≤ 1)) :=
  ⟨by decide, claim_C6 [PoolOp.add w6Case] (by decide)⟩

end LawFirm
